import Mathlib

/-!
Timeline model (the nested interval store) and the Sqlite database backend.

A shallow embedding of `src/libs/tracing/timelinemodel.cpp` and of `nextItem` of
`src/libs/tracing/timelinemodelaggregator.cpp` (namespace `Timeline`), and of
`src/libs/sqlite/sqlitedatabasebackend.cpp` (namespace `Sqlite`).  The definitions of
both come first, the theorems follow.

Timestamps (`qint64`) and indices (`int`) are embedded as unbounded integers: the
properties below are about stores whose timestamps and sizes stay inside the machine
ranges, where no addition of the code wraps.  An index that the code stores or returns
with the sentinel `-1` is an `Int`; a loop counter or a position of a `std::list<int>`
of visited ranges is a `Nat`.

The backend is embedded with explicit state passing: the state holds the connection
handle, the trace of the native calls made so far and the number of warnings logged; the
result codes of the engine and the answers of the file system are read from an `Engine`
record, the outcomes of SQL statements from a `Database` record.
-/

namespace Timeline

/-- Modelled from the spec: the type `TimelineModelPrivate::Range` is declared in
`timelinemodel_p.h`, which is not among the sources.  The spec gives an interval the
fields start, duration, selection group and parent (an index or -1); `endIndex` is the
positional reference that `setEndIndex` and `incrementEndIndices` keep up to date.  The
names are the ones `timelinemodel.cpp` uses. -/
structure Range where
  start : Int
  duration : Int
  selectionId : Int
  parent : Int
  endIndex : Int
  deriving DecidableEq, Repr

/-- Modelled from the spec: the type `TimelineModelPrivate::RangeEnd` is declared in
`timelinemodel_p.h`, which is not among the sources.  An entry of the end index is a pair
of an end time (`end` in the code) and a reference to a position of the start index. -/
structure RangeEnd where
  startIndex : Int
  endTime : Int
  deriving DecidableEq, Repr

/-- The value of `Range()`: every field is -1. -/
instance : Inhabited Range := ⟨⟨-1, -1, -1, -1, -1⟩⟩

/-- The value of `RangeEnd()`: every field is -1. -/
instance : Inhabited RangeEnd := ⟨⟨-1, -1⟩⟩

/-- The constructor `Range(start, duration, selectionId)`: the parent is -1. -/
def Range.mk3 (start duration selectionId : Int) : Range :=
  ⟨start, duration, selectionId, -1, -1⟩

/-- The private data of a `TimelineModel`, as far as `timelinemodel.cpp` reads and
writes it: the start index `ranges`, the end index `endTimes` and the row layout. -/
structure TimelineModelPrivate where
  ranges : List Range
  endTimes : List RangeEnd
  rowOffsets : List Int
  expanded : Bool
  hidden : Bool
  expandedRowCount : Int
  collapsedRowCount : Int
  deriving DecidableEq, Repr

/-- A freshly constructed model: no ranges, one row, neither expanded nor hidden. -/
def TimelineModelPrivate.init : TimelineModelPrivate :=
  ⟨[], [], [], false, false, 1, 1⟩

/-- The element access `ranges[i]` for a position `i` of the start index. -/
def rangeAt (ranges : List Range) (i : Nat) : Range := ranges.getD i default

/-- The element access `ranges[i]` for an `int` index. -/
def rangeAtInt (ranges : List Range) (i : Int) : Range :=
  if i < 0 then default else rangeAt ranges i.toNat

/-- The element access `endTimes[i]`. -/
def endAt (endTimes : List RangeEnd) (i : Nat) : RangeEnd := endTimes.getD i default

/-- The end time `start + duration` of the range at position `i`. -/
def rangeEnd (ranges : List Range) (i : Nat) : Int :=
  (rangeAt ranges i).start + (rangeAt ranges i).duration

/-- The assignment `ranges[range].parent = p`. -/
def setParent (ranges : List Range) (range : Nat) (p : Int) : List Range :=
  ranges.set range { rangeAt ranges range with parent := p }

/-- The inner loop of `computeNesting` for the range at position `range`.  The
`std::list<int> parents` is split at the iterator `parentIt`: `kept` holds the entries
before it, the last argument the entries from it on.  The result is the updated start
index and the updated list `parents`. -/
def nestingStep (ranges : List Range) (range : Nat) :
    List Nat → List Nat → List Range × List Nat
  | kept, [] => (ranges, kept ++ [range])
  | kept, p :: rest =>
    let current := rangeAt ranges range
    let parent := rangeAt ranges p
    let parentEnd := parent.start + parent.duration
    if parentEnd < current.start then
      nestingStep ranges range kept rest
    else if parentEnd ≥ current.start + current.duration then
      (setParent ranges range (if parent.parent = -1 then (p : Int) else parent.parent),
        kept ++ p :: rest)
    else if parent.start = current.start then
      (setParent ranges range (p : Int), kept ++ p :: rest ++ [range])
    else
      nestingStep ranges range (kept ++ [p]) rest

/-- The outer loop of `computeNesting` over the positions `0 .. count() - 1`, on the
state made of the start index and the list `parents`. -/
def nestingLoop (count : Nat) (ranges : List Range) : List Range × List Nat :=
  (List.range count).foldl (fun st range => nestingStep st.1 range [] st.2) (ranges, [])

/-- The start index after `TimelineModel::computeNesting`. -/
def computeNestingRanges (ranges : List Range) : List Range :=
  (nestingLoop ranges.length ranges).1

/-- `TimelineModel::computeNesting`: only the parent fields of the start index change. -/
def computeNesting (d : TimelineModelPrivate) : TimelineModelPrivate :=
  { d with ranges := computeNestingRanges d.ranges }

/-- `TimelineModel::count`. -/
def count (d : TimelineModelPrivate) : Int := d.ranges.length

/-- `TimelineModel::startTime`. -/
def startTime (d : TimelineModelPrivate) (index : Int) : Int :=
  (rangeAtInt d.ranges index).start

/-- `TimelineModel::duration`. -/
def duration (d : TimelineModelPrivate) (index : Int) : Int :=
  (rangeAtInt d.ranges index).duration

/-- `TimelineModel::endTime`. -/
def endTime (d : TimelineModelPrivate) (index : Int) : Int :=
  (rangeAtInt d.ranges index).start + (rangeAtInt d.ranges index).duration

/-- `TimelineModel::selectionId`. -/
def selectionId (d : TimelineModelPrivate) (index : Int) : Int :=
  (rangeAtInt d.ranges index).selectionId

/-- `TimelineModel::parentIndex`. -/
def parentIndex (d : TimelineModelPrivate) (index : Int) : Int :=
  (rangeAtInt d.ranges index).parent

/-- The test `parentEnd < current.start` of `computeNesting`: the range at position `x`
ends before the range at position `range` starts. -/
def passedBy (ranges : List Range) (range x : Nat) : Bool :=
  decide (rangeEnd ranges x < (rangeAt ranges range).start)

/-- An entry of `parents` that the inner loop of `computeNesting` leaves behind: it is
either erased because the walk has passed it, or stepped over because it neither covers
the current range nor starts at the same time. -/
def SteppedOver (ranges : List Range) (range x : Nat) : Prop :=
  rangeEnd ranges x < (rangeAt ranges range).start ∨
    (rangeEnd ranges x < rangeEnd ranges range ∧
      (rangeAt ranges x).start ≠ (rangeAt ranges range).start)

/-- The loop invariant of `computeNesting` before the range at position `k` is
processed, over the start times `S`, the end times `E`, the parent fields `par` and the
list `L` of parent candidates. -/
structure NestInv (S E par : Nat → Int) (L : List Nat) (k : Nat) : Prop where
  incr : L.Pairwise (fun a b => a < b)
  bound : ∀ p ∈ L, p < k
  fresh : ∀ i, k ≤ i → par i = -1
  listParent : ∀ p ∈ L, par p = -1 ∨ ∃ q : Nat, par p = (q : Int) ∧ q < p ∧ S q = S p ∧
    E q < E p ∧ par q = -1 ∧ (q ∈ L ∨ ∃ m, m < k ∧ E q < S m)
  cover : ∀ j, j < k → j ∈ L ∨ (∃ m, m < k ∧ E j < S m) ∨ (∃ p ∈ L, p < j ∧ E j ≤ E p)
  parentOk : ∀ i, i < k → par i = -1 ∨ ∃ q : Nat, par i = (q : Int) ∧ q < i ∧ par q = -1 ∧
    (E i ≤ E q ∨ S q = S i ∨ ∃ p, p < i ∧ par p = (q : Int) ∧ S p = S q ∧ E i ≤ E p)
  lowest : ∀ i, i < k → ∀ j, j < i → E i ≤ E j → ∃ q : Nat, par i = (q : Int) ∧ q ≤ j
  exact : ∀ i, i < k → (∀ a b, a < b → b ≤ i → S a ≠ S b) →
    (∀ j, j < i → E i ≤ E j → (∀ j2, j2 < j → E j2 < E i) → par i = (j : Int)) ∧
    ((∀ j, j < i → E j < E i) → par i = -1)

/-- The start index is sorted by start time. -/
def StartSorted (ranges : List Range) : Prop :=
  ranges.Pairwise (fun a b => a.start ≤ b.start)

instance (ranges : List Range) : Decidable (StartSorted ranges) := by
  unfold StartSorted; infer_instance

/-- The state of `computeNesting` after `k` iterations of the outer loop, started on
`ranges0`: the start index `ranges` differs from `ranges0` in parent fields only, and
the loop invariant holds. -/
structure LoopState (ranges0 ranges : List Range) (L : List Nat) (k : Nat) : Prop where
  length : ranges.length = ranges0.length
  start : ∀ i, (rangeAt ranges i).start = (rangeAt ranges0 i).start
  duration : ∀ i, (rangeAt ranges i).duration = (rangeAt ranges0 i).duration
  selection : ∀ i, (rangeAt ranges i).selectionId = (rangeAt ranges0 i).selectionId
  inv : NestInv (fun i => (rangeAt ranges0 i).start) (fun i => rangeEnd ranges0 i)
    (fun i => (rangeAt ranges i).parent) L k

/-- The element access `container[i].timestamp()` on the timestamps of a start or end
index, for an `int` position. -/
def timestampAt (container : List Int) (i : Int) : Int := container.getD i.toNat 0

/-- Modelled from the spec: the loop of `lowerBound`, a helper of `timelinemodel_p.h`,
which is not among the sources.  The spec calls it a binary search for the last entry
whose timestamp is strictly before `time`; the comments of its callers add that it
cannot deal with empty lists, never returns "invalid" and never finds the last element.
The search keeps `fromIndex` below and `toIndex` at or above the boundary and halves the
distance until the two are neighbours.  The first argument bounds the number of
iterations; `lowerBoundLoop_fuel` shows that the bound `lowerBound` passes is never
reached. -/
def lowerBoundLoop (container : List Int) (time : Int) : Nat → Int → Int → Int
  | 0, fromIndex, _ => fromIndex
  | fuel + 1, fromIndex, toIndex =>
    if toIndex - fromIndex > 1 then
      let midIndex := (fromIndex + toIndex) / 2
      if timestampAt container midIndex < time then
        lowerBoundLoop container time fuel midIndex toIndex
      else
        lowerBoundLoop container time fuel fromIndex midIndex
    else
      fromIndex

/-- Modelled from the spec: `lowerBound(container, time)` of `timelinemodel_p.h`, which
is not among the sources: the binary search between position 0 and the last position. -/
def lowerBound (container : List Int) (time : Int) : Int :=
  lowerBoundLoop container time container.length 0 ((container.length : Int) - 1)

/-- The element access `endTimes[i]` for an `int` index. -/
def endAtInt (endTimes : List RangeEnd) (i : Int) : RangeEnd :=
  if i < 0 then default else endAt endTimes i.toNat

/-- `TimelineModel::lastIndex`. -/
def lastIndex (d : TimelineModelPrivate) (endTime : Int) : Int :=
  if d.ranges.isEmpty ∨ (rangeAt d.ranges 0).start ≥ endTime then
    -1
  else if (rangeAt d.ranges (d.ranges.length - 1)).start < endTime then
    (d.ranges.length : Int) - 1
  else
    lowerBound (d.ranges.map Range.start) endTime

/-- `TimelineModel::TimelineModelPrivate::firstIndexNoParents`. -/
def firstIndexNoParents (d : TimelineModelPrivate) (startTime : Int) : Int :=
  if d.endTimes.isEmpty ∨ (endAt d.endTimes (d.endTimes.length - 1)).endTime ≤ startTime then
    -1
  else if (endAt d.endTimes 0).endTime > startTime then
    (endAt d.endTimes 0).startIndex
  else
    (endAtInt d.endTimes (lowerBound (d.endTimes.map RangeEnd.endTime) startTime + 1)).startIndex

/-- `TimelineModel::firstIndex`. -/
def firstIndex (d : TimelineModelPrivate) (startTime : Int) : Int :=
  let index := firstIndexNoParents d startTime
  if index = -1 then
    -1
  else
    let parent := (rangeAtInt d.ranges index).parent
    if parent = -1 then index else parent

/-- Modelled from the spec: the backward scan of `insertStart(const Range &)`, a helper
of `timelinemodel_p.h`, which is not among the sources.  The spec: scan backward from the
end while `existing.start > new.start`, insert at that point.  The argument is the number
of entries not yet scanned; the result is the insertion position. -/
def insertStartPos (ranges : List Range) (start : Range) : Nat → Nat
  | 0 => 0
  | i + 1 =>
    if (rangeAt ranges i).start > start.start then insertStartPos ranges start i else i + 1

/-- Modelled from the spec: `TimelineModelPrivate::insertStart(const Range &)` of
`timelinemodel_p.h`, which is not among the sources: the range is inserted into the
start index at the position found by the scan from the tail, and that position is
returned. -/
def TimelineModelPrivate.insertStart (d : TimelineModelPrivate) (start : Range) :
    TimelineModelPrivate × Int :=
  let i := insertStartPos d.ranges start d.ranges.length
  ({ d with ranges := d.ranges.take i ++ start :: d.ranges.drop i }, (i : Int))

/-- Modelled from the spec: the backward scan of `insertEnd(const RangeEnd &)`, a helper
of `timelinemodel_p.h`, which is not among the sources.  The spec: the same tail-biased
search over the end time. -/
def insertEndPos (endTimes : List RangeEnd) (e : RangeEnd) : Nat → Nat
  | 0 => 0
  | i + 1 =>
    if (endAt endTimes i).endTime > e.endTime then insertEndPos endTimes e i else i + 1

/-- Modelled from the spec: `TimelineModelPrivate::insertEnd(const RangeEnd &)` of
`timelinemodel_p.h`, which is not among the sources: the entry is inserted into the end
index at the position found by the scan from the tail, and that position is returned. -/
def TimelineModelPrivate.insertEnd (d : TimelineModelPrivate) (e : RangeEnd) :
    TimelineModelPrivate × Int :=
  let i := insertEndPos d.endTimes e d.endTimes.length
  ({ d with endTimes := d.endTimes.take i ++ e :: d.endTimes.drop i }, (i : Int))

/-- Modelled from the spec: `incrementStartIndices(index)` of `timelinemodel_p.h`, which
is not among the sources.  The spec: every start-index reference of the end index that
is at or after the insertion point is incremented. -/
def incrementStartIndices (d : TimelineModelPrivate) (index : Int) : TimelineModelPrivate :=
  { d with endTimes := d.endTimes.map (fun e =>
      if e.startIndex ≥ index then { e with startIndex := e.startIndex + 1 } else e) }

/-- Modelled from the spec: `setEndIndex(index, endIndex)` of `timelinemodel_p.h`, which
is not among the sources.  The spec only speaks of bookkeeping that stores positional
references: the range at `index` records the position of its entry in the end index. -/
def setEndIndex (d : TimelineModelPrivate) (index endIndex : Int) : TimelineModelPrivate :=
  if index < 0 then d
  else { d with ranges :=
    d.ranges.set index.toNat { rangeAt d.ranges index.toNat with endIndex := endIndex } }

/-- Modelled from the spec: `incrementEndIndices(endIndex)` of `timelinemodel_p.h`,
which is not among the sources.  The spec asks for the same renumbering of positional
references as for the start index: a range whose recorded end-index position is at or
after the insertion point, other than the range just inserted there, records the next
position. -/
def incrementEndIndices (d : TimelineModelPrivate) (endIndex : Int) : TimelineModelPrivate :=
  { d with ranges := (List.range d.ranges.length).map (fun i =>
      let r := rangeAt d.ranges i
      if r.endIndex ≥ endIndex ∧ (endAtInt d.endTimes endIndex).startIndex ≠ (i : Int) then
        { r with endIndex := r.endIndex + 1 }
      else r) }

/-- `TimelineModel::insert`: the new store and the returned index. -/
def insert (d : TimelineModelPrivate) (startTime duration selectionId : Int) :
    TimelineModelPrivate × Int :=
  let (d1, index) := d.insertStart (Range.mk3 startTime duration selectionId)
  let d2 := if index < (d1.ranges.length : Int) - 1 then incrementStartIndices d1 index else d1
  let (d3, endIndex) := d2.insertEnd ⟨index, startTime + duration⟩
  let d4 := setEndIndex d3 index endIndex
  let d5 := if endIndex < (d4.endTimes.length : Int) - 1 then incrementEndIndices d4 endIndex else d4
  (d5, index)

/-- A sequence of `insert` calls on a store, first call first; the result is the final
store and the indices the calls returned, in order. -/
def insertAll (d : TimelineModelPrivate) : List (Int × Int × Int) → TimelineModelPrivate × List Int
  | [] => (d, [])
  | (s, dur, g) :: calls =>
    let r := insert d s dur g
    let rs := insertAll r.1 calls
    (rs.1, r.2 :: rs.2)

/-- The `do ... while (ndx != startIndex)` loop of `nextItemById`.  The first argument
bounds the number of iterations; `none` stands for a loop that has not left within the
bound.  For the non-negative `ndx` and positive `count` of the code, `%` is the remainder
of C++. -/
def nextItemLoop (matchesId : Int → Bool) (count startIndex : Int) : Nat → Int → Option Int
  | 0, _ => none
  | fuel + 1, ndx =>
    if matchesId ndx then
      some ndx
    else
      let ndx2 := (ndx + 1) % count
      if ndx2 ≠ startIndex then nextItemLoop matchesId count startIndex fuel ndx2
      else some (-1)

/-- `TimelineModel::TimelineModelPrivate::nextItemById`. -/
def nextItemById (d : TimelineModelPrivate) (matchesId : Int → Bool) (time : Int)
    (currentItem : Int) : Option Int :=
  if d.ranges.isEmpty then
    some (-1)
  else
    let ndx := if currentItem = -1 then firstIndexNoParents d time else currentItem + 1
    let ndx := if ndx < 0 ∨ ndx ≥ (d.ranges.length : Int) then 0 else ndx
    nextItemLoop matchesId d.ranges.length ndx d.ranges.length ndx

/-- The `do ... while (ndx != startIndex)` loop of `prevItemById`.  The first argument
bounds the number of iterations; `none` stands for a loop that has not left within the
bound. -/
def prevItemLoop (matchesId : Int → Bool) (count startIndex : Int) : Nat → Int → Option Int
  | 0, _ => none
  | fuel + 1, ndx =>
    if matchesId ndx then
      some ndx
    else
      let ndx2 := if ndx - 1 < 0 then count - 1 else ndx - 1
      if ndx2 ≠ startIndex then prevItemLoop matchesId count startIndex fuel ndx2
      else some (-1)

/-- `TimelineModel::TimelineModelPrivate::prevItemById`. -/
def prevItemById (d : TimelineModelPrivate) (matchesId : Int → Bool) (time : Int)
    (currentItem : Int) : Option Int :=
  if d.ranges.isEmpty then
    some (-1)
  else
    let ndx := if currentItem = -1 then firstIndexNoParents d time else currentItem - 1
    let ndx := if ndx < 0 then (d.ranges.length : Int) - 1 else ndx
    prevItemLoop matchesId d.ranges.length ndx d.ranges.length ndx

/-- `TimelineModel::nextItemBySelectionId`. -/
def nextItemBySelectionId (d : TimelineModelPrivate) (selectionId time currentItem : Int) :
    Option Int :=
  nextItemById d (fun index => (rangeAtInt d.ranges index).selectionId = selectionId)
    time currentItem

/-- `TimelineModel::prevItemBySelectionId`. -/
def prevItemBySelectionId (d : TimelineModelPrivate) (selectionId time currentItem : Int) :
    Option Int :=
  prevItemById d (fun index => (rangeAtInt d.ranges index).selectionId = selectionId)
    time currentItem

/-- The store of the scenario `insert(0,10,1)`, `insert(2,3,2)`, `insert(5,1,3)` on an
empty store. -/
def scenarioA : TimelineModelPrivate :=
  (insertAll TimelineModelPrivate.init [(0, 10, 1), (2, 3, 2), (5, 1, 3)]).1

/-- A store in which two ranges start together and the later one is longer: the ranges
`(0,1)`, `(0,10)` and `(5,2)` in this order, with a consistent end index.  It is the
store after `insertStart(0,0)`, `insertStart(0,0)`, `insertEnd(0,1)`, `insertEnd(1,10)`
and `insert(5,2,0)`. -/
def tiedStore : TimelineModelPrivate :=
  { TimelineModelPrivate.init with
    ranges := [⟨0, 1, 0, -1, 0⟩, ⟨0, 10, 0, -1, 2⟩, ⟨5, 2, 0, -1, 1⟩]
    endTimes := [⟨0, 1⟩, ⟨2, 7⟩, ⟨1, 10⟩] }

/-- The function `lastIndex` with the helper `lowerBound`, which is not among the
sources, as a parameter. -/
def lastIndexWith (lb : List Int → Int → Int) (d : TimelineModelPrivate) (endTime : Int) : Int :=
  if d.ranges.isEmpty ∨ (rangeAt d.ranges 0).start ≥ endTime then
    -1
  else if (rangeAt d.ranges (d.ranges.length - 1)).start < endTime then
    (d.ranges.length : Int) - 1
  else
    lb (d.ranges.map Range.start) endTime

/-- The function `firstIndexNoParents` with the helper `lowerBound`, which is not among
the sources, as a parameter. -/
def firstIndexNoParentsWith (lb : List Int → Int → Int) (d : TimelineModelPrivate)
    (startTime : Int) : Int :=
  if d.endTimes.isEmpty ∨ (endAt d.endTimes (d.endTimes.length - 1)).endTime ≤ startTime then
    -1
  else if (endAt d.endTimes 0).endTime > startTime then
    (endAt d.endTimes 0).startIndex
  else
    (endAtInt d.endTimes (lb (d.endTimes.map RangeEnd.endTime) startTime + 1)).startIndex

/-- A store whose start times and end times are both 3, 5 and 7: `insert(3,0,0)`,
`insert(5,0,0)`, `insert(7,0,0)` on an empty store. -/
def pointStore : TimelineModelPrivate :=
  (insertAll TimelineModelPrivate.init [(3, 0, 0), (5, 0, 0), (7, 0, 0)]).1

/-- The part of the loop invariant of `computeNesting` that does not depend on what the
parent fields held before the run, as long as each was -1 or a lower index. -/
structure NestLow (S E par : Nat → Int) (L : List Nat) (k : Nat) : Prop where
  incr : L.Pairwise (fun a b => a < b)
  bound : ∀ p ∈ L, p < k
  cover : ∀ j, j < k → j ∈ L ∨ (∃ m, m < k ∧ E j < S m) ∨ (∃ p ∈ L, p < j ∧ E j ≤ E p)
  below : ∀ i, par i = -1 ∨ ∃ q : Nat, par i = (q : Int) ∧ q < i
  lowest : ∀ i, i < k → ∀ j, j < i → E i ≤ E j → ∃ q : Nat, par i = (q : Int) ∧ q ≤ j

/-- The state of `computeNesting` after `k` iterations of the outer loop, started on
`ranges0` with parent fields that are -1 or a lower index. -/
structure LowState (ranges0 ranges : List Range) (L : List Nat) (k : Nat) : Prop where
  length : ranges.length = ranges0.length
  start : ∀ i, (rangeAt ranges i).start = (rangeAt ranges0 i).start
  duration : ∀ i, (rangeAt ranges i).duration = (rangeAt ranges0 i).duration
  inv : NestLow (fun i => (rangeAt ranges0 i).start) (fun i => rangeEnd ranges0 i)
    (fun i => (rangeAt ranges i).parent) L k

/-- The end index is sorted by end time. -/
def EndSorted (endTimes : List RangeEnd) : Prop :=
  endTimes.Pairwise (fun a b => a.endTime ≤ b.endTime)

instance (endTimes : List RangeEnd) : Decidable (EndSorted endTimes) := by
  unfold EndSorted; infer_instance

/-- The end index is consistent with the start index: its references are the positions
`0 .. count() - 1` of the start index, each exactly once, and every entry holds the end
time of the range it refers to. -/
def EndConsistent (d : TimelineModelPrivate) : Prop :=
  (d.endTimes.map RangeEnd.startIndex).Perm ((List.range d.ranges.length).map Int.ofNat) ∧
    ∀ e ∈ d.endTimes, e.endTime = endTime d e.startIndex

instance (d : TimelineModelPrivate) : Decidable (EndConsistent d) := by
  unfold EndConsistent; infer_instance

/-- Every parent field is -1 or the index of an earlier range: the state of the parent
fields in a fresh store and after any earlier `computeNesting` and insertions. -/
def ParentsBelow (ranges : List Range) : Prop :=
  ∀ i : Nat, i < ranges.length →
    (rangeAt ranges i).parent = -1 ∨
      (0 ≤ (rangeAt ranges i).parent ∧ (rangeAt ranges i).parent < (i : Int))

instance (ranges : List Range) : Decidable (ParentsBelow ranges) := by
  unfold ParentsBelow; infer_instance
/-- The backward scan shared by `insertStartPos` and `insertEndPos`, on the list of
keys: the position after the last key that is not greater than `x`. -/
def tailScan (keys : List Int) (x : Int) : Nat → Nat
  | 0 => 0
  | i + 1 => if keys.getD i 0 > x then tailScan keys x i else i + 1

/-- The fields of a range other than the end-index bookkeeping. -/
def Range.core (r : Range) : Int × Int × Int × Int :=
  (r.start, r.duration, r.selectionId, r.parent)

/-- The start-index reference of an end-index entry after `incrementStartIndices(index)`. -/
def bumpRef (index : Int) (e : RangeEnd) : RangeEnd :=
  if e.startIndex ≥ index then { e with startIndex := e.startIndex + 1 } else e

/-- The invariant of a store between `insert` calls: both indices are sorted, they have
the same number of entries, and the references of the end index are distinct positions
of the start index, each entry holding the end time of its range. -/
structure StoreInv (d : TimelineModelPrivate) : Prop where
  startSorted : StartSorted d.ranges
  endSorted : EndSorted d.endTimes
  sameLength : d.endTimes.length = d.ranges.length
  nodup : (d.endTimes.map RangeEnd.startIndex).Nodup
  valid : ∀ e ∈ d.endTimes, 0 ≤ e.startIndex ∧ e.startIndex < (d.ranges.length : Int) ∧
    e.endTime = endTime d e.startIndex

/-- The element access `rowOffsets[i]` for an `int` index. -/
def rowOffsetAt (rowOffsets : List Int) (i : Int) : Int :=
  if i < 0 then 0 else rowOffsets.getD i.toNat 0

/-- `TimelineModel::collapsedRowCount`. -/
def collapsedRowCount (d : TimelineModelPrivate) : Int := d.collapsedRowCount

/-- `TimelineModel::setCollapsedRowCount`. -/
def setCollapsedRowCount (d : TimelineModelPrivate) (rows : Int) : TimelineModelPrivate :=
  if d.collapsedRowCount ≠ rows then { d with collapsedRowCount := rows } else d

/-- `TimelineModel::expandedRowCount`. -/
def expandedRowCount (d : TimelineModelPrivate) : Int := d.expandedRowCount

/-- `TimelineModel::setExpandedRowCount`: `rowOffsets.resize(rows)` cuts the offsets down
to the first `rows` entries. -/
def setExpandedRowCount (d : TimelineModelPrivate) (rows : Int) : TimelineModelPrivate :=
  if d.expandedRowCount ≠ rows then
    let d1 := if (d.rowOffsets.length : Int) > rows
      then { d with rowOffsets := d.rowOffsets.take rows.toNat } else d
    { d1 with expandedRowCount := rows }
  else d

/-- `TimelineModel::expanded`. -/
def expanded (d : TimelineModelPrivate) : Bool := d.expanded

/-- `TimelineModel::setExpanded`; the signal `expandedChanged` is not part of the state. -/
def setExpanded (d : TimelineModelPrivate) (expanded : Bool) : TimelineModelPrivate :=
  if expanded ≠ d.expanded then { d with expanded := expanded } else d

/-- `TimelineModel::hidden`. -/
def hidden (d : TimelineModelPrivate) : Bool := d.hidden

/-- `TimelineModel::setHidden`; the signal `hiddenChanged` is not part of the state. -/
def setHidden (d : TimelineModelPrivate) (hidden : Bool) : TimelineModelPrivate :=
  if hidden ≠ d.hidden then { d with hidden := hidden } else d

/-- `TimelineModel::isEmpty`. -/
def isEmpty (d : TimelineModelPrivate) : Bool := count d == 0

/-- `TimelineModel::expandedRowHeight`.  The constant `DefaultRowHeight` is declared in
`timelinemodel_p.h`, which is not among the sources, and is a parameter here. -/
def expandedRowHeight (DefaultRowHeight : Int) (d : TimelineModelPrivate) (rowNumber : Int) :
    Int :=
  if (d.rowOffsets.length : Int) > rowNumber then
    rowOffsetAt d.rowOffsets rowNumber
      - (if rowNumber > 0 then rowOffsetAt d.rowOffsets (rowNumber - 1) else 0)
  else DefaultRowHeight

/-- `TimelineModel::height`, with the constant `DefaultRowHeight` as a parameter. -/
def height (DefaultRowHeight : Int) (d : TimelineModelPrivate) : Int :=
  if d.hidden ∨ isEmpty d then 0
  else if ¬ d.expanded then collapsedRowCount d * DefaultRowHeight
  else if d.rowOffsets.isEmpty then expandedRowCount d * DefaultRowHeight
  else rowOffsetAt d.rowOffsets ((d.rowOffsets.length : Int) - 1)
    + (expandedRowCount d - (d.rowOffsets.length : Int)) * DefaultRowHeight

/-- `TimelineModel::clear`; the signal `contentChanged` is not part of the state. -/
def clear (d : TimelineModelPrivate) : TimelineModelPrivate :=
  let d1 := setExpandedRowCount d 1
  let d2 := setCollapsedRowCount d1 1
  let d3 := setExpanded d2 false
  let d4 := setHidden d3 false
  { d4 with rowOffsets := [], ranges := [], endTimes := [] }

/-- `TimelineModel::expandedRowOffset`, with the constant `DefaultRowHeight` as a
parameter. -/
def expandedRowOffset (DefaultRowHeight : Int) (d : TimelineModelPrivate) (rowNumber : Int) :
    Int :=
  if rowNumber = 0 then 0
  else if (d.rowOffsets.length : Int) ≥ rowNumber then
    rowOffsetAt d.rowOffsets (rowNumber - 1)
  else if ¬ d.rowOffsets.isEmpty then
    rowOffsetAt d.rowOffsets ((d.rowOffsets.length : Int) - 1)
      + (rowNumber - (d.rowOffsets.length : Int)) * DefaultRowHeight
  else rowNumber * DefaultRowHeight

/-- The loop `while (rowOffsets.size() <= rowNumber) rowOffsets << (nextOffset +=
DefaultRowHeight)` of `setExpandedRowHeight`.  The first argument bounds the number of
iterations; `appendRowOffsets_length` shows that with the bound `setExpandedRowHeight`
passes the loop ends by its condition. -/
def appendRowOffsets (DefaultRowHeight rowNumber : Int) : Nat → List Int → Int → List Int
  | 0, rowOffsets, _ => rowOffsets
  | fuel + 1, rowOffsets, nextOffset =>
    if (rowOffsets.length : Int) ≤ rowNumber then
      appendRowOffsets DefaultRowHeight rowNumber fuel
        (rowOffsets ++ [nextOffset + DefaultRowHeight]) (nextOffset + DefaultRowHeight)
    else rowOffsets

/-- The loop `for (offsetRow = rowNumber; offsetRow < rowOffsets.size(); ++offsetRow)
rowOffsets[offsetRow] += difference` of `setExpandedRowHeight`. -/
def shiftRowOffsets (rowOffsets : List Int) (rowNumber : Int) (difference : Int) : List Int :=
  rowOffsets.take rowNumber.toNat ++ (rowOffsets.drop rowNumber.toNat).map (· + difference)

/-- `TimelineModel::setExpandedRowHeight`, with the constant `DefaultRowHeight` as a
parameter; the signal `expandedRowHeightChanged` is not part of the state. -/
def setExpandedRowHeight (DefaultRowHeight : Int) (d : TimelineModelPrivate)
    (rowNumber height : Int) : TimelineModelPrivate :=
  let height := if height < DefaultRowHeight then DefaultRowHeight else height
  let nextOffset := if d.rowOffsets.isEmpty then 0
    else rowOffsetAt d.rowOffsets ((d.rowOffsets.length : Int) - 1)
  let rowOffsets := appendRowOffsets DefaultRowHeight rowNumber
    (rowNumber + 1 - (d.rowOffsets.length : Int)).toNat d.rowOffsets nextOffset
  let difference := height - rowOffsetAt rowOffsets rowNumber
    + (if rowNumber > 0 then rowOffsetAt rowOffsets (rowNumber - 1) else 0)
  if difference ≠ 0 then
    { d with rowOffsets := shiftRowOffsets rowOffsets rowNumber difference }
  else { d with rowOffsets := rowOffsets }

/-- `TimelineModel::bestIndex`: the value of the local `start`, the last range that
starts before the timestamp as the start index reports it. -/
def bestIndexStart (d : TimelineModelPrivate) (timestamp : Int) : Int :=
  if (rangeAt d.ranges (d.ranges.length - 1)).start < timestamp then
    (d.ranges.length : Int) - 1
  else lowerBound (d.ranges.map Range.start) timestamp

/-- `TimelineModel::bestIndex`: the value of the local `endTimeIndex`. -/
def bestIndexEndTimeIndex (d : TimelineModelPrivate) (timestamp : Int) : Int :=
  if (endAt d.endTimes 0).endTime ≥ timestamp then 0
  else if (endAt d.endTimes (d.endTimes.length - 1)).endTime < timestamp then
    (d.endTimes.length : Int) - 1
  else lowerBound (d.endTimes.map RangeEnd.endTime) timestamp + 1

/-- `TimelineModel::bestIndex`: the value of the local `end`, the start-index reference
of the entry of the end index at `endTimeIndex`. -/
def bestIndexEnd (d : TimelineModelPrivate) (timestamp : Int) : Int :=
  (endAtInt d.endTimes (bestIndexEndTimeIndex d timestamp)).startIndex

/-- `TimelineModel::bestIndex`; `/` on `int` truncates toward zero. -/
def bestIndex (d : TimelineModelPrivate) (timestamp : Int) : Int :=
  if d.ranges.isEmpty then -1
  else Int.tdiv (bestIndexStart d timestamp + bestIndexEnd d timestamp) 2

/-- The private data of a `TimelineModelAggregator`, as far as `nextItem` reads it: the
list of the models, each given by its private data. -/
structure TimelineModelAggregatorPrivate where
  modelList : List TimelineModelPrivate
  deriving DecidableEq, Repr

/-- `TimelineModelAggregator::modelCount`. -/
def modelCount (a : TimelineModelAggregatorPrivate) : Int := a.modelList.length

/-- `TimelineModelAggregator::model`: the element access `modelList[modelIndex]`. -/
def model (a : TimelineModelAggregatorPrivate) (modelIndex : Int) : TimelineModelPrivate :=
  if modelIndex < 0 then TimelineModelPrivate.init
  else a.modelList.getD modelIndex.toNat TimelineModelPrivate.init

/-- The value `std::numeric_limits<qint64>::max()`. -/
def qint64Max : Int := 9223372036854775807

/-- `TimelineModelAggregator::nextItem`: the time after its first statement, the start
time of the selected item or, when no item is selected, the given time. -/
def nextItemTime (a : TimelineModelAggregatorPrivate) (selectedModel selectedItem time : Int) :
    Int :=
  if selectedItem ≠ -1 then startTime (model a selectedModel) selectedItem else time

/-- `TimelineModelAggregator::nextItem`: the body of the first loop, the value stored in
`itemIndexes[i]` for the model `currentModel` at position `i`.  For the non-negative
left operands and positive `count()` of the code, `%` is the remainder of C++. -/
def nextItemIndex (currentModel : TimelineModelPrivate) (i selectedModel selectedItem time : Int) :
    Int :=
  if count currentModel > 0 then
    if selectedModel = i then
      (selectedItem + 1) % count currentModel
    else
      let itemIndex :=
        if startTime currentModel 0 ≥ time then 0
        else (lastIndex currentModel time + 1) % count currentModel
      if i < selectedModel ∧ startTime currentModel itemIndex = time then
        (itemIndex + 1) % count currentModel
      else itemIndex
  else -1

/-- `TimelineModelAggregator::nextItem`: the array `itemIndexes` after the first loop. -/
def nextItemIndexes (a : TimelineModelAggregatorPrivate) (selectedModel selectedItem time : Int) :
    List Int :=
  (List.range a.modelList.length).map
    (fun (i : Nat) => nextItemIndex (model a (i : Int)) (i : Int) selectedModel selectedItem time)

/-- The element access `itemIndexes[i]`. -/
def itemIndexAt (itemIndexes : List Int) (i : Int) : Int :=
  if i < 0 then -1 else itemIndexes.getD i.toNat (-1)

/-- `TimelineModelAggregator::nextItem`: the body of the second loop, on the state made of
`candidateModelIndex` and `candidateStartTime`. -/
def nextCandidateStep (a : TimelineModelAggregatorPrivate) (itemIndexes : List Int)
    (selectedModel time : Int) (st : Int × Int) (i : Nat) : Int × Int :=
  if itemIndexAt itemIndexes i = -1 then st
  else
    let newStartTime := startTime (model a i) (itemIndexAt itemIndexes i)
    if newStartTime < st.2 ∧
        (newStartTime > time ∨ (newStartTime = time ∧ (i : Int) > selectedModel)) then
      ((i : Int), newStartTime)
    else st

/-- `TimelineModelAggregator::nextItem`: `candidateModelIndex` and `candidateStartTime`
after the second loop. -/
def nextCandidate (a : TimelineModelAggregatorPrivate) (itemIndexes : List Int)
    (selectedModel time : Int) : Int × Int :=
  (List.range a.modelList.length).foldl (nextCandidateStep a itemIndexes selectedModel time)
    (-1, qint64Max)

/-- `TimelineModelAggregator::nextItem`: the body of the loop of the `else` branch, on the
state made of `candidateModelIndex`, `itemIndex` and `candidateStartTime`. -/
def nextEarliestStep (a : TimelineModelAggregatorPrivate) (st : Int × Int × Int) (i : Nat) :
    Int × Int × Int :=
  let currentModel := model a i
  if count currentModel > 0 ∧ startTime currentModel 0 < st.2.2 then
    ((i : Int), 0, startTime currentModel 0)
  else st

/-- `TimelineModelAggregator::nextItem`: the `else` branch, entered with
`candidateModelIndex` equal to -1; the result is `candidateModelIndex` and `itemIndex`. -/
def nextEarliest (a : TimelineModelAggregatorPrivate) (candidateModelIndex : Int) : Int × Int :=
  let r := (List.range a.modelList.length).foldl (nextEarliestStep a)
    (candidateModelIndex, -1, qint64Max)
  (r.1, r.2.1)

/-- `TimelineModelAggregator::nextItem`; the result is the pair of the entries `model` and
`item` of the map it returns. -/
def nextItem (a : TimelineModelAggregatorPrivate) (selectedModel selectedItem time : Int) :
    Int × Int :=
  let time := nextItemTime a selectedModel selectedItem time
  let itemIndexes := nextItemIndexes a selectedModel selectedItem time
  let candidate := nextCandidate a itemIndexes selectedModel time
  if candidate.1 ≠ -1 then
    (candidate.1, itemIndexAt itemIndexes candidate.1)
  else
    nextEarliest a candidate.1

/-- A store with two ranges that start at the same time: the store after `insert(5,1,0)`
and `insert(5,1,1)`. -/
def twinStore : TimelineModelPrivate :=
  (insertAll TimelineModelPrivate.init [(5, 1, 0), (5, 1, 1)]).1

/-- A store whose only range starts at the largest `qint64` value: the store after
`insert(9223372036854775807, 0, 0)`. -/
def latestStore : TimelineModelPrivate :=
  (insertAll TimelineModelPrivate.init [(9223372036854775807, 0, 0)]).1

/-- The state of the second loop of `nextItem` after the models before position `k`:
either no candidate has been taken, and every qualifying candidate so far starts at the
largest `qint64` value or later, or the candidate taken is a qualifying one that starts
no later than any qualifying candidate so far. -/
def CandidateInv (a : TimelineModelAggregatorPrivate) (itemIndexes : List Int)
    (selectedModel time : Int) (k : Nat) (st : Int × Int) : Prop :=
  (st.1 = -1 ∧ st.2 = qint64Max ∧
    ∀ i : Nat, i < k → itemIndexAt itemIndexes i ≠ -1 →
      (startTime (model a i) (itemIndexAt itemIndexes i) > time ∨
        (startTime (model a i) (itemIndexAt itemIndexes i) = time ∧ (i : Int) > selectedModel)) →
      qint64Max ≤ startTime (model a i) (itemIndexAt itemIndexes i)) ∨
  (∃ m : Nat, m < k ∧ st.1 = (m : Int) ∧
    st.2 = startTime (model a m) (itemIndexAt itemIndexes m) ∧
    itemIndexAt itemIndexes m ≠ -1 ∧
    (startTime (model a m) (itemIndexAt itemIndexes m) > time ∨
      (startTime (model a m) (itemIndexAt itemIndexes m) = time ∧ (m : Int) > selectedModel)) ∧
    startTime (model a m) (itemIndexAt itemIndexes m) < qint64Max ∧
    ∀ i : Nat, i < k → itemIndexAt itemIndexes i ≠ -1 →
      (startTime (model a i) (itemIndexAt itemIndexes i) > time ∨
        (startTime (model a i) (itemIndexAt itemIndexes i) = time ∧ (i : Int) > selectedModel)) →
      startTime (model a m) (itemIndexAt itemIndexes m)
        ≤ startTime (model a i) (itemIndexAt itemIndexes i))

/-- The state of the loop of the `else` branch of `nextItem` after the models before
position `k`, entered with `candidateModelIndex` equal to `c0`: either nothing has been
taken, and every non-empty model so far starts at the largest `qint64` value or later, or
the model taken is a non-empty one whose first range starts no later than the first range
of any non-empty model so far. -/
def EarliestInv (a : TimelineModelAggregatorPrivate) (c0 : Int) (k : Nat)
    (st : Int × Int × Int) : Prop :=
  (st.1 = c0 ∧ st.2.1 = -1 ∧ st.2.2 = qint64Max ∧
    ∀ i : Nat, i < k → count (model a i) > 0 → qint64Max ≤ startTime (model a i) 0) ∨
  (∃ m : Nat, m < k ∧ st.1 = (m : Int) ∧ st.2.1 = 0 ∧ st.2.2 = startTime (model a m) 0 ∧
    count (model a m) > 0 ∧ startTime (model a m) 0 < qint64Max ∧
    ∀ i : Nat, i < k → count (model a i) > 0 →
      startTime (model a m) 0 ≤ startTime (model a i) 0)

/-- `TimelineModel::insertStart`: the new store and the returned index. -/
def insertStart (d : TimelineModelPrivate) (startTime selectionId : Int) :
    TimelineModelPrivate × Int :=
  let (d1, index) := d.insertStart (Range.mk3 startTime 0 selectionId)
  let d2 := if index < (d1.ranges.length : Int) - 1 then incrementStartIndices d1 index else d1
  (d2, index)

/-- `TimelineModel::insertEnd`, for an index of the start index. -/
def insertEnd (d : TimelineModelPrivate) (index duration : Int) : TimelineModelPrivate :=
  let range : Range := { rangeAtInt d.ranges index with duration := duration }
  let d1 : TimelineModelPrivate := { d with ranges := d.ranges.set index.toNat range }
  let (d2, endIndex) := d1.insertEnd ⟨index, (rangeAtInt d1.ranges index).start + duration⟩
  let d3 := setEndIndex d2 index endIndex
  if endIndex < (d3.endTimes.length : Int) - 1 then incrementEndIndices d3 endIndex else d3

/-- A store with three ranges nested in each other: the store after `insert(0,10,0)`,
`insert(1,5,0)` and `insert(2,1,0)`. -/
def nestedStore : TimelineModelPrivate :=
  (insertAll TimelineModelPrivate.init [(0, 10, 0), (1, 5, 0), (2, 1, 0)]).1

/-- Two ranges that start together, the second one longer, the ranges `(1,1)` and `(1,3)`
in this order: the store after `insertStart(1,0)`, `insertStart(1,0)`, `insertEnd(0,1)`
and `insertEnd(1,3)`. -/
def tiePairStore : TimelineModelPrivate :=
  insertEnd (insertEnd
    (insertStart (insertStart TimelineModelPrivate.init 1 0).1 1 0).1 0 1) 1 3

/-- A store with a parent field left behind by an earlier run: `tiePairStore` after
`computeNesting()` and `insert(0,2,0)`. -/
def staleStore : TimelineModelPrivate :=
  (insert (computeNesting tiePairStore) 0 2 0).1

/-- The store after the same insertions as `staleStore` without the run of
`computeNesting` in between: `tiePairStore` after `insert(0,2,0)`. -/
def freshStore : TimelineModelPrivate :=
  (insert tiePairStore 0 2 0).1

end Timeline

namespace Sqlite

/-- Modelled from the spec: the exception classes of `sqliteexception.h`, which is not
among the sources.  The spec lists the failure kinds of the backend; the names are the
ones `sqlitedatabasebackend.cpp` throws.  `WrongFilePath` carries the file path;
`Exception` is what `throwExceptionStatic` throws, `ExceptionWithMessage` what
`throwException` throws while a handle is held. -/
inductive SqliteException where
  | Exception
  | ExceptionWithMessage
  | StatementIsBusy
  | DatabaseIsBusy
  | DatabaseIsAlreadyOpen
  | DatabaseIsAlreadyClosed
  | DatabaseIsNotOpen
  | DatabaseFilePathIsEmpty
  | WrongFilePath (path : String)
  | PragmaValueNotSet
  | UnknowError
  deriving DecidableEq, Repr

/-- Modelled from the spec: the enumeration `OpenMode` of `sqliteglobal.h`, which is not
among the sources: read-only or read-write. -/
inductive OpenMode where
  | ReadOnly
  | ReadWrite
  deriving DecidableEq, Repr

/-- Modelled from the spec: the enumeration `JournalMode` of `sqliteglobal.h`, which is
not among the sources.  The spec gives the modes in the order of the string table:
delete, truncate, persist, memory, wal. -/
inductive JournalMode where
  | Delete
  | Truncate
  | Persist
  | Memory
  | Wal
  deriving DecidableEq, Repr

/-- Modelled from the spec: the enumeration `LockingMode` of `sqliteglobal.h`, which is
not among the sources: default, normal, exclusive. -/
inductive LockingMode where
  | Default
  | Normal
  | Exclusive
  deriving DecidableEq, Repr

/-- Modelled from the spec: the result code `SQLITE_OK` of `sqlite.h`, which is not among
the sources; the spec names the codes only, the values are those of the SQLite C
interface. -/
def SQLITE_OK : Int := 0

/-- Modelled from the spec: the result code `SQLITE_ERROR` of `sqlite.h`. -/
def SQLITE_ERROR : Int := 1

/-- Modelled from the spec: the result code `SQLITE_BUSY` of `sqlite.h`. -/
def SQLITE_BUSY : Int := 5

/-- Modelled from the spec: the result code `SQLITE_MISUSE` of `sqlite.h`. -/
def SQLITE_MISUSE : Int := 21

/-- Modelled from the spec: the extended result code `SQLITE_BUSY_RECOVERY` of
`sqlite.h`, `SQLITE_BUSY | (1 << 8)`. -/
def SQLITE_BUSY_RECOVERY : Int := 261

/-- Modelled from the spec: the extended result code `SQLITE_BUSY_SNAPSHOT` of
`sqlite.h`, `SQLITE_BUSY | (2 << 8)`. -/
def SQLITE_BUSY_SNAPSHOT : Int := 517

/-- Modelled from the spec: the extended result code `SQLITE_BUSY_TIMEOUT` of `sqlite.h`,
`SQLITE_BUSY | (3 << 8)`. -/
def SQLITE_BUSY_TIMEOUT : Int := 773

/-- Modelled from the spec: the extended result code `SQLITE_ERROR_MISSING_COLLSEQ` of
`sqlite.h`, `SQLITE_ERROR | (1 << 8)`. -/
def SQLITE_ERROR_MISSING_COLLSEQ : Int := 257

/-- Modelled from the spec: the extended result code `SQLITE_ERROR_RETRY` of `sqlite.h`,
`SQLITE_ERROR | (2 << 8)`. -/
def SQLITE_ERROR_RETRY : Int := 513

/-- Modelled from the spec: the extended result code `SQLITE_ERROR_SNAPSHOT` of
`sqlite.h`, `SQLITE_ERROR | (3 << 8)`. -/
def SQLITE_ERROR_SNAPSHOT : Int := 769

/-- Modelled from the spec: the open flag `SQLITE_OPEN_READONLY` of `sqlite.h`. -/
def SQLITE_OPEN_READONLY : Nat := 1

/-- Modelled from the spec: the open flag `SQLITE_OPEN_READWRITE` of `sqlite.h`. -/
def SQLITE_OPEN_READWRITE : Nat := 2

/-- Modelled from the spec: the open flag `SQLITE_OPEN_CREATE` of `sqlite.h`. -/
def SQLITE_OPEN_CREATE : Nat := 4

/-- Modelled from the spec: the checkpoint mode `SQLITE_CHECKPOINT_FULL` of `sqlite.h`. -/
def SQLITE_CHECKPOINT_FULL : Int := 1

/-- Modelled from the spec: the checkpoint mode `SQLITE_CHECKPOINT_TRUNCATE` of
`sqlite.h`. -/
def SQLITE_CHECKPOINT_TRUNCATE : Int := 3

/-- A call of the native engine, with the connection handle it is given: `none` is the
null pointer. -/
inductive NativeCall where
  | sqlite3_open_v2 (path : String) (flags : Nat)
  | sqlite3_extended_result_codes (db : Option Nat)
  | sqlite3_carray_init (db : Option Nat)
  | sqlite3_close (db : Option Nat)
  | sqlite3_close_v2 (db : Option Nat)
  | sqlite3_errmsg (db : Option Nat)
  | sqlite3_changes (db : Option Nat)
  | sqlite3_total_changes (db : Option Nat)
  | sqlite3_last_insert_rowid (db : Option Nat)
  | sqlite3_set_last_insert_rowid (db : Option Nat) (rowId : Int)
  | sqlite3_wal_checkpoint_v2 (db : Option Nat) (mode : Int)
  | sqlite3_busy_handler (db : Option Nat)
  | sqlite3_busy_timeout (db : Option Nat) (ms : Int)
  | sqlite3_update_hook (db : Option Nat) (callback : Bool)
  deriving DecidableEq, Repr

/-- The state of a `DatabaseBackend`: the connection handle `m_databaseHandle` (`none` is
the null pointer) and, as a record of what the backend did, the native calls it has made
and the number of warnings it has logged with `qWarning`. -/
structure DatabaseBackend where
  m_databaseHandle : Option Nat
  calls : List NativeCall
  warnings : Nat
  deriving DecidableEq, Repr

/-- What the environment answers to the backend during one operation: whether the
directory of a database file exists (`QFileInfo::exists(QFileInfo(path).path())`), the
handle `sqlite3_open_v2` stores and the codes and values the native calls return. -/
structure Engine where
  directoryExists : String → Bool
  openHandle : Option Nat
  openResult : Int
  carrayResult : Int
  closeResult : Int
  closeV2Result : Int
  checkpointResult : Int
  busyHandlerResult : Int
  changes : Int
  totalChanges : Int
  lastInsertRowid : Int

/-- Equality of outcomes is decidable, so that the model can be evaluated. -/
instance decEqExcept {ε α : Type} [DecidableEq ε] [DecidableEq α] : DecidableEq (Except ε α)
  | .ok a, .ok b =>
    if h : a = b then isTrue (congrArg Except.ok h)
    else isFalse (fun h2 => h (Except.ok.inj h2))
  | .error a, .error b =>
    if h : a = b then isTrue (congrArg Except.error h)
    else isFalse (fun h2 => h (Except.error.inj h2))
  | .ok _, .error _ => isFalse (fun h => Except.noConfusion h)
  | .error _, .ok _ => isFalse (fun h => Except.noConfusion h)

/-- The outcome of an operation that may throw: the value or the exception, and the
state of the backend afterwards. -/
abbrev Outcome (α : Type) : Type := Except SqliteException α × DatabaseBackend

/-- The constructor `DatabaseBackend::DatabaseBackend`: no handle. -/
def DatabaseBackend.init : DatabaseBackend := ⟨none, [], 0⟩

/-- `DatabaseBackend::databaseIsOpen`. -/
def databaseIsOpen (b : DatabaseBackend) : Bool := b.m_databaseHandle.isSome

/-- `DatabaseBackend::throwException`: the exception it throws. -/
def throwException (b : DatabaseBackend) : SqliteException :=
  if b.m_databaseHandle.isSome then SqliteException.ExceptionWithMessage
  else SqliteException.Exception

/-- `DatabaseBackend::checkDatabaseHandleIsNotNull`. -/
def checkDatabaseHandleIsNotNull (b : DatabaseBackend) : Except SqliteException Unit :=
  if b.m_databaseHandle = none then .error SqliteException.DatabaseIsNotOpen else .ok ()

/-- `DatabaseBackend::sqliteDatabaseHandle`: the handle, which is not null. -/
def sqliteDatabaseHandle (b : DatabaseBackend) : Except SqliteException Nat :=
  match b.m_databaseHandle with
  | none => .error SqliteException.DatabaseIsNotOpen
  | some h => .ok h

/-- `DatabaseBackend::openMode`. -/
def openMode (mode : OpenMode) : Nat :=
  match mode with
  | OpenMode.ReadOnly => SQLITE_OPEN_CREATE ||| SQLITE_OPEN_READONLY
  | OpenMode.ReadWrite => SQLITE_OPEN_CREATE ||| SQLITE_OPEN_READWRITE

/-- `DatabaseBackend::closeWithoutException`: the result code of `sqlite3_close_v2` only
decides whether a warning is logged. -/
def closeWithoutException (e : Engine) (b : DatabaseBackend) : DatabaseBackend :=
  match b.m_databaseHandle with
  | some h =>
    { m_databaseHandle := none,
      calls := b.calls ++ [NativeCall.sqlite3_close_v2 (some h)],
      warnings := if e.closeV2Result ≠ SQLITE_OK then b.warnings + 1 else b.warnings }
  | none => b

/-- `DatabaseBackend::checkCanOpenDatabase`. -/
def checkCanOpenDatabase (e : Engine) (b : DatabaseBackend) (databaseFilePath : String) :
    Except SqliteException Unit :=
  if databaseFilePath = "" then
    .error SqliteException.DatabaseFilePathIsEmpty
  else if ¬ e.directoryExists databaseFilePath then
    .error (SqliteException.WrongFilePath databaseFilePath)
  else if databaseIsOpen b then
    .error SqliteException.DatabaseIsAlreadyOpen
  else .ok ()

/-- `DatabaseBackend::checkDatabaseCouldBeOpened`.  The argument
`sqlite3_errmsg(sqliteDatabaseHandle())` of the exception is evaluated before
`UnknowError` is constructed and thrown. -/
def checkDatabaseCouldBeOpened (e : Engine) (b : DatabaseBackend) (resultCode : Int) :
    Outcome Unit :=
  if resultCode = SQLITE_OK then
    (.ok (), b)
  else
    let b1 := closeWithoutException e b
    match sqliteDatabaseHandle b1 with
    | .error x => (.error x, b1)
    | .ok h =>
      (.error SqliteException.UnknowError,
        { b1 with calls := b1.calls ++ [NativeCall.sqlite3_errmsg (some h)] })

/-- `DatabaseBackend::checkCarrayCannotBeIntialized`. -/
def checkCarrayCannotBeIntialized (resultCode : Int) : Except SqliteException Unit :=
  if resultCode ≠ SQLITE_OK then .error SqliteException.DatabaseIsNotOpen else .ok ()

/-- `DatabaseBackend::open` (`open` is a keyword of Lean). -/
def openDatabase (e : Engine) (b : DatabaseBackend) (databaseFilePath : String)
    (mode : OpenMode) : Outcome Unit :=
  match checkCanOpenDatabase e b databaseFilePath with
  | .error x => (.error x, b)
  | .ok _ =>
    let b1 : DatabaseBackend :=
      { b with m_databaseHandle := e.openHandle,
               calls := b.calls ++ [NativeCall.sqlite3_open_v2 databaseFilePath (openMode mode)] }
    match checkDatabaseCouldBeOpened e b1 e.openResult with
    | (.error x, b2) => (.error x, b2)
    | (.ok _, b2) =>
      let b3 : DatabaseBackend :=
        { b2 with calls := b2.calls ++
            [NativeCall.sqlite3_extended_result_codes b2.m_databaseHandle,
              NativeCall.sqlite3_carray_init b2.m_databaseHandle] }
      (checkCarrayCannotBeIntialized e.carrayResult, b3)

/-- `DatabaseBackend::checkForOpenDatabaseWhichCanBeClosed`. -/
def checkForOpenDatabaseWhichCanBeClosed (b : DatabaseBackend) : Except SqliteException Unit :=
  if b.m_databaseHandle = none then .error SqliteException.DatabaseIsAlreadyClosed
  else .ok ()

/-- `DatabaseBackend::checkDatabaseClosing`. -/
def checkDatabaseClosing (resultCode : Int) : Except SqliteException Unit :=
  if resultCode = SQLITE_OK then .ok ()
  else if resultCode = SQLITE_BUSY then .error SqliteException.DatabaseIsBusy
  else .error SqliteException.UnknowError

/-- `DatabaseBackend::close`. -/
def close (e : Engine) (b : DatabaseBackend) : Outcome Unit :=
  match checkForOpenDatabaseWhichCanBeClosed b with
  | .error x => (.error x, b)
  | .ok _ =>
    let b1 : DatabaseBackend :=
      { b with calls := b.calls ++ [NativeCall.sqlite3_close b.m_databaseHandle] }
    match checkDatabaseClosing e.closeResult with
    | .error x => (.error x, b1)
    | .ok _ => (.ok (), { b1 with m_databaseHandle := none })

/-- `DatabaseBackend::changesCount`. -/
def changesCount (e : Engine) (b : DatabaseBackend) : Outcome Int :=
  match sqliteDatabaseHandle b with
  | .error x => (.error x, b)
  | .ok h => (.ok e.changes, { b with calls := b.calls ++ [NativeCall.sqlite3_changes (some h)] })

/-- `DatabaseBackend::totalChangesCount`. -/
def totalChangesCount (e : Engine) (b : DatabaseBackend) : Outcome Int :=
  match sqliteDatabaseHandle b with
  | .error x => (.error x, b)
  | .ok h =>
    (.ok e.totalChanges,
      { b with calls := b.calls ++ [NativeCall.sqlite3_total_changes (some h)] })

/-- `DatabaseBackend::lastInsertedRowId`. -/
def lastInsertedRowId (e : Engine) (b : DatabaseBackend) : Outcome Int :=
  match sqliteDatabaseHandle b with
  | .error x => (.error x, b)
  | .ok h =>
    (.ok e.lastInsertRowid,
      { b with calls := b.calls ++ [NativeCall.sqlite3_last_insert_rowid (some h)] })

/-- `DatabaseBackend::setLastInsertedRowId`. -/
def setLastInsertedRowId (b : DatabaseBackend) (rowId : Int) : Outcome Unit :=
  match sqliteDatabaseHandle b with
  | .error x => (.error x, b)
  | .ok h =>
    (.ok (),
      { b with calls := b.calls ++ [NativeCall.sqlite3_set_last_insert_rowid (some h) rowId] })

/-- `DatabaseBackend::checkIfLogCouldBeCheckpointed`. -/
def checkIfLogCouldBeCheckpointed (b : DatabaseBackend) (resultCode : Int) :
    Except SqliteException Unit :=
  if resultCode ≠ SQLITE_OK then .error (throwException b) else .ok ()

/-- `DatabaseBackend::checkpointFullWalLog`. -/
def checkpointFullWalLog (e : Engine) (b : DatabaseBackend) : Outcome Unit :=
  match sqliteDatabaseHandle b with
  | .error x => (.error x, b)
  | .ok h =>
    let b1 : DatabaseBackend :=
      { b with calls := b.calls ++
          [NativeCall.sqlite3_wal_checkpoint_v2 (some h) SQLITE_CHECKPOINT_FULL] }
    (checkIfLogCouldBeCheckpointed b1 e.checkpointResult, b1)

/-- `DatabaseBackend::checkIfBusyTimeoutWasSet`. -/
def checkIfBusyTimeoutWasSet (b : DatabaseBackend) (resultCode : Int) :
    Except SqliteException Unit :=
  if resultCode ≠ SQLITE_OK then .error (throwException b) else .ok ()

/-- `DatabaseBackend::registerBusyHandler`. -/
def registerBusyHandler (e : Engine) (b : DatabaseBackend) : Outcome Unit :=
  match sqliteDatabaseHandle b with
  | .error x => (.error x, b)
  | .ok h =>
    let b1 : DatabaseBackend :=
      { b with calls := b.calls ++ [NativeCall.sqlite3_busy_handler (some h)] }
    (checkIfBusyTimeoutWasSet b1 e.busyHandlerResult, b1)

/-- `DatabaseBackend::setBusyTimeout`: the handle is passed as it is. -/
def setBusyTimeout (b : DatabaseBackend) (timeout : Int) : Outcome Unit :=
  (.ok (),
    { b with calls := b.calls ++ [NativeCall.sqlite3_busy_timeout b.m_databaseHandle timeout] })

/-- The `switch` of `DatabaseBackend::walCheckpointFull` on the result code; a code
without a `case` leaves the `switch`. -/
def walCheckpointResult (b : DatabaseBackend) (resultCode : Int) : Except SqliteException Unit :=
  if resultCode = SQLITE_OK then .ok ()
  else if resultCode = SQLITE_BUSY_RECOVERY ∨ resultCode = SQLITE_BUSY_SNAPSHOT ∨
      resultCode = SQLITE_BUSY_TIMEOUT ∨ resultCode = SQLITE_BUSY then
    .error SqliteException.DatabaseIsBusy
  else if resultCode = SQLITE_ERROR_MISSING_COLLSEQ ∨ resultCode = SQLITE_ERROR_RETRY ∨
      resultCode = SQLITE_ERROR_SNAPSHOT ∨ resultCode = SQLITE_ERROR then
    .error (throwException b)
  else if resultCode = SQLITE_MISUSE then
    .error SqliteException.Exception
  else .ok ()

/-- `DatabaseBackend::walCheckpointFull`: the handle is passed as it is. -/
def walCheckpointFull (e : Engine) (b : DatabaseBackend) : Outcome Unit :=
  let b1 : DatabaseBackend :=
    { b with calls := b.calls ++
        [NativeCall.sqlite3_wal_checkpoint_v2 b.m_databaseHandle SQLITE_CHECKPOINT_TRUNCATE] }
  (walCheckpointResult b1 e.checkpointResult, b1)

/-- `DatabaseBackend::setUpdateHook`: the handle is passed as it is. -/
def setUpdateHook (b : DatabaseBackend) : Outcome Unit :=
  (.ok (),
    { b with calls := b.calls ++ [NativeCall.sqlite3_update_hook b.m_databaseHandle true] })

/-- `DatabaseBackend::resetUpdateHook`: the handle is passed as it is. -/
def resetUpdateHook (b : DatabaseBackend) : Outcome Unit :=
  (.ok (),
    { b with calls := b.calls ++ [NativeCall.sqlite3_update_hook b.m_databaseHandle false] })

/-- The table `journalModeStrings`. -/
def journalModeStrings : List String := ["delete", "truncate", "persist", "memory", "wal"]

/-- The conversion `int(journalMode)`: the position of the enumerator. -/
def JournalMode.toInt : JournalMode → Int
  | JournalMode.Delete => 0
  | JournalMode.Truncate => 1
  | JournalMode.Persist => 2
  | JournalMode.Memory => 3
  | JournalMode.Wal => 4

/-- The conversion `static_cast<JournalMode>(index)` for an index of the table. -/
def JournalMode.ofInt (index : Int) : JournalMode :=
  if index = 0 then JournalMode.Delete
  else if index = 1 then JournalMode.Truncate
  else if index = 2 then JournalMode.Persist
  else if index = 3 then JournalMode.Memory
  else JournalMode.Wal

/-- The loop of `indexOfPragma` from position `index` on, over the rest of the table. -/
def indexOfPragmaFrom (pragma : String) : List String → Int → Int
  | [], _ => -1
  | s :: rest, index => if pragma = s then index else indexOfPragmaFrom pragma rest (index + 1)

/-- The function `indexOfPragma`. -/
def indexOfPragma (pragma : String) (pragmas : List String) : Int :=
  indexOfPragmaFrom pragma pragmas 0

/-- `DatabaseBackend::journalModeToPragma`. -/
def journalModeToPragma (journalMode : JournalMode) : String :=
  journalModeStrings.getD journalMode.toInt.toNat ""

/-- `DatabaseBackend::pragmaToJournalMode`. -/
def pragmaToJournalMode (pragma : String) : Except SqliteException JournalMode :=
  let index := indexOfPragma pragma journalModeStrings
  if index < 0 then .error SqliteException.Exception
  else .ok (JournalMode.ofInt index)

/-- The function `lockingModeToPragma`. -/
def lockingModeToPragma (lockingMode : LockingMode) : String :=
  match lockingMode with
  | LockingMode.Default => ""
  | LockingMode.Normal => "normal"
  | LockingMode.Exclusive => "exclusive"

/-- The function `pragmaToLockingMode`. -/
def pragmaToLockingMode (pragma : String) : LockingMode :=
  if pragma = "normal" then LockingMode.Normal
  else if pragma = "exclusive" then LockingMode.Exclusive
  else LockingMode.Default

/-- What the database answers to the statements of the backend: the outcome of executing
a statement, and the outcomes of the successive attempts to read the value of a
statement.  The statement classes are not part of `sqlitedatabasebackend.cpp`. -/
structure Database where
  execute : String → Except SqliteException Unit
  fetch : String → List (Except SqliteException String)

/-- `DatabaseBackend::toValue` on the outcomes of the successive attempts: an attempt
that throws `StatementIsBusy` is followed by the next attempt, any other outcome is the
result.  `none` stands for a sequence of attempts that ends while the statement is still
busy. -/
def toValue : List (Except SqliteException String) → Option (Except SqliteException String)
  | [] => none
  | .ok v :: _ => some (.ok v)
  | .error SqliteException.StatementIsBusy :: rest => toValue rest
  | .error x :: _ => some (.error x)

/-- `DatabaseBackend::checkPragmaValue`. -/
def checkPragmaValue (databaseValue expectedValue : String) : Except SqliteException Unit :=
  if databaseValue ≠ expectedValue then .error SqliteException.PragmaValueNotSet else .ok ()

/-- `DatabaseBackend::pragmaValue`. -/
def pragmaValue (db : Database) (pragma : String) : Option (Except SqliteException String) :=
  toValue (db.fetch ("PRAGMA " ++ pragma))

/-- `DatabaseBackend::setPragmaValue`. -/
def setPragmaValue (db : Database) (pragmaKey newPragmaValue : String) :
    Option (Except SqliteException Unit) :=
  match db.execute ("PRAGMA " ++ pragmaKey ++ "='" ++ newPragmaValue ++ "'") with
  | .error x => some (.error x)
  | .ok _ =>
    match toValue (db.fetch ("PRAGMA " ++ pragmaKey)) with
    | none => none
    | some (.error x) => some (.error x)
    | some (.ok pragmeValueInDatabase) =>
      some (checkPragmaValue pragmeValueInDatabase newPragmaValue)

/-- `DatabaseBackend::setJournalMode`. -/
def setJournalMode (db : Database) (journalMode : JournalMode) :
    Option (Except SqliteException Unit) :=
  setPragmaValue db "journal_mode" (journalModeToPragma journalMode)

/-- `DatabaseBackend::journalMode`. -/
def journalMode (db : Database) : Option (Except SqliteException JournalMode) :=
  match pragmaValue db "journal_mode" with
  | none => none
  | some (.error x) => some (.error x)
  | some (.ok v) => some (pragmaToJournalMode v)

/-- `DatabaseBackend::setLockingMode`. -/
def setLockingMode (db : Database) (lockingMode : LockingMode) :
    Option (Except SqliteException Unit) :=
  if lockingMode ≠ LockingMode.Default then
    setPragmaValue db "main.locking_mode" (lockingModeToPragma lockingMode)
  else some (.ok ())

/-- `DatabaseBackend::lockingMode`. -/
def lockingMode (db : Database) : Option (Except SqliteException LockingMode) :=
  match pragmaValue db "main.locking_mode" with
  | none => none
  | some (.error x) => some (.error x)
  | some (.ok v) => some (.ok (pragmaToLockingMode v))

/-- An environment in which the directory of `/tmp/db` exists and every native call
succeeds; `sqlite3_open_v2` stores the handle 7. -/
def sampleEngine : Engine :=
  { directoryExists := fun path => decide (path = "/tmp/db"),
    openHandle := some 7, openResult := 0, carrayResult := 0, closeResult := 0,
    closeV2Result := 0, checkpointResult := 0, busyHandlerResult := 0, changes := 0,
    totalChanges := 0, lastInsertRowid := 0 }

/-- A backend that holds the handle 7. -/
def openBackend : DatabaseBackend := ⟨some 7, [], 0⟩

/-- A database that accepts every statement and reports `wal` for every pragma it is
asked for, after one attempt that finds the statement busy. -/
def walDatabase : Database :=
  { execute := fun _ => .ok (),
    fetch := fun _ => [.error SqliteException.StatementIsBusy, .ok "wal"] }

/-- `DatabaseBackend::execute` on the outcomes of the successive attempts to prepare and
run the statement: an attempt that throws `StatementIsBusy` is followed by the recursive
call, which makes the next attempt; any other outcome is the result.  The second component
counts the attempts made.  `none` stands for a sequence of attempts that ends while the
statement is still busy. -/
def execute : List (Except SqliteException Unit) → Option (Except SqliteException Unit × Nat)
  | [] => none
  | .ok u :: _ => some (.ok u, 1)
  | .error SqliteException.StatementIsBusy :: rest =>
    match execute rest with
    | none => none
    | some (r, attempts) => some (r, attempts + 1)
  | .error x :: _ => some (.error x, 1)

end Sqlite

namespace Timeline

theorem nestingStep_cons (ranges : List Range) (range : Nat) (kept : List Nat) (p : Nat)
    (rest : List Nat) :
    nestingStep ranges range kept (p :: rest) =
      if rangeEnd ranges p < (rangeAt ranges range).start then
        nestingStep ranges range kept rest
      else if rangeEnd ranges range ≤ rangeEnd ranges p then
        (setParent ranges range
            (if (rangeAt ranges p).parent = -1 then (p : Int) else (rangeAt ranges p).parent),
          kept ++ p :: rest)
      else if (rangeAt ranges p).start = (rangeAt ranges range).start then
        (setParent ranges range (p : Int), kept ++ p :: rest ++ [range])
      else
        nestingStep ranges range (kept ++ [p]) rest := by
  rfl

theorem nestingStep_cases (ranges : List Range) (range : Nat) (rest : List Nat) :
    ∀ kept : List Nat,
    ((∀ x ∈ rest, SteppedOver ranges range x) ∧
      nestingStep ranges range kept rest =
        (ranges, kept ++ rest.filter (fun x => !passedBy ranges range x) ++ [range]))
    ∨ (∃ pre p post, rest = pre ++ p :: post ∧ (∀ x ∈ pre, SteppedOver ranges range x) ∧
        (rangeAt ranges range).start ≤ rangeEnd ranges p ∧
        rangeEnd ranges range ≤ rangeEnd ranges p ∧
        nestingStep ranges range kept rest =
          (setParent ranges range
              (if (rangeAt ranges p).parent = -1 then (p : Int) else (rangeAt ranges p).parent),
            kept ++ pre.filter (fun x => !passedBy ranges range x) ++ p :: post))
    ∨ (∃ pre p post, rest = pre ++ p :: post ∧ (∀ x ∈ pre, SteppedOver ranges range x) ∧
        (rangeAt ranges range).start ≤ rangeEnd ranges p ∧
        rangeEnd ranges p < rangeEnd ranges range ∧
        (rangeAt ranges p).start = (rangeAt ranges range).start ∧
        nestingStep ranges range kept rest =
          (setParent ranges range (p : Int),
            kept ++ pre.filter (fun x => !passedBy ranges range x) ++ p :: post ++ [range])) := by
  induction rest with
  | nil =>
    intro kept
    left
    simp [nestingStep]
  | cons p rest ih =>
    intro kept
    by_cases h1 : rangeEnd ranges p < (rangeAt ranges range).start
    · -- the walk has passed `p`: it is erased
      have hstep : nestingStep ranges range kept (p :: rest) = nestingStep ranges range kept rest := by
        rw [nestingStep_cons, if_pos h1]
      have hp : passedBy ranges range p = true := by simp [passedBy, h1]
      rcases ih kept with ⟨hall, heq⟩ | ⟨pre, q, post, hrest, hall, ha, hb, heq⟩ |
          ⟨pre, q, post, hrest, hall, ha, hb, hc, heq⟩
      · left
        refine ⟨?_, ?_⟩
        · intro x hx
          rcases List.mem_cons.1 hx with rfl | hx
          · exact Or.inl h1
          · exact hall x hx
        · rw [hstep, heq]; simp [List.filter_cons, hp]
      · right; left
        refine ⟨p :: pre, q, post, by simp [hrest], ?_, ha, hb, ?_⟩
        · intro x hx
          rcases List.mem_cons.1 hx with rfl | hx
          · exact Or.inl h1
          · exact hall x hx
        · rw [hstep, heq]; simp [List.filter_cons, hp]
      · right; right
        refine ⟨p :: pre, q, post, by simp [hrest], ?_, ha, hb, hc, ?_⟩
        · intro x hx
          rcases List.mem_cons.1 hx with rfl | hx
          · exact Or.inl h1
          · exact hall x hx
        · rw [hstep, heq]; simp [List.filter_cons, hp]
    · by_cases h2 : rangeEnd ranges range ≤ rangeEnd ranges p
      · -- `p` covers the current range
        right; left
        refine ⟨[], p, rest, rfl, by simp, by omega, h2, ?_⟩
        rw [nestingStep_cons, if_neg h1, if_pos h2]; simp
      · by_cases h3 : (rangeAt ranges p).start = (rangeAt ranges range).start
        · -- same start time, `p` ends earlier
          right; right
          refine ⟨[], p, rest, rfl, by simp, by omega, by omega, h3, ?_⟩
          rw [nestingStep_cons, if_neg h1, if_neg h2, if_pos h3]; simp
        · -- `p` is stepped over and stays in the list
          have hstep : nestingStep ranges range kept (p :: rest)
              = nestingStep ranges range (kept ++ [p]) rest := by
            rw [nestingStep_cons, if_neg h1, if_neg h2, if_neg h3]
          have hp : passedBy ranges range p = false := by simp [passedBy, h1]
          have hso : SteppedOver ranges range p := Or.inr ⟨by omega, h3⟩
          rcases ih (kept ++ [p]) with ⟨hall, heq⟩ | ⟨pre, q, post, hrest, hall, ha, hb, heq⟩ |
              ⟨pre, q, post, hrest, hall, ha, hb, hc, heq⟩
          · left
            refine ⟨?_, ?_⟩
            · intro x hx
              rcases List.mem_cons.1 hx with rfl | hx
              · exact hso
              · exact hall x hx
            · rw [hstep, heq]; simp [List.filter_cons, hp]
          · right; left
            refine ⟨p :: pre, q, post, by simp [hrest], ?_, ha, hb, ?_⟩
            · intro x hx
              rcases List.mem_cons.1 hx with rfl | hx
              · exact hso
              · exact hall x hx
            · rw [hstep, heq]; simp [List.filter_cons, hp]
          · right; right
            refine ⟨p :: pre, q, post, by simp [hrest], ?_, ha, hb, hc, ?_⟩
            · intro x hx
              rcases List.mem_cons.1 hx with rfl | hx
              · exact hso
              · exact hall x hx
            · rw [hstep, heq]; simp [List.filter_cons, hp]

theorem NestInv.init (S E par : Nat → Int) (h : ∀ i, par i = -1) : NestInv S E par [] 0 where
  incr := List.Pairwise.nil
  bound := by simp
  fresh := fun i _ => h i
  listParent := by simp
  cover := by simp
  parentOk := by simp
  lowest := by simp
  exact := by simp

/-- One iteration of the outer loop keeps the invariant, whatever branch the inner loop
leaves through, as long as the entries dropped from the list were passed and the facts
about position `k` itself hold. -/
theorem NestInv.step {S E par par2 : Nat → Int} {L L2 : List Nat} {k : Nat}
    (hinv : NestInv S E par L k)
    (hm1 : ∀ x ∈ L2, x ∈ L ∨ x = k)
    (hm2 : ∀ x ∈ L, x ∈ L2 ∨ E x < S k)
    (hm3 : L2.Pairwise (fun a b => a < b))
    (hpar : ∀ i, i ≠ k → par2 i = par i)
    (hkList : k ∈ L2 → par2 k = -1 ∨ ∃ q : Nat, par2 k = (q : Int) ∧ q < k ∧ S q = S k ∧
      E q < E k ∧ par q = -1 ∧ q ∈ L2)
    (hkCover : k ∈ L2 ∨ ∃ p ∈ L2, p < k ∧ E k ≤ E p)
    (hkParent : par2 k = -1 ∨ ∃ q : Nat, par2 k = (q : Int) ∧ q < k ∧ par q = -1 ∧
      (E k ≤ E q ∨ S q = S k ∨ ∃ p, p < k ∧ par p = (q : Int) ∧ S p = S q ∧ E k ≤ E p))
    (hkLowest : ∀ j, j < k → E k ≤ E j → ∃ q : Nat, par2 k = (q : Int) ∧ q ≤ j)
    (hkExact : (∀ a b, a < b → b ≤ k → S a ≠ S b) →
      (∀ j, j < k → E k ≤ E j → (∀ j2, j2 < j → E j2 < E k) → par2 k = (j : Int)) ∧
      ((∀ j, j < k → E j < E k) → par2 k = -1)) :
    NestInv S E par2 L2 (k + 1) := by
  have hlt : ∀ i, i < k → par2 i = par i := fun i hi => hpar i (by omega)
  have hbound2 : ∀ x ∈ L2, x < k + 1 := by
    intro x hx
    rcases hm1 x hx with h | h
    · have := hinv.bound x h; omega
    · omega
  refine ⟨hm3, hbound2, ?_, ?_, ?_, ?_, ?_, ?_⟩
  · intro i hi
    rw [hpar i (by omega)]
    exact hinv.fresh i (by omega)
  · intro x hx
    rcases hm1 x hx with h | h
    · have hxk := hinv.bound x h
      rcases hinv.listParent x h with h1 | ⟨q, h1, h2, h3, h4, h5, h6⟩
      · left; rw [hlt x hxk]; exact h1
      · right
        refine ⟨q, by rw [hlt x hxk]; exact h1, h2, h3, h4, by rw [hlt q (by omega)]; exact h5, ?_⟩
        rcases h6 with h6 | ⟨m, hm, h6⟩
        · rcases hm2 q h6 with h7 | h7
          · exact Or.inl h7
          · exact Or.inr ⟨k, by omega, h7⟩
        · exact Or.inr ⟨m, by omega, h6⟩
    · subst h
      rcases hkList hx with h1 | ⟨q, h1, h2, h3, h4, h5, h6⟩
      · exact Or.inl h1
      · exact Or.inr ⟨q, h1, h2, h3, h4, by rw [hlt q h2]; exact h5, Or.inl h6⟩
  · intro j hj
    rcases Nat.lt_succ_iff_lt_or_eq.1 hj with hj | hj
    · rcases hinv.cover j hj with h | ⟨m, hm, h⟩ | ⟨p, hp, h1, h2⟩
      · rcases hm2 j h with h7 | h7
        · exact Or.inl h7
        · exact Or.inr (Or.inl ⟨k, by omega, h7⟩)
      · exact Or.inr (Or.inl ⟨m, by omega, h⟩)
      · rcases hm2 p hp with h7 | h7
        · exact Or.inr (Or.inr ⟨p, h7, h1, h2⟩)
        · exact Or.inr (Or.inl ⟨k, by omega, by omega⟩)
    · subst hj
      rcases hkCover with h | h
      · exact Or.inl h
      · exact Or.inr (Or.inr h)
  · intro i hi
    rcases Nat.lt_succ_iff_lt_or_eq.1 hi with hi | hi
    · rcases hinv.parentOk i hi with h1 | ⟨q, h1, h2, h3, h4⟩
      · left; rw [hlt i hi]; exact h1
      · right
        refine ⟨q, by rw [hlt i hi]; exact h1, h2, by rw [hlt q (by omega)]; exact h3, ?_⟩
        rcases h4 with h4 | h4 | ⟨p, hp, h4, h5, h6⟩
        · exact Or.inl h4
        · exact Or.inr (Or.inl h4)
        · exact Or.inr (Or.inr ⟨p, hp, by rw [hlt p (by omega)]; exact h4, h5, h6⟩)
    · subst hi
      rcases hkParent with h1 | ⟨q, h1, h2, h3, h4⟩
      · exact Or.inl h1
      · right
        refine ⟨q, h1, h2, by rw [hlt q h2]; exact h3, ?_⟩
        rcases h4 with h4 | h4 | ⟨p, hp, h4, h5, h6⟩
        · exact Or.inl h4
        · exact Or.inr (Or.inl h4)
        · exact Or.inr (Or.inr ⟨p, hp, by rw [hlt p hp]; exact h4, h5, h6⟩)
  · intro i hi j hj hE
    rcases Nat.lt_succ_iff_lt_or_eq.1 hi with hi | hi
    · rw [hlt i hi]; exact hinv.lowest i hi j hj hE
    · subst hi; exact hkLowest j hj hE
  · intro i hi hdist
    rcases Nat.lt_succ_iff_lt_or_eq.1 hi with hi | hi
    · rw [hlt i hi]; exact hinv.exact i hi hdist
    · subst hi; exact hkExact hdist

/-- Every earlier range that covers the end of the current one is represented in the
list by a candidate that does so too and has no higher position. -/
theorem NestInv.coverIn {S E par : Nat → Int} {L : List Nat} {k : Nat}
    (hinv : NestInv S E par L k) (hsorted : ∀ m, m ≤ k → S m ≤ S k) (hnonneg : S k ≤ E k)
    (j : Nat) (hj : j < k) (hE : E k ≤ E j) : ∃ x ∈ L, x ≤ j ∧ E k ≤ E x := by
  rcases hinv.cover j hj with h | ⟨m, hm, h⟩ | ⟨p, hp, h1, h2⟩
  · exact ⟨j, h, le_refl _, hE⟩
  · have := hsorted m (by omega); omega
  · exact ⟨p, hp, by omega, by omega⟩

theorem mem_split_le {L pre post : List Nat} {p x : Nat}
    (hincr : L.Pairwise (fun a b => a < b)) (hL : L = pre ++ p :: post) (hx : x ∈ L) :
    x ∈ pre ∨ p ≤ x := by
  subst hL
  rcases List.mem_append.1 hx with h | h
  · exact Or.inl h
  · right
    rcases List.mem_cons.1 h with h | h
    · omega
    · have h2 := (List.pairwise_append.1 hincr).2.1
      have := (List.pairwise_cons.1 h2).1 x h
      omega

theorem mem_split_lt {L pre post : List Nat} {p x : Nat}
    (hincr : L.Pairwise (fun a b => a < b)) (hL : L = pre ++ p :: post) (hx : x ∈ L)
    (hlt : x < p) : x ∈ pre := by
  rcases mem_split_le hincr hL hx with h | h
  · exact h
  · omega

theorem filter_split_mem {L pre post : List Nat} {p : Nat} (f : Nat → Bool)
    (hL : L = pre ++ p :: post) : ∀ x ∈ pre.filter f ++ p :: post, x ∈ L := by
  intro x hx
  subst hL
  rcases List.mem_append.1 hx with h | h
  · exact List.mem_append.2 (Or.inl (List.mem_filter.1 h).1)
  · exact List.mem_append.2 (Or.inr h)

theorem filter_split_keep {L pre post : List Nat} {p : Nat} (f : Nat → Bool)
    (hL : L = pre ++ p :: post) : ∀ x ∈ L, x ∈ pre.filter f ++ p :: post ∨ f x = false := by
  intro x hx
  subst hL
  rcases List.mem_append.1 hx with h | h
  · by_cases hfx : f x = true
    · exact Or.inl (List.mem_append.2 (Or.inl (List.mem_filter.2 ⟨h, hfx⟩)))
    · right; simpa using hfx
  · exact Or.inl (List.mem_append.2 (Or.inr h))

theorem filter_split_pairwise {L pre post : List Nat} {p : Nat} (f : Nat → Bool)
    (hincr : L.Pairwise (fun a b => a < b)) (hL : L = pre ++ p :: post) :
    (pre.filter f ++ p :: post).Pairwise (fun a b => a < b) := by
  subst hL
  exact hincr.sublist (List.Sublist.append (List.filter_sublist pre) (List.Sublist.refl _))

theorem pairwise_snoc {L : List Nat} {k : Nat} (hincr : L.Pairwise (fun a b => a < b))
    (hb : ∀ x ∈ L, x < k) : (L ++ [k]).Pairwise (fun a b => a < b) := by
  rw [List.pairwise_append]
  refine ⟨hincr, List.pairwise_singleton _ _, ?_⟩
  intro a ha b hb2
  rw [List.mem_singleton] at hb2
  subst hb2
  exact hb a ha

/-- The inner loop reaches the end of the list: the current range is appended. -/
theorem NestInv.push {S E par : Nat → Int} {L : List Nat} {k : Nat}
    (hinv : NestInv S E par L k) (hsorted : ∀ m, m ≤ k → S m ≤ S k) (hnonneg : S k ≤ E k)
    (f : Nat → Bool) (hf : ∀ x, f x = false → E x < S k)
    (hall : ∀ x ∈ L, E x < S k ∨ (E x < E k ∧ S x ≠ S k)) :
    NestInv S E par (L.filter f ++ [k]) (k + 1) := by
  have hno : ∀ j, j < k → E k ≤ E j → False := by
    intro j hj hE
    obtain ⟨x, hx, _, hx2⟩ := hinv.coverIn hsorted hnonneg j hj hE
    rcases hall x hx with h | h <;> omega
  have hfresh : par k = -1 := hinv.fresh k (le_refl _)
  apply NestInv.step hinv
  · intro x hx
    rcases List.mem_append.1 hx with h | h
    · exact Or.inl (List.mem_filter.1 h).1
    · exact Or.inr (List.mem_singleton.1 h)
  · intro x hx
    by_cases hfx : f x = true
    · exact Or.inl (List.mem_append.2 (Or.inl (List.mem_filter.2 ⟨hx, hfx⟩)))
    · exact Or.inr (hf x (by simpa using hfx))
  · apply pairwise_snoc (hinv.incr.sublist (List.filter_sublist L))
    intro x hx
    exact hinv.bound x (List.mem_filter.1 hx).1
  · intro i _; rfl
  · intro _; exact Or.inl hfresh
  · exact Or.inl (by simp)
  · exact Or.inl hfresh
  · intro j hj hE
    exact (hno j hj hE).elim
  · intro _
    exact ⟨fun j hj hE _ => (hno j hj hE).elim, fun _ => hfresh⟩

/-- The inner loop stops at a candidate `p` that covers the current range. -/
theorem NestInv.inside {S E par par2 : Nat → Int} {L pre post : List Nat} {k p : Nat}
    (hinv : NestInv S E par L k) (hsorted : ∀ m, m ≤ k → S m ≤ S k) (hnonneg : S k ≤ E k)
    (f : Nat → Bool) (hf : ∀ x, f x = false → E x < S k)
    (hL : L = pre ++ p :: post)
    (hall : ∀ x ∈ pre, E x < S k ∨ (E x < E k ∧ S x ≠ S k))
    (h2 : E k ≤ E p)
    (hpar : ∀ i, i ≠ k → par2 i = par i)
    (hk : par2 k = if par p = -1 then (p : Int) else par p) :
    NestInv S E par2 (pre.filter f ++ p :: post) (k + 1) := by
  have hpL : p ∈ L := by rw [hL]; simp
  have hpk : p < k := hinv.bound p hpL
  have hp2 : p ∈ pre.filter f ++ p :: post := by simp
  have hlow : ∀ j, j < k → E k ≤ E j → p ≤ j := by
    intro j hj hE
    obtain ⟨x, hx, hxj, hx2⟩ := hinv.coverIn hsorted hnonneg j hj hE
    rcases mem_split_le hinv.incr hL hx with h | h
    · rcases hall x h with h3 | h3 <;> omega
    · omega
  apply NestInv.step hinv
  · intro x hx; exact Or.inl (filter_split_mem f hL x hx)
  · intro x hx
    rcases filter_split_keep f hL x hx with h | h
    · exact Or.inl h
    · exact Or.inr (hf x h)
  · exact filter_split_pairwise f hinv.incr hL
  · exact hpar
  · intro hkmem
    have := hinv.bound k (filter_split_mem f hL k hkmem)
    omega
  · exact Or.inr ⟨p, hp2, hpk, h2⟩
  · right
    rcases hinv.listParent p hpL with h | ⟨q, hq1, hq2, hq3, hq4, hq5, _⟩
    · exact ⟨p, by rw [hk, if_pos h], hpk, h, Or.inl h2⟩
    · have hne : par p ≠ -1 := by rw [hq1]; omega
      exact ⟨q, by rw [hk, if_neg hne, hq1], by omega, hq5,
        Or.inr (Or.inr ⟨p, hpk, hq1, hq3.symm, h2⟩)⟩
  · intro j hj hE
    have hpj := hlow j hj hE
    rcases hinv.listParent p hpL with h | ⟨q, hq1, hq2, _⟩
    · exact ⟨p, by rw [hk, if_pos h], hpj⟩
    · have hne : par p ≠ -1 := by rw [hq1]; omega
      exact ⟨q, by rw [hk, if_neg hne, hq1], by omega⟩
  · intro hdist
    refine ⟨?_, ?_⟩
    · intro j hj hE hmin
      have hpj := hlow j hj hE
      have hpj2 : p = j := by
        rcases Nat.lt_or_ge p j with h | h
        · have := hmin p h; omega
        · omega
      rcases hinv.listParent p hpL with h | ⟨q, _, hq2, hq3, _⟩
      · rw [hk, if_pos h, hpj2]
      · exact (hdist q p hq2 (by omega) hq3).elim
    · intro hnone
      have := hnone p hpk
      omega

/-- The inner loop stops at a candidate `p` that starts together with the current range
and ends before it: the current range becomes its child and a candidate of its own. -/
theorem NestInv.tie {S E par par2 : Nat → Int} {L pre post : List Nat} {k p : Nat}
    (hinv : NestInv S E par L k) (hsorted : ∀ a b, a ≤ b → b ≤ k → S a ≤ S b)
    (hnonneg : ∀ i, i ≤ k → S i ≤ E i)
    (f : Nat → Bool) (hf : ∀ x, f x = false → E x < S k)
    (hL : L = pre ++ p :: post)
    (hall : ∀ x ∈ pre, E x < S k ∨ (E x < E k ∧ S x ≠ S k))
    (h2 : E p < E k) (h3 : S p = S k)
    (hpar : ∀ i, i ≠ k → par2 i = par i)
    (hk : par2 k = (p : Int)) :
    NestInv S E par2 (pre.filter f ++ p :: post ++ [k]) (k + 1) := by
  have hpL : p ∈ L := by rw [hL]; simp
  have hpk : p < k := hinv.bound p hpL
  have hp2 : p ∈ pre.filter f ++ p :: post ++ [k] := by simp
  have hlow : ∀ j, j < k → E k ≤ E j → p ≤ j := by
    intro j hj hE
    obtain ⟨x, hx, hxj, hx2⟩ :=
      hinv.coverIn (fun m hm => hsorted m k hm (le_refl _)) (hnonneg k (le_refl _)) j hj hE
    rcases mem_split_le hinv.incr hL hx with h | h
    · have := hnonneg k (le_refl _)
      rcases hall x h with h3 | h3 <;> omega
    · omega
  have hparp : par p = -1 := by
    rcases hinv.listParent p hpL with h | ⟨q, _, hq2, hq3, _, _, hq6⟩
    · exact h
    · exfalso
      have hq := hnonneg q (by omega)
      rcases hq6 with hq6 | ⟨m, hm, hq6⟩
      · have hqpre := mem_split_lt hinv.incr hL hq6 hq2
        rcases hall q hqpre with h | h
        · omega
        · exact h.2 (by omega)
      · have := hsorted m k (by omega) (le_refl _)
        omega
  apply NestInv.step hinv
  · intro x hx
    rcases List.mem_append.1 hx with h | h
    · exact Or.inl (filter_split_mem f hL x h)
    · exact Or.inr (List.mem_singleton.1 h)
  · intro x hx
    rcases filter_split_keep f hL x hx with h | h
    · exact Or.inl (List.mem_append.2 (Or.inl h))
    · exact Or.inr (hf x h)
  · apply pairwise_snoc (filter_split_pairwise f hinv.incr hL)
    intro x hx
    exact hinv.bound x (filter_split_mem f hL x hx)
  · exact hpar
  · intro _
    exact Or.inr ⟨p, hk, hpk, h3, h2, hparp, hp2⟩
  · exact Or.inl (by simp)
  · exact Or.inr ⟨p, hk, hpk, hparp, Or.inr (Or.inl h3)⟩
  · intro j hj hE
    exact ⟨p, hk, hlow j hj hE⟩
  · intro hdist
    exact (hdist p k hpk (le_refl _) h3).elim

theorem setParent_length (ranges : List Range) (range : Nat) (p : Int) :
    (setParent ranges range p).length = ranges.length := by
  simp [setParent]

theorem rangeAt_setParent_ne (ranges : List Range) (range : Nat) (p : Int) (i : Nat)
    (h : i ≠ range) : rangeAt (setParent ranges range p) i = rangeAt ranges i := by
  simp [setParent, rangeAt, List.getElem?_set_ne (Ne.symm h)]

theorem rangeAt_setParent_self (ranges : List Range) (range : Nat) (p : Int)
    (h : range < ranges.length) :
    rangeAt (setParent ranges range p) range = { rangeAt ranges range with parent := p } := by
  simp [setParent, rangeAt, List.getElem?_set_self h]

theorem rangeAt_setParent_start (ranges : List Range) (range : Nat) (p : Int) (i : Nat) :
    (rangeAt (setParent ranges range p) i).start = (rangeAt ranges i).start := by
  by_cases h : i = range
  · subst h
    by_cases h2 : i < ranges.length
    · rw [rangeAt_setParent_self ranges i p h2]
    · simp [setParent, rangeAt, List.set_eq_of_length_le (not_lt.1 h2)]
  · rw [rangeAt_setParent_ne ranges range p i h]

theorem rangeAt_setParent_duration (ranges : List Range) (range : Nat) (p : Int) (i : Nat) :
    (rangeAt (setParent ranges range p) i).duration = (rangeAt ranges i).duration := by
  by_cases h : i = range
  · subst h
    by_cases h2 : i < ranges.length
    · rw [rangeAt_setParent_self ranges i p h2]
    · simp [setParent, rangeAt, List.set_eq_of_length_le (not_lt.1 h2)]
  · rw [rangeAt_setParent_ne ranges range p i h]

theorem rangeAt_setParent_selectionId (ranges : List Range) (range : Nat) (p : Int) (i : Nat) :
    (rangeAt (setParent ranges range p) i).selectionId = (rangeAt ranges i).selectionId := by
  by_cases h : i = range
  · subst h
    by_cases h2 : i < ranges.length
    · rw [rangeAt_setParent_self ranges i p h2]
    · simp [setParent, rangeAt, List.set_eq_of_length_le (not_lt.1 h2)]
  · rw [rangeAt_setParent_ne ranges range p i h]

theorem rangeAt_setParent_parent (ranges : List Range) (range : Nat) (p : Int)
    (h : range < ranges.length) : (rangeAt (setParent ranges range p) range).parent = p := by
  rw [rangeAt_setParent_self ranges range p h]

theorem rangeAt_eq_getElem {ranges : List Range} {i : Nat} (hi : i < ranges.length) :
    rangeAt ranges i = ranges[i] := by
  unfold rangeAt
  exact List.getD_eq_getElem _ _ hi

theorem StartSorted.le {ranges : List Range} (h : StartSorted ranges) (i j : Nat)
    (hij : i ≤ j) (hj : j < ranges.length) :
    (rangeAt ranges i).start ≤ (rangeAt ranges j).start := by
  rcases Nat.lt_or_eq_of_le hij with hlt | heq
  · have hi : i < ranges.length := by omega
    have := (List.pairwise_iff_getElem.1 h) i j hi hj hlt
    rw [rangeAt_eq_getElem hi, rangeAt_eq_getElem hj]
    exact this
  · subst heq; exact le_refl _

theorem rangeAt_mem {ranges : List Range} {i : Nat} (hi : i < ranges.length) :
    rangeAt ranges i ∈ ranges := by
  rw [rangeAt_eq_getElem hi]
  exact List.getElem_mem hi

theorem rangeAt_default {ranges : List Range} {i : Nat} (hi : ranges.length ≤ i) :
    rangeAt ranges i = default := by
  simp [rangeAt, List.getElem?_eq_none hi]

theorem LoopState.rangeEnd_eq {ranges0 ranges : List Range} {L : List Nat} {k : Nat}
    (h : LoopState ranges0 ranges L k) (i : Nat) : rangeEnd ranges i = rangeEnd ranges0 i := by
  unfold rangeEnd
  rw [h.start, h.duration]

theorem LoopState.next {ranges0 ranges : List Range} {L : List Nat} {k : Nat}
    (hsorted : StartSorted ranges0) (hnonneg : ∀ r ∈ ranges0, 0 ≤ r.duration)
    (h : LoopState ranges0 ranges L k) (hk : k < ranges0.length) :
    LoopState ranges0 (nestingStep ranges k [] L).1 (nestingStep ranges k [] L).2 (k + 1) := by
  have hS : ∀ a b, a ≤ b → b ≤ k → (rangeAt ranges0 a).start ≤ (rangeAt ranges0 b).start :=
    fun a b hab hb => hsorted.le a b hab (by omega)
  have hN : ∀ i, i ≤ k → (rangeAt ranges0 i).start ≤ rangeEnd ranges0 i := by
    intro i hi
    have := hnonneg _ (rangeAt_mem (show i < ranges0.length by omega))
    unfold rangeEnd; omega
  have hf : ∀ x, (fun x => !passedBy ranges k x) x = false →
      rangeEnd ranges0 x < (rangeAt ranges0 k).start := by
    intro x hx
    have : rangeEnd ranges x < (rangeAt ranges k).start := by simpa [passedBy] using hx
    rwa [h.rangeEnd_eq, h.start] at this
  have hso : ∀ x, SteppedOver ranges k x →
      rangeEnd ranges0 x < (rangeAt ranges0 k).start ∨
        (rangeEnd ranges0 x < rangeEnd ranges0 k ∧
          (rangeAt ranges0 x).start ≠ (rangeAt ranges0 k).start) := by
    intro x hx
    unfold SteppedOver at hx
    rwa [h.rangeEnd_eq, h.rangeEnd_eq, h.start, h.start] at hx
  have hklen : k < ranges.length := by rw [h.length]; exact hk
  rcases nestingStep_cases ranges k L [] with ⟨hall, heq⟩ |
      ⟨pre, p, post, hL, hall, _, hb, heq⟩ | ⟨pre, p, post, hL, hall, _, hb, hc, heq⟩
  · rw [heq]
    refine ⟨h.length, h.start, h.duration, h.selection, ?_⟩
    simpa using h.inv.push (fun m hm => hS m k hm (le_refl _)) (hN k (le_refl _)) _ hf
      (fun x hx => hso x (hall x hx))
  · rw [heq]
    refine ⟨by rw [setParent_length, h.length], ?_, ?_, ?_, ?_⟩
    · intro i; rw [rangeAt_setParent_start, h.start]
    · intro i; rw [rangeAt_setParent_duration, h.duration]
    · intro i; rw [rangeAt_setParent_selectionId, h.selection]
    · have key : NestInv (fun i => (rangeAt ranges0 i).start) (fun i => rangeEnd ranges0 i)
          (fun i => (rangeAt (setParent ranges k
            (if (rangeAt ranges p).parent = -1 then (p : Int) else (rangeAt ranges p).parent))
            i).parent)
          (pre.filter (fun x => !passedBy ranges k x) ++ p :: post) (k + 1) :=
        h.inv.inside (fun m hm => hS m k hm (le_refl _)) (hN k (le_refl _)) _ hf hL
          (fun x hx => hso x (hall x hx)) (by rwa [h.rangeEnd_eq, h.rangeEnd_eq] at hb)
          (fun i hi => by simp only [rangeAt_setParent_ne _ _ _ _ hi])
          (by simp only [rangeAt_setParent_parent _ _ _ hklen])
      simpa using key
  · rw [heq]
    refine ⟨by rw [setParent_length, h.length], ?_, ?_, ?_, ?_⟩
    · intro i; rw [rangeAt_setParent_start, h.start]
    · intro i; rw [rangeAt_setParent_duration, h.duration]
    · intro i; rw [rangeAt_setParent_selectionId, h.selection]
    · have key : NestInv (fun i => (rangeAt ranges0 i).start) (fun i => rangeEnd ranges0 i)
          (fun i => (rangeAt (setParent ranges k (p : Int)) i).parent)
          (pre.filter (fun x => !passedBy ranges k x) ++ p :: post ++ [k]) (k + 1) :=
        h.inv.tie hS hN _ hf hL
          (fun x hx => hso x (hall x hx)) (by rwa [h.rangeEnd_eq, h.rangeEnd_eq] at hb)
          (by rwa [h.start, h.start] at hc)
          (fun i hi => by simp only [rangeAt_setParent_ne _ _ _ _ hi])
          (by simp only [rangeAt_setParent_parent _ _ _ hklen])
      simpa using key

theorem nestingLoop_succ (k : Nat) (ranges : List Range) :
    nestingLoop (k + 1) ranges =
      nestingStep (nestingLoop k ranges).1 k [] (nestingLoop k ranges).2 := by
  simp [nestingLoop, List.range_succ, List.foldl_append]

theorem nestingLoop_state {ranges0 : List Range}
    (hsorted : StartSorted ranges0) (hnonneg : ∀ r ∈ ranges0, 0 ≤ r.duration)
    (hfresh : ∀ r ∈ ranges0, r.parent = -1) :
    ∀ k, k ≤ ranges0.length →
      LoopState ranges0 (nestingLoop k ranges0).1 (nestingLoop k ranges0).2 k := by
  intro k
  induction k with
  | zero =>
    intro _
    refine ⟨rfl, fun _ => rfl, fun _ => rfl, fun _ => rfl, ?_⟩
    apply NestInv.init
    intro i
    show (rangeAt ranges0 i).parent = -1
    by_cases hi : i < ranges0.length
    · exact hfresh _ (rangeAt_mem hi)
    · rw [rangeAt_default (not_lt.1 hi)]; rfl
  | succ k ih =>
    intro hk
    rw [nestingLoop_succ]
    exact (ih (by omega)).next hsorted hnonneg (by omega)

/-- The state in which `computeNesting` leaves a start-sorted store with non-negative
durations whose parent fields were all -1. -/
theorem computeNestingRanges_state {ranges0 : List Range}
    (hsorted : StartSorted ranges0) (hnonneg : ∀ r ∈ ranges0, 0 ≤ r.duration)
    (hfresh : ∀ r ∈ ranges0, r.parent = -1) :
    LoopState ranges0 (computeNestingRanges ranges0) (nestingLoop ranges0.length ranges0).2
      ranges0.length :=
  nestingLoop_state hsorted hnonneg hfresh ranges0.length (le_refl _)

theorem rangeAtInt_natCast (ranges : List Range) (i : Nat) :
    rangeAtInt ranges (i : Int) = rangeAt ranges i := by
  simp [rangeAtInt]

theorem parentIndex_computeNesting (d : TimelineModelPrivate) (i : Nat) :
    parentIndex (computeNesting d) (i : Int)
      = (rangeAt (computeNestingRanges d.ranges) i).parent := by
  simp [parentIndex, computeNesting, rangeAtInt_natCast]

theorem startTime_computeNesting {d : TimelineModelPrivate} {L : List Nat} {k : Nat}
    (h : LoopState d.ranges (computeNestingRanges d.ranges) L k) (i : Nat) :
    startTime (computeNesting d) (i : Int) = (rangeAt d.ranges i).start := by
  simp [startTime, computeNesting, rangeAtInt_natCast, h.start]

theorem endTime_computeNesting {d : TimelineModelPrivate} {L : List Nat} {k : Nat}
    (h : LoopState d.ranges (computeNestingRanges d.ranges) L k) (i : Nat) :
    endTime (computeNesting d) (i : Int) = rangeEnd d.ranges i := by
  simp [endTime, computeNesting, rangeAtInt_natCast, h.start, h.duration, rangeEnd]

/-- C1 (as amended): after `computeNesting` on a start-sorted store with non-negative
durations and parent fields initially -1, every range `i` with a parent `q` has `q < i`
and `start(q) <= start(i)`, and `end(q) >= end(i)` unless `q` and `i` start at the same
time or the parent was inherited from a range `p < i` that covers the end of `i`, has
`q` as its own parent and starts together with `q`. -/
theorem computeNesting_parent_covers (d : TimelineModelPrivate)
    (hsorted : StartSorted d.ranges) (hnonneg : ∀ r ∈ d.ranges, 0 ≤ r.duration)
    (hfresh : ∀ r ∈ d.ranges, r.parent = -1) (i : Nat) (hi : i < d.ranges.length)
    (hp : parentIndex (computeNesting d) (i : Int) ≠ -1) :
    ∃ q : Nat, parentIndex (computeNesting d) (i : Int) = (q : Int) ∧ q < i ∧
      startTime (computeNesting d) (q : Int) ≤ startTime (computeNesting d) (i : Int) ∧
      (endTime (computeNesting d) (i : Int) ≤ endTime (computeNesting d) (q : Int) ∨
        startTime (computeNesting d) (q : Int) = startTime (computeNesting d) (i : Int) ∨
        ∃ p : Nat, p < i ∧ parentIndex (computeNesting d) (p : Int) = (q : Int) ∧
          startTime (computeNesting d) (p : Int) = startTime (computeNesting d) (q : Int) ∧
          endTime (computeNesting d) (i : Int) ≤ endTime (computeNesting d) (p : Int)) := by
  have hst := computeNestingRanges_state hsorted hnonneg hfresh
  simp only [parentIndex_computeNesting, startTime_computeNesting hst,
    endTime_computeNesting hst] at hp ⊢
  rcases hst.inv.parentOk i hi with h | ⟨q, h1, h2, _, h4⟩
  · exact (hp h).elim
  · exact ⟨q, h1, h2, hsorted.le q i (by omega) hi, h4⟩

/-- C1, witness of `computeNesting_parent_covers`: in the scenario store the range at
index 1 has the parent 0, which covers it. -/
theorem computeNesting_parent_covers_witness :
    ∃ q : Nat, parentIndex (computeNesting scenarioA) ((1 : Nat) : Int) = (q : Int) ∧ q < 1 ∧
      startTime (computeNesting scenarioA) (q : Int)
        ≤ startTime (computeNesting scenarioA) ((1 : Nat) : Int) ∧
      (endTime (computeNesting scenarioA) ((1 : Nat) : Int)
          ≤ endTime (computeNesting scenarioA) (q : Int) ∨
        startTime (computeNesting scenarioA) (q : Int)
          = startTime (computeNesting scenarioA) ((1 : Nat) : Int) ∨
        ∃ p : Nat, p < 1 ∧ parentIndex (computeNesting scenarioA) (p : Int) = (q : Int) ∧
          startTime (computeNesting scenarioA) (p : Int)
            = startTime (computeNesting scenarioA) (q : Int) ∧
          endTime (computeNesting scenarioA) ((1 : Nat) : Int)
            ≤ endTime (computeNesting scenarioA) (p : Int)) :=
  computeNesting_parent_covers scenarioA (by decide) (by decide) (by decide) 1 (by decide)
    (by decide)

/-- C1, counterexample: on the start-sorted store `(0,1)`, `(0,10)`, `(5,2)` with
non-negative durations and fresh parent fields, `computeNesting` gives the range at
index 2 the parent 0, which starts earlier (0 against 5) and ends before it (1 against
7). -/
theorem computeNesting_containment_counterexample :
    StartSorted tiedStore.ranges ∧ (∀ r ∈ tiedStore.ranges, 0 ≤ r.duration) ∧
      (∀ r ∈ tiedStore.ranges, r.parent = -1) ∧
      parentIndex (computeNesting tiedStore) 2 = 0 ∧
      startTime (computeNesting tiedStore) 0 ≠ startTime (computeNesting tiedStore) 2 ∧
      ¬ (startTime (computeNesting tiedStore) 0 ≤ startTime (computeNesting tiedStore) 2 ∧
        endTime (computeNesting tiedStore) 0 ≥ endTime (computeNesting tiedStore) 2) := by
  decide

theorem pairwise_ne_start {ranges : List Range}
    (h : ranges.Pairwise (fun a b => a.start ≠ b.start)) (a b : Nat) (hab : a < b)
    (hb : b < ranges.length) : (rangeAt ranges a).start ≠ (rangeAt ranges b).start := by
  have ha : a < ranges.length := by omega
  rw [rangeAt_eq_getElem ha, rangeAt_eq_getElem hb]
  exact (List.pairwise_iff_getElem.1 h) a b ha hb hab

/-- C2: on a start-sorted store with pairwise distinct start times, non-negative
durations and parent fields initially -1, `computeNesting` sets `parent(i)` to the
lowest index `j < i` whose range completely covers range `i`, and leaves it -1 when no
such index exists. -/
theorem computeNesting_lowest_cover (d : TimelineModelPrivate)
    (hsorted : StartSorted d.ranges)
    (hdistinct : d.ranges.Pairwise (fun a b => a.start ≠ b.start))
    (hnonneg : ∀ r ∈ d.ranges, 0 ≤ r.duration)
    (hfresh : ∀ r ∈ d.ranges, r.parent = -1) (i : Nat) (hi : i < d.ranges.length) :
    (∀ j : Nat, j < i →
      (startTime (computeNesting d) (j : Int) ≤ startTime (computeNesting d) (i : Int) ∧
        endTime (computeNesting d) (j : Int) ≥ endTime (computeNesting d) (i : Int)) →
      (∀ j2 : Nat, j2 < j →
        ¬ (startTime (computeNesting d) (j2 : Int) ≤ startTime (computeNesting d) (i : Int) ∧
          endTime (computeNesting d) (j2 : Int) ≥ endTime (computeNesting d) (i : Int))) →
      parentIndex (computeNesting d) (i : Int) = (j : Int)) ∧
    ((∀ j : Nat, j < i →
        ¬ (startTime (computeNesting d) (j : Int) ≤ startTime (computeNesting d) (i : Int) ∧
          endTime (computeNesting d) (j : Int) ≥ endTime (computeNesting d) (i : Int))) →
      parentIndex (computeNesting d) (i : Int) = -1) := by
  have hst := computeNestingRanges_state hsorted hnonneg hfresh
  simp only [parentIndex_computeNesting, startTime_computeNesting hst,
    endTime_computeNesting hst]
  have hex := hst.inv.exact i hi
    (fun a b hab hb => pairwise_ne_start hdistinct a b hab (by omega))
  refine ⟨?_, ?_⟩
  · intro j hj hcov hmin
    apply hex.1 j hj hcov.2
    intro j2 hj2
    have h1 := hsorted.le j2 i (by omega) hi
    have h2 := hmin j2 hj2
    by_contra h3
    exact h2 ⟨h1, by omega⟩
  · intro hnone
    apply hex.2
    intro j hj
    have h1 := hsorted.le j i (by omega) hi
    have h2 := hnone j hj
    by_contra h3
    exact h2 ⟨h1, by omega⟩

/-- C2, witness of `computeNesting_lowest_cover`: inserting `(0,10,1)`, `(2,3,2)`,
`(5,1,3)` into an empty store and running `computeNesting` yields `parent(0) = -1`,
`parent(1) = 0` and `parent(2) = 0`. -/
theorem computeNesting_lowest_cover_witness :
    parentIndex (computeNesting scenarioA) ((0 : Nat) : Int) = -1 ∧
      parentIndex (computeNesting scenarioA) ((1 : Nat) : Int) = ((0 : Nat) : Int) ∧
      parentIndex (computeNesting scenarioA) ((2 : Nat) : Int) = ((0 : Nat) : Int) :=
  ⟨(computeNesting_lowest_cover scenarioA (by decide) (by decide) (by decide) (by decide) 0
      (by decide)).2 (fun j hj => absurd hj (Nat.not_lt_zero j)),
    (computeNesting_lowest_cover scenarioA (by decide) (by decide) (by decide) (by decide) 1
      (by decide)).1 0 (by decide) (by decide) (fun j2 hj2 => absurd hj2 (Nat.not_lt_zero j2)),
    (computeNesting_lowest_cover scenarioA (by decide) (by decide) (by decide) (by decide) 2
      (by decide)).1 0 (by decide) (by decide) (fun j2 hj2 => absurd hj2 (Nat.not_lt_zero j2))⟩

theorem lowerBoundLoop_succ (container : List Int) (time : Int) (fuel : Nat)
    (fromIndex toIndex : Int) :
    lowerBoundLoop container time (fuel + 1) fromIndex toIndex =
      if toIndex - fromIndex > 1 then
        if timestampAt container ((fromIndex + toIndex) / 2) < time then
          lowerBoundLoop container time fuel ((fromIndex + toIndex) / 2) toIndex
        else
          lowerBoundLoop container time fuel fromIndex ((fromIndex + toIndex) / 2)
      else
        fromIndex := by
  rfl

/-- The iteration bound of `lowerBoundLoop` is never reached once it is at least the
distance of the two indices: a larger bound gives the same result. -/
theorem lowerBoundLoop_fuel (container : List Int) (time : Int) :
    ∀ (fuel extra : Nat) (fromIndex toIndex : Int), toIndex - fromIndex ≤ (fuel : Int) →
      lowerBoundLoop container time (fuel + extra) fromIndex toIndex =
        lowerBoundLoop container time fuel fromIndex toIndex := by
  intro fuel
  induction fuel with
  | zero =>
    intro extra fromIndex toIndex h
    cases extra with
    | zero => rfl
    | succ e =>
      have h2 : ¬ (toIndex - fromIndex > 1) := by omega
      simp only [Nat.zero_add]
      rw [lowerBoundLoop_succ, if_neg h2]
      rfl
  | succ fuel ih =>
    intro extra fromIndex toIndex h
    have hadd : fuel + 1 + extra = (fuel + extra) + 1 := by omega
    rw [hadd, lowerBoundLoop_succ, lowerBoundLoop_succ]
    by_cases h1 : toIndex - fromIndex > 1
    · rw [if_pos h1, if_pos h1]
      rw [ih extra _ _ (by omega), ih extra _ _ (by omega)]
    · rw [if_neg h1, if_neg h1]

/-- What the binary search returns between two distinct positions: a position `r` in
`[fromIndex, toIndex)` that is `fromIndex` or holds a timestamp before `time`, and
whose successor is `toIndex` or holds a timestamp at or after `time`. -/
theorem lowerBoundLoop_spec (container : List Int) (time : Int) :
    ∀ (fuel : Nat) (fromIndex toIndex : Int), fromIndex < toIndex →
      toIndex - fromIndex ≤ (fuel : Int) →
      fromIndex ≤ lowerBoundLoop container time fuel fromIndex toIndex ∧
      lowerBoundLoop container time fuel fromIndex toIndex < toIndex ∧
      (lowerBoundLoop container time fuel fromIndex toIndex = fromIndex ∨
        timestampAt container (lowerBoundLoop container time fuel fromIndex toIndex) < time) ∧
      (lowerBoundLoop container time fuel fromIndex toIndex + 1 = toIndex ∨
        time ≤ timestampAt container
          (lowerBoundLoop container time fuel fromIndex toIndex + 1)) := by
  intro fuel
  induction fuel with
  | zero =>
    intro fromIndex toIndex h1 h2
    exfalso
    have : ((0 : Nat) : Int) = 0 := rfl
    omega
  | succ fuel ih =>
    intro fromIndex toIndex h1 h2
    rw [lowerBoundLoop_succ]
    by_cases hgt : toIndex - fromIndex > 1
    · rw [if_pos hgt]
      have hfuel : toIndex - fromIndex ≤ (fuel : Int) + 1 := by exact_mod_cast h2
      by_cases hmid : timestampAt container ((fromIndex + toIndex) / 2) < time
      · rw [if_pos hmid]
        obtain ⟨a, b, c, e⟩ := ih ((fromIndex + toIndex) / 2) toIndex (by omega) (by omega)
        refine ⟨by omega, b, ?_, e⟩
        rcases c with c | c
        · right; rw [c]; exact hmid
        · exact Or.inr c
      · rw [if_neg hmid]
        obtain ⟨a, b, c, e⟩ := ih fromIndex ((fromIndex + toIndex) / 2) (by omega) (by omega)
        refine ⟨a, by omega, c, ?_⟩
        rcases e with e | e
        · right; rw [e]; exact not_lt.1 hmid
        · exact Or.inr e
    · rw [if_neg hgt]
      exact ⟨le_refl _, h1, Or.inl rfl, Or.inl (by omega)⟩

theorem lowerBound_spec (container : List Int) (time : Int) (h : 2 ≤ container.length) :
    0 ≤ lowerBound container time ∧
      lowerBound container time < (container.length : Int) - 1 ∧
      (lowerBound container time = 0 ∨
        timestampAt container (lowerBound container time) < time) ∧
      (lowerBound container time + 1 = (container.length : Int) - 1 ∨
        time ≤ timestampAt container (lowerBound container time + 1)) := by
  unfold lowerBound
  exact lowerBoundLoop_spec container time container.length 0 ((container.length : Int) - 1)
    (by omega) (by omega)

theorem timestampAt_start (ranges : List Range) (i : Nat) (hi : i < ranges.length) :
    timestampAt (ranges.map Range.start) (i : Int) = (rangeAt ranges i).start := by
  simp [timestampAt, rangeAt, List.getElem?_eq_getElem hi]

theorem startTime_natCast (d : TimelineModelPrivate) (i : Nat) :
    startTime d (i : Int) = (rangeAt d.ranges i).start := by
  simp [startTime, rangeAtInt_natCast]

/-- The result of `lastIndex` on a start-sorted store, in terms of the start index. -/
theorem lastIndex_spec (d : TimelineModelPrivate) (hsorted : StartSorted d.ranges)
    (T : Int) :
    (lastIndex d T = -1 ↔
      (d.ranges = [] ∨ ∀ i : Nat, i < d.ranges.length → T ≤ (rangeAt d.ranges i).start)) ∧
    (lastIndex d T ≠ -1 → ∃ r : Nat, lastIndex d T = (r : Int) ∧ r < d.ranges.length ∧
      (rangeAt d.ranges r).start < T ∧
      ∀ i : Nat, i < d.ranges.length → (rangeAt d.ranges i).start < T → i ≤ r) := by
  by_cases hempty : d.ranges = []
  · simp [lastIndex, hempty]
  have hlen : 0 < d.ranges.length := List.length_pos.2 hempty
  have hne : d.ranges.isEmpty = false := by simp [List.isEmpty_iff, hempty]
  by_cases hfirst : (rangeAt d.ranges 0).start ≥ T
  · have hres : lastIndex d T = -1 := by simp [lastIndex, hfirst]
    rw [hres]
    refine ⟨⟨fun _ => Or.inr ?_, fun _ => rfl⟩, fun h => (h rfl).elim⟩
    intro i hi
    have := hsorted.le 0 i (Nat.zero_le _) hi
    omega
  by_cases hlast : (rangeAt d.ranges (d.ranges.length - 1)).start < T
  · have hres : lastIndex d T = (d.ranges.length : Int) - 1 := by
      simp [lastIndex, hne, hfirst, hlast]
    rw [hres]
    refine ⟨⟨fun h => by omega, ?_⟩, fun _ => ⟨d.ranges.length - 1, by omega, by omega, hlast, ?_⟩⟩
    · rintro (h | h)
      · exact (hempty h).elim
      · have := h (d.ranges.length - 1) (by omega)
        omega
    · intro i hi _; omega
  · have hres : lastIndex d T = lowerBound (d.ranges.map Range.start) T := by
      simp [lastIndex, hne, hfirst, hlast]
    have hlen2 : 2 ≤ (d.ranges.map Range.start).length := by
      rw [List.length_map]
      by_contra hcon
      have h1 : d.ranges.length - 1 = 0 := by omega
      rw [h1] at hlast
      omega
    obtain ⟨a, b, c, e⟩ := lowerBound_spec (d.ranges.map Range.start) T hlen2
    rw [List.length_map] at b e hlen2
    rw [hres]
    obtain ⟨r, hr⟩ := Int.eq_ofNat_of_zero_le a
    rw [hr] at b c e ⊢
    have hrlt : r < d.ranges.length - 1 := by omega
    have hstart : (rangeAt d.ranges r).start < T := by
      rcases c with c | c
      · have : r = 0 := by omega
        rw [this]; omega
      · rwa [timestampAt_start _ _ (by omega)] at c
    have hnext : T ≤ (rangeAt d.ranges (r + 1)).start := by
      rcases e with e | e
      · have : r + 1 = d.ranges.length - 1 := by omega
        rw [this]; omega
      · have e2 : T ≤ timestampAt (d.ranges.map Range.start) ((r + 1 : Nat) : Int) := by
          push_cast; exact e
        rwa [timestampAt_start _ _ (by omega)] at e2
    refine ⟨⟨fun h => by omega, ?_⟩, fun _ => ⟨r, rfl, by omega, hstart, ?_⟩⟩
    · rintro (h | h)
      · exact (hempty h).elim
      · have := h r (by omega)
        omega
    · intro i hi hiT
      by_contra hcon
      have := hsorted.le (r + 1) i (by omega) hi
      omega

/-- C3: on a store whose start index is sorted by start time, `lastIndex(T)` returns the
highest index `i` with `start(i) < T`, and it returns -1 exactly when the store is empty
or no range starts strictly before `T`. -/
theorem lastIndex_highest_before (d : TimelineModelPrivate) (hsorted : StartSorted d.ranges)
    (T : Int) :
    (lastIndex d T = -1 ↔
      (d.ranges = [] ∨ ∀ i : Nat, i < d.ranges.length → T ≤ startTime d (i : Int))) ∧
    (lastIndex d T ≠ -1 → ∃ r : Nat, lastIndex d T = (r : Int) ∧ r < d.ranges.length ∧
      startTime d (r : Int) < T ∧
      ∀ i : Nat, i < d.ranges.length → startTime d (i : Int) < T → i ≤ r) := by
  simp only [startTime_natCast]
  exact lastIndex_spec d hsorted T

/-- C3, witness of `lastIndex_highest_before`: in the scenario store, whose start times
are 0, 2 and 5, `lastIndex(5)` is the index 1. -/
theorem lastIndex_highest_before_witness :
    StartSorted scenarioA.ranges ∧ lastIndex scenarioA 5 = 1 ∧
      ∃ r : Nat, lastIndex scenarioA 5 = (r : Int) ∧ r < scenarioA.ranges.length ∧
        startTime scenarioA (r : Int) < 5 ∧
        ∀ i : Nat, i < scenarioA.ranges.length → startTime scenarioA (i : Int) < 5 → i ≤ r :=
  ⟨by decide, by decide,
    (lastIndex_highest_before scenarioA (by decide) 5).2 (by decide)⟩

/-- C4, the code at the failing input: in the scenario store the end index is sorted
with the end times 5, 6 and 10, the only entry that ends after 6 is the one of range 0,
and `firstIndexNoParents(6)` returns 2, the range that ends exactly at 6. -/
theorem firstIndexNoParents_equal_end :
    scenarioA.endTimes = [⟨1, 5⟩, ⟨2, 6⟩, ⟨0, 10⟩] ∧
      firstIndexNoParents scenarioA 6 = 2 ∧ endTime scenarioA 2 = 6 ∧
      endTime scenarioA 0 = 10 := by
  decide

theorem lastIndex_eq_with (d : TimelineModelPrivate) (T : Int) :
    lastIndex d T = lastIndexWith lowerBound d T := by
  rfl

theorem firstIndexNoParents_eq_with (d : TimelineModelPrivate) (T : Int) :
    firstIndexNoParents d T = firstIndexNoParentsWith lowerBound d T := by
  rfl

/-- Whatever the helper `lowerBound` computes, `lastIndex` and `firstIndexNoParents`
cannot both be exact: on the store with the start and end times 3, 5, 7 and the time 5,
`lastIndex` is exact (index 0, the last start before 5) only if the helper returns 0,
and then `firstIndexNoParents` returns the range 1, which ends at 5, instead of the
range 2, the first that ends after 5. -/
theorem lowerBound_conflict (lb : List Int → Int → Int) :
    ¬ (lastIndexWith lb pointStore 5 = 0 ∧ firstIndexNoParentsWith lb pointStore 5 = 2) := by
  rintro ⟨h1, h2⟩
  have e1 : lastIndexWith lb pointStore 5 = lb [3, 5, 7] 5 := by rfl
  have e2 : firstIndexNoParentsWith lb pointStore 5
      = (endAtInt pointStore.endTimes (lb [3, 5, 7] 5 + 1)).startIndex := by rfl
  rw [e1] at h1
  rw [e2, h1] at h2
  revert h2
  decide

theorem firstIndex_eq (d : TimelineModelPrivate) (T : Int) :
    firstIndex d T =
      if firstIndexNoParents d T = -1 then -1
      else if (rangeAtInt d.ranges (firstIndexNoParents d T)).parent = -1 then
        firstIndexNoParents d T
      else (rangeAtInt d.ranges (firstIndexNoParents d T)).parent := by
  rfl

theorem rangeAtInt_default_of_not_lt (ranges : List Range) (i : Int)
    (h : ¬ (0 ≤ i ∧ i < (ranges.length : Int))) : rangeAtInt ranges i = default := by
  unfold rangeAtInt
  by_cases h0 : i < 0
  · rw [if_pos h0]
  · rw [if_neg h0]
    exact rangeAt_default (by omega)

/-- After `computeNesting` the parent of a range has no parent itself. -/
theorem computeNestingRanges_parent_top {ranges : List Range}
    (hsorted : StartSorted ranges) (hnonneg : ∀ r ∈ ranges, 0 ≤ r.duration)
    (hfresh : ∀ r ∈ ranges, r.parent = -1) (i : Int)
    (hp : (rangeAtInt (computeNestingRanges ranges) i).parent ≠ -1) :
    (rangeAtInt (computeNestingRanges ranges)
      (rangeAtInt (computeNestingRanges ranges) i).parent).parent = -1 := by
  have hst := computeNestingRanges_state hsorted hnonneg hfresh
  by_cases hi : 0 ≤ i ∧ i < ((computeNestingRanges ranges).length : Int)
  · obtain ⟨m, rfl⟩ := Int.eq_ofNat_of_zero_le hi.1
    rw [rangeAtInt_natCast] at hp ⊢
    have hm : m < ranges.length := by
      have := hi.2
      rw [hst.length] at this
      omega
    rcases hst.inv.parentOk m hm with h | ⟨q, h1, _, h3, _⟩
    · exact (hp h).elim
    · have h1b : (rangeAt (computeNestingRanges ranges) m).parent = (q : Int) := h1
      rw [h1b, rangeAtInt_natCast]
      exact h3
  · rw [rangeAtInt_default_of_not_lt _ _ hi] at hp
    exact (hp rfl).elim

/-- C5: `firstIndex(T)` is -1 exactly when `firstIndexNoParents(T)` is -1; otherwise it
is the parent of the raw match, or the raw match itself when that has no parent; and
after `computeNesting` on a start-sorted store with non-negative durations and parent
fields initially -1, the index it returns has no parent. -/
theorem firstIndex_resolves_topmost (s : TimelineModelPrivate) (T : Int)
    (d : TimelineModelPrivate) (hsorted : StartSorted d.ranges)
    (hnonneg : ∀ r ∈ d.ranges, 0 ≤ r.duration) (hfresh : ∀ r ∈ d.ranges, r.parent = -1) :
    (firstIndex s T = -1 ↔ firstIndexNoParents s T = -1) ∧
    (firstIndexNoParents s T ≠ -1 →
      firstIndex s T =
        if parentIndex s (firstIndexNoParents s T) = -1 then firstIndexNoParents s T
        else parentIndex s (firstIndexNoParents s T)) ∧
    (firstIndex (computeNesting d) T ≠ -1 →
      parentIndex (computeNesting d) (firstIndex (computeNesting d) T) = -1) := by
  refine ⟨?_, ?_, ?_⟩
  · rw [firstIndex_eq]
    by_cases h : firstIndexNoParents s T = -1
    · simp [h]
    · rw [if_neg h]
      by_cases h2 : (rangeAtInt s.ranges (firstIndexNoParents s T)).parent = -1
      · rw [if_pos h2]
      · rw [if_neg h2]
        exact ⟨fun h3 => (h2 h3).elim, fun h3 => (h h3).elim⟩
  · intro h
    rw [firstIndex_eq, if_neg h]
    rfl
  · intro hne
    rw [firstIndex_eq] at hne ⊢
    by_cases h : firstIndexNoParents (computeNesting d) T = -1
    · rw [if_pos h] at hne
      exact (hne rfl).elim
    · rw [if_neg h]
      by_cases h2 : (rangeAtInt (computeNesting d).ranges
          (firstIndexNoParents (computeNesting d) T)).parent = -1
      · rw [if_pos h2]
        exact h2
      · rw [if_neg h2]
        exact computeNestingRanges_parent_top hsorted hnonneg hfresh _ h2

/-- C5, witness of `firstIndex_resolves_topmost`: on the scenario store after
`computeNesting`, `firstIndex(6)` is 0, and the range at index 0 has no parent. -/
theorem firstIndex_resolves_topmost_witness :
    firstIndex (computeNesting scenarioA) 6 = 0 ∧
      parentIndex (computeNesting scenarioA) (firstIndex (computeNesting scenarioA) 6) = -1 :=
  ⟨by decide,
    (firstIndex_resolves_topmost scenarioA 6 scenarioA (by decide) (by decide)
      (by decide)).2.2 (by decide)⟩

theorem NestLow.lowInit (S E par : Nat → Int)
    (h : ∀ i, par i = -1 ∨ ∃ q : Nat, par i = (q : Int) ∧ q < i) : NestLow S E par [] 0 where
  incr := List.Pairwise.nil
  bound := by simp
  cover := by simp
  below := h
  lowest := by simp

theorem NestLow.lowStep {S E par par2 : Nat → Int} {L L2 : List Nat} {k : Nat}
    (hinv : NestLow S E par L k)
    (hm1 : ∀ x ∈ L2, x ∈ L ∨ x = k)
    (hm2 : ∀ x ∈ L, x ∈ L2 ∨ E x < S k)
    (hm3 : L2.Pairwise (fun a b => a < b))
    (hpar : ∀ i, i ≠ k → par2 i = par i)
    (hkCover : k ∈ L2 ∨ ∃ p ∈ L2, p < k ∧ E k ≤ E p)
    (hkBelow : par2 k = -1 ∨ ∃ q : Nat, par2 k = (q : Int) ∧ q < k)
    (hkLowest : ∀ j, j < k → E k ≤ E j → ∃ q : Nat, par2 k = (q : Int) ∧ q ≤ j) :
    NestLow S E par2 L2 (k + 1) := by
  refine ⟨hm3, ?_, ?_, ?_, ?_⟩
  · intro x hx
    rcases hm1 x hx with h | h
    · have := hinv.bound x h; omega
    · omega
  · intro j hj
    rcases Nat.lt_succ_iff_lt_or_eq.1 hj with hj | hj
    · rcases hinv.cover j hj with h | ⟨m, hm, h⟩ | ⟨p, hp, h1, h2⟩
      · rcases hm2 j h with h7 | h7
        · exact Or.inl h7
        · exact Or.inr (Or.inl ⟨k, by omega, h7⟩)
      · exact Or.inr (Or.inl ⟨m, by omega, h⟩)
      · rcases hm2 p hp with h7 | h7
        · exact Or.inr (Or.inr ⟨p, h7, h1, h2⟩)
        · exact Or.inr (Or.inl ⟨k, by omega, by omega⟩)
    · subst hj
      rcases hkCover with h | h
      · exact Or.inl h
      · exact Or.inr (Or.inr h)
  · intro i
    by_cases hi : i = k
    · subst hi; exact hkBelow
    · rw [hpar i hi]; exact hinv.below i
  · intro i hi j hj hE
    rcases Nat.lt_succ_iff_lt_or_eq.1 hi with hi | hi
    · rw [hpar i (by omega)]; exact hinv.lowest i hi j hj hE
    · subst hi; exact hkLowest j hj hE

theorem NestLow.lowCoverIn {S E par : Nat → Int} {L : List Nat} {k : Nat}
    (hinv : NestLow S E par L k) (hsorted : ∀ m, m ≤ k → S m ≤ S k) (hnonneg : S k ≤ E k)
    (j : Nat) (hj : j < k) (hE : E k ≤ E j) : ∃ x ∈ L, x ≤ j ∧ E k ≤ E x := by
  rcases hinv.cover j hj with h | ⟨m, hm, h⟩ | ⟨p, hp, h1, h2⟩
  · exact ⟨j, h, le_refl _, hE⟩
  · have := hsorted m (by omega); omega
  · exact ⟨p, hp, by omega, by omega⟩

theorem NestLow.lowPush {S E par : Nat → Int} {L : List Nat} {k : Nat}
    (hinv : NestLow S E par L k) (hsorted : ∀ m, m ≤ k → S m ≤ S k) (hnonneg : S k ≤ E k)
    (f : Nat → Bool) (hf : ∀ x, f x = false → E x < S k)
    (hall : ∀ x ∈ L, E x < S k ∨ (E x < E k ∧ S x ≠ S k)) :
    NestLow S E par (L.filter f ++ [k]) (k + 1) := by
  apply NestLow.lowStep hinv
  · intro x hx
    rcases List.mem_append.1 hx with h | h
    · exact Or.inl (List.mem_filter.1 h).1
    · exact Or.inr (List.mem_singleton.1 h)
  · intro x hx
    by_cases hfx : f x = true
    · exact Or.inl (List.mem_append.2 (Or.inl (List.mem_filter.2 ⟨hx, hfx⟩)))
    · exact Or.inr (hf x (by simpa using hfx))
  · apply pairwise_snoc (hinv.incr.sublist (List.filter_sublist L))
    intro x hx
    exact hinv.bound x (List.mem_filter.1 hx).1
  · intro i _; rfl
  · exact Or.inl (by simp)
  · exact hinv.below k
  · intro j hj hE
    obtain ⟨x, hx, _, hx2⟩ := hinv.lowCoverIn hsorted hnonneg j hj hE
    rcases hall x hx with h | h <;> omega

theorem NestLow.stop {S E par par2 : Nat → Int} {L pre post L2 : List Nat} {k p : Nat}
    (hinv : NestLow S E par L k) (hsorted : ∀ m, m ≤ k → S m ≤ S k) (hnonneg : S k ≤ E k)
    (hL : L = pre ++ p :: post)
    (hall : ∀ x ∈ pre, E x < S k ∨ (E x < E k ∧ S x ≠ S k))
    (hm1 : ∀ x ∈ L2, x ∈ L ∨ x = k)
    (hm2 : ∀ x ∈ L, x ∈ L2 ∨ E x < S k)
    (hm3 : L2.Pairwise (fun a b => a < b))
    (hkCover : k ∈ L2 ∨ ∃ p ∈ L2, p < k ∧ E k ≤ E p)
    (hpar : ∀ i, i ≠ k → par2 i = par i)
    (hk : par2 k = (p : Int) ∨ (par p ≠ -1 ∧ par2 k = par p)) :
    NestLow S E par2 L2 (k + 1) := by
  have hpL : p ∈ L := by rw [hL]; simp
  have hpk : p < k := hinv.bound p hpL
  have hq : ∃ q : Nat, par2 k = (q : Int) ∧ q ≤ p := by
    rcases hk with hk | ⟨hne, hk⟩
    · exact ⟨p, hk, le_refl _⟩
    · rcases hinv.below p with h | ⟨q, h1, h2⟩
      · exact (hne h).elim
      · exact ⟨q, by rw [hk, h1], by omega⟩
  obtain ⟨q, hq1, hq2⟩ := hq
  apply NestLow.lowStep hinv hm1 hm2 hm3 hpar hkCover
  · exact Or.inr ⟨q, hq1, by omega⟩
  · intro j hj hE
    obtain ⟨x, hx, hxj, hx2⟩ := hinv.lowCoverIn hsorted hnonneg j hj hE
    rcases mem_split_le hinv.incr hL hx with h | h
    · rcases hall x h with h3 | h3 <;> omega
    · exact ⟨q, hq1, by omega⟩

theorem LowState.lowRangeEnd_eq {ranges0 ranges : List Range} {L : List Nat} {k : Nat}
    (h : LowState ranges0 ranges L k) (i : Nat) : rangeEnd ranges i = rangeEnd ranges0 i := by
  unfold rangeEnd
  rw [h.start, h.duration]

theorem LowState.lowNext {ranges0 ranges : List Range} {L : List Nat} {k : Nat}
    (hsorted : StartSorted ranges0) (hnonneg : ∀ r ∈ ranges0, 0 ≤ r.duration)
    (h : LowState ranges0 ranges L k) (hk : k < ranges0.length) :
    LowState ranges0 (nestingStep ranges k [] L).1 (nestingStep ranges k [] L).2 (k + 1) := by
  have hS : ∀ m, m ≤ k → (rangeAt ranges0 m).start ≤ (rangeAt ranges0 k).start :=
    fun m hm => hsorted.le m k hm hk
  have hN : (rangeAt ranges0 k).start ≤ rangeEnd ranges0 k := by
    have := hnonneg _ (rangeAt_mem hk)
    unfold rangeEnd; omega
  have hf : ∀ x, (fun x => !passedBy ranges k x) x = false →
      rangeEnd ranges0 x < (rangeAt ranges0 k).start := by
    intro x hx
    have : rangeEnd ranges x < (rangeAt ranges k).start := by simpa [passedBy] using hx
    rwa [h.lowRangeEnd_eq, h.start] at this
  have hso : ∀ x, SteppedOver ranges k x →
      rangeEnd ranges0 x < (rangeAt ranges0 k).start ∨
        (rangeEnd ranges0 x < rangeEnd ranges0 k ∧
          (rangeAt ranges0 x).start ≠ (rangeAt ranges0 k).start) := by
    intro x hx
    unfold SteppedOver at hx
    rwa [h.lowRangeEnd_eq, h.lowRangeEnd_eq, h.start, h.start] at hx
  have hklen : k < ranges.length := by rw [h.length]; exact hk
  rcases nestingStep_cases ranges k L [] with ⟨hall, heq⟩ |
      ⟨pre, p, post, hL, hall, _, hb, heq⟩ | ⟨pre, p, post, hL, hall, _, hb, hc, heq⟩
  · rw [heq]
    refine ⟨h.length, h.start, h.duration, ?_⟩
    simpa using h.inv.lowPush hS hN _ hf (fun x hx => hso x (hall x hx))
  · rw [heq]
    refine ⟨by rw [setParent_length, h.length], ?_, ?_, ?_⟩
    · intro i; rw [rangeAt_setParent_start, h.start]
    · intro i; rw [rangeAt_setParent_duration, h.duration]
    · have hp2 : p ∈ pre.filter (fun x => !passedBy ranges k x) ++ p :: post := by simp
      have hpk : p < k := h.inv.bound p (by rw [hL]; simp)
      have key : NestLow (fun i => (rangeAt ranges0 i).start) (fun i => rangeEnd ranges0 i)
          (fun i => (rangeAt (setParent ranges k
            (if (rangeAt ranges p).parent = -1 then (p : Int) else (rangeAt ranges p).parent))
            i).parent)
          (pre.filter (fun x => !passedBy ranges k x) ++ p :: post) (k + 1) := by
        apply h.inv.stop hS hN hL (fun x hx => hso x (hall x hx))
        · intro x hx; exact Or.inl (filter_split_mem _ hL x hx)
        · intro x hx
          rcases filter_split_keep (fun x => !passedBy ranges k x) hL x hx with h1 | h1
          · exact Or.inl h1
          · exact Or.inr (hf x h1)
        · exact filter_split_pairwise _ h.inv.incr hL
        · exact Or.inr ⟨p, hp2, hpk, by rwa [h.lowRangeEnd_eq, h.lowRangeEnd_eq] at hb⟩
        · intro i hi; simp only [rangeAt_setParent_ne _ _ _ _ hi]
        · simp only [rangeAt_setParent_parent _ _ _ hklen]
          by_cases hpp : (rangeAt ranges p).parent = -1
          · left; rw [if_pos hpp]
          · right; rw [if_neg hpp]; exact ⟨hpp, rfl⟩
      simpa using key
  · rw [heq]
    refine ⟨by rw [setParent_length, h.length], ?_, ?_, ?_⟩
    · intro i; rw [rangeAt_setParent_start, h.start]
    · intro i; rw [rangeAt_setParent_duration, h.duration]
    · have key : NestLow (fun i => (rangeAt ranges0 i).start) (fun i => rangeEnd ranges0 i)
          (fun i => (rangeAt (setParent ranges k (p : Int)) i).parent)
          (pre.filter (fun x => !passedBy ranges k x) ++ p :: post ++ [k]) (k + 1) := by
        apply h.inv.stop hS hN hL (fun x hx => hso x (hall x hx))
        · intro x hx
          rcases List.mem_append.1 hx with h1 | h1
          · exact Or.inl (filter_split_mem _ hL x h1)
          · exact Or.inr (List.mem_singleton.1 h1)
        · intro x hx
          rcases filter_split_keep (fun x => !passedBy ranges k x) hL x hx with h1 | h1
          · exact Or.inl (List.mem_append.2 (Or.inl h1))
          · exact Or.inr (hf x h1)
        · apply pairwise_snoc (filter_split_pairwise _ h.inv.incr hL)
          intro x hx
          exact h.inv.bound x (filter_split_mem _ hL x hx)
        · exact Or.inl (by simp)
        · intro i hi; simp only [rangeAt_setParent_ne _ _ _ _ hi]
        · left; simp only [rangeAt_setParent_parent _ _ _ hklen]
      simpa using key

theorem nestingLoop_lowState {ranges0 : List Range}
    (hsorted : StartSorted ranges0) (hnonneg : ∀ r ∈ ranges0, 0 ≤ r.duration)
    (hbelow : ParentsBelow ranges0) :
    ∀ k, k ≤ ranges0.length →
      LowState ranges0 (nestingLoop k ranges0).1 (nestingLoop k ranges0).2 k := by
  intro k
  induction k with
  | zero =>
    intro _
    refine ⟨rfl, fun _ => rfl, fun _ => rfl, ?_⟩
    apply NestLow.lowInit
    intro i
    show (rangeAt ranges0 i).parent = -1 ∨ ∃ q : Nat, (rangeAt ranges0 i).parent = (q : Int) ∧ q < i
    by_cases hi : i < ranges0.length
    · rcases hbelow i hi with h | ⟨h1, h2⟩
      · exact Or.inl h
      · obtain ⟨q, hq⟩ := Int.eq_ofNat_of_zero_le h1
        exact Or.inr ⟨q, hq, by omega⟩
    · rw [rangeAt_default (not_lt.1 hi)]; exact Or.inl rfl
  | succ k ih =>
    intro hk
    rw [nestingLoop_succ]
    exact (ih (by omega)).lowNext hsorted hnonneg (by omega)

/-- The state in which `computeNesting` leaves a start-sorted store with non-negative
durations whose parent fields were -1 or lower indices. -/
theorem computeNestingRanges_lowState {ranges0 : List Range}
    (hsorted : StartSorted ranges0) (hnonneg : ∀ r ∈ ranges0, 0 ≤ r.duration)
    (hbelow : ParentsBelow ranges0) :
    LowState ranges0 (computeNestingRanges ranges0) (nestingLoop ranges0.length ranges0).2
      ranges0.length :=
  nestingLoop_lowState hsorted hnonneg hbelow ranges0.length (le_refl _)

theorem endAt_eq_getElem {endTimes : List RangeEnd} {i : Nat} (hi : i < endTimes.length) :
    endAt endTimes i = endTimes[i] := by
  unfold endAt
  exact List.getD_eq_getElem _ _ hi

theorem endAt_mem {endTimes : List RangeEnd} {i : Nat} (hi : i < endTimes.length) :
    endAt endTimes i ∈ endTimes := by
  rw [endAt_eq_getElem hi]
  exact List.getElem_mem hi

theorem EndSorted.endLe {endTimes : List RangeEnd} (h : EndSorted endTimes) (i j : Nat)
    (hij : i ≤ j) (hj : j < endTimes.length) :
    (endAt endTimes i).endTime ≤ (endAt endTimes j).endTime := by
  rcases Nat.lt_or_eq_of_le hij with hlt | heq
  · have hi : i < endTimes.length := by omega
    rw [endAt_eq_getElem hi, endAt_eq_getElem hj]
    exact (List.pairwise_iff_getElem.1 h) i j hi hj hlt
  · subst heq; exact le_refl _

theorem timestampAt_endTime (endTimes : List RangeEnd) (i : Nat) (hi : i < endTimes.length) :
    timestampAt (endTimes.map RangeEnd.endTime) (i : Int) = (endAt endTimes i).endTime := by
  simp [timestampAt, endAt, List.getElem?_eq_getElem hi]

theorem endAtInt_natCast (endTimes : List RangeEnd) (i : Nat) :
    endAtInt endTimes (i : Int) = endAt endTimes i := by
  simp [endAtInt]

/-- The result of `firstIndexNoParents` on an end-sorted store: -1 when no entry ends
after `T`, and otherwise the reference of an entry at a position `pos` of the end index
that ends at or after `T` while every entry before `pos` ends at or before `T`. -/
theorem firstIndexNoParents_spec (d : TimelineModelPrivate) (hsorted : EndSorted d.endTimes)
    (T : Int) :
    (firstIndexNoParents d T = -1 ∧
      ∀ i : Nat, i < d.endTimes.length → (endAt d.endTimes i).endTime ≤ T) ∨
    (∃ pos : Nat, pos < d.endTimes.length ∧
      firstIndexNoParents d T = (endAt d.endTimes pos).startIndex ∧
      T ≤ (endAt d.endTimes pos).endTime ∧
      (pos = 0 → T < (endAt d.endTimes pos).endTime) ∧
      ∀ i : Nat, i < pos → (endAt d.endTimes i).endTime ≤ T) := by
  by_cases hempty : d.endTimes = []
  · left
    simp [firstIndexNoParents, hempty]
  have hlen : 0 < d.endTimes.length := List.length_pos.2 hempty
  have hne : d.endTimes.isEmpty = false := by simp [List.isEmpty_iff, hempty]
  by_cases hlast : (endAt d.endTimes (d.endTimes.length - 1)).endTime ≤ T
  · left
    refine ⟨by simp [firstIndexNoParents, hlast], ?_⟩
    intro i hi
    have := hsorted.endLe i (d.endTimes.length - 1) (by omega) (by omega)
    omega
  right
  by_cases hfirst : (endAt d.endTimes 0).endTime > T
  · refine ⟨0, hlen, by simp [firstIndexNoParents, hne, hlast, hfirst], by omega,
      fun _ => hfirst, ?_⟩
    intro i hi
    omega
  · have hres : firstIndexNoParents d T =
        (endAtInt d.endTimes (lowerBound (d.endTimes.map RangeEnd.endTime) T + 1)).startIndex := by
      simp [firstIndexNoParents, hne, hlast, hfirst]
    have hlen2 : 2 ≤ (d.endTimes.map RangeEnd.endTime).length := by
      rw [List.length_map]
      by_contra hcon
      have h1 : d.endTimes.length - 1 = 0 := by omega
      rw [h1] at hlast
      omega
    obtain ⟨a, b, c, e⟩ := lowerBound_spec (d.endTimes.map RangeEnd.endTime) T hlen2
    rw [List.length_map] at b e hlen2
    obtain ⟨r, hr⟩ := Int.eq_ofNat_of_zero_le a
    rw [hr] at b c e
    have hcast : ((r : Int) + 1) = ((r + 1 : Nat) : Int) := by push_cast; rfl
    rw [hr, hcast, endAtInt_natCast] at hres
    have hrlt : r < d.endTimes.length - 1 := by omega
    have hr_le : (endAt d.endTimes r).endTime ≤ T := by
      rcases c with c | c
      · have : r = 0 := by omega
        rw [this]; omega
      · rw [timestampAt_endTime _ _ (by omega)] at c
        omega
    refine ⟨r + 1, by omega, hres, ?_, fun h => by omega, ?_⟩
    · rcases e with e | e
      · have : r + 1 = d.endTimes.length - 1 := by omega
        rw [this]; omega
      · rw [hcast, timestampAt_endTime _ _ (by omega)] at e
        exact e
    · intro i hi
      have := hsorted.endLe i r (by omega) (by omega)
      omega

theorem EndConsistent.entry {d : TimelineModelPrivate} (h : EndConsistent d) (i : Nat)
    (hi : i < d.ranges.length) :
    ∃ pos : Nat, pos < d.endTimes.length ∧ (endAt d.endTimes pos).startIndex = (i : Int) ∧
      (endAt d.endTimes pos).endTime = rangeEnd d.ranges i := by
  have hmem : (i : Int) ∈ (List.range d.ranges.length).map Int.ofNat :=
    List.mem_map.2 ⟨i, List.mem_range.2 hi, rfl⟩
  have hmem2 := (h.1.mem_iff).2 hmem
  obtain ⟨e, he, hei⟩ := List.mem_map.1 hmem2
  obtain ⟨pos, hpos, hget⟩ := List.getElem_of_mem he
  refine ⟨pos, hpos, ?_, ?_⟩
  · rw [endAt_eq_getElem hpos, hget, hei]
  · rw [endAt_eq_getElem hpos, hget, h.2 e he, hei]
    simp [endTime, rangeAtInt_natCast, rangeEnd]

theorem EndConsistent.valid {d : TimelineModelPrivate} (h : EndConsistent d) (pos : Nat)
    (hpos : pos < d.endTimes.length) :
    ∃ m : Nat, m < d.ranges.length ∧ (endAt d.endTimes pos).startIndex = (m : Int) ∧
      (endAt d.endTimes pos).endTime = rangeEnd d.ranges m := by
  have he := endAt_mem hpos
  have hmem : (endAt d.endTimes pos).startIndex ∈ d.endTimes.map RangeEnd.startIndex :=
    List.mem_map.2 ⟨_, he, rfl⟩
  have hmem2 := (h.1.mem_iff).1 hmem
  obtain ⟨m, hm, hmi⟩ := List.mem_map.1 hmem2
  refine ⟨m, List.mem_range.1 hm, hmi.symm, ?_⟩
  rw [h.2 _ he, ← hmi]
  show endTime d (m : Int) = rangeEnd d.ranges m
  simp [endTime, rangeAtInt_natCast, rangeEnd]

theorem LowState.startSorted {ranges0 ranges : List Range} {L : List Nat} {k : Nat}
    (h : LowState ranges0 ranges L k) (hsorted : StartSorted ranges0) : StartSorted ranges := by
  unfold StartSorted
  rw [List.pairwise_iff_getElem]
  intro i j hi hj hij
  have := hsorted.le i j (by omega) (by rw [← h.length]; exact hj)
  rw [← h.start, ← h.start, rangeAt_eq_getElem hi, rangeAt_eq_getElem hj] at this
  exact this

theorem firstIndexNoParents_computeNesting (d : TimelineModelPrivate) (T : Int) :
    firstIndexNoParents (computeNesting d) T = firstIndexNoParents d T := by
  rfl

/-- The lower end of the visible window: after `computeNesting`, no range that ends
after `T` has an index below `firstIndex(T)`. -/
theorem firstIndex_le_of_end_gt (d : TimelineModelPrivate) (hsorted : StartSorted d.ranges)
    (hnonneg : ∀ r ∈ d.ranges, 0 ≤ r.duration) (hbelow : ParentsBelow d.ranges)
    (hend : EndSorted d.endTimes) (hcons : EndConsistent d) (T : Int) (i : Nat)
    (hi : i < d.ranges.length) (h1 : T < rangeEnd d.ranges i) :
    0 ≤ firstIndex (computeNesting d) T ∧ firstIndex (computeNesting d) T ≤ (i : Int) := by
  have hst := computeNestingRanges_lowState hsorted hnonneg hbelow
  obtain ⟨posi, hposi, _, hposiE⟩ := hcons.entry i hi
  rcases firstIndexNoParents_spec d hend T with ⟨_, hall⟩ | ⟨pos, hpos, hraw, hge, _, hbefore⟩
  · have := hall posi hposi
    omega
  · have hle : pos ≤ posi := by
      by_contra hcon
      have := hbefore posi (by omega)
      omega
    have hE := hend.endLe pos posi hle hposi
    obtain ⟨m, hm, hmref, hmE⟩ := hcons.valid pos hpos
    have hEm : rangeEnd d.ranges m ≤ rangeEnd d.ranges i := by omega
    have hrawm : firstIndexNoParents (computeNesting d) T = (m : Int) := by
      rw [firstIndexNoParents_computeNesting, hraw, hmref]
    have hne : ¬ ((m : Int) = -1) := by omega
    rw [firstIndex_eq, hrawm, if_neg hne, rangeAtInt_natCast]
    show 0 ≤ (if (rangeAt (computeNestingRanges d.ranges) m).parent = -1 then (m : Int)
        else (rangeAt (computeNestingRanges d.ranges) m).parent) ∧
      (if (rangeAt (computeNestingRanges d.ranges) m).parent = -1 then (m : Int)
        else (rangeAt (computeNestingRanges d.ranges) m).parent) ≤ (i : Int)
    rcases Nat.lt_or_ge i m with him | him
    · obtain ⟨q, hq1, hq2⟩ := hst.inv.lowest m hm i him hEm
      have hq1b : (rangeAt (computeNestingRanges d.ranges) m).parent = (q : Int) := hq1
      rw [hq1b, if_neg (by omega)]
      omega
    · rcases hst.inv.below m with hb | ⟨q, hq1, hq2⟩
      · have hbb : (rangeAt (computeNestingRanges d.ranges) m).parent = -1 := hb
        rw [if_pos hbb]
        omega
      · have hq1b : (rangeAt (computeNestingRanges d.ranges) m).parent = (q : Int) := hq1
        rw [hq1b, if_neg (by omega)]
        omega

/-- The upper end of the visible window: no range that starts before `T` has an index
above `lastIndex(T)`. -/
theorem le_lastIndex_of_start_lt (d : TimelineModelPrivate) (hsorted : StartSorted d.ranges)
    (T : Int) (i : Nat) (hi : i < d.ranges.length) (h2 : (rangeAt d.ranges i).start < T) :
    (i : Int) ≤ lastIndex d T := by
  obtain ⟨hiff, hsome⟩ := lastIndex_spec d hsorted T
  by_cases hneg : lastIndex d T = -1
  · rcases hiff.1 hneg with h | h
    · rw [h] at hi
      simp at hi
    · have := h i hi
      omega
  · obtain ⟨r, hr, _, _, hmax⟩ := hsome hneg
    have := hmax i hi h2
    rw [hr]
    omega

/-- C6: visible-window selection is complete.  On a store with a start-sorted start
index, an end-sorted consistent end index and non-negative durations, after
`computeNesting` (run on parent fields that are -1 or, as earlier runs leave them, lower
indices) every range `i` that ends after `T1` has `firstIndex(T1) <= i`, and every range
that starts before `T2` has `i <= lastIndex(T2)`. -/
theorem visible_window_complete (d : TimelineModelPrivate) (hsorted : StartSorted d.ranges)
    (hnonneg : ∀ r ∈ d.ranges, 0 ≤ r.duration) (hbelow : ParentsBelow d.ranges)
    (hend : EndSorted d.endTimes) (hcons : EndConsistent d) (T1 T2 : Int) (i : Nat)
    (hi : i < d.ranges.length) :
    (T1 < endTime (computeNesting d) (i : Int) →
      0 ≤ firstIndex (computeNesting d) T1 ∧ firstIndex (computeNesting d) T1 ≤ (i : Int)) ∧
    (startTime (computeNesting d) (i : Int) < T2 →
      (i : Int) ≤ lastIndex (computeNesting d) T2) := by
  have hst := computeNestingRanges_lowState hsorted hnonneg hbelow
  refine ⟨?_, ?_⟩
  · intro h1
    have hE : endTime (computeNesting d) (i : Int) = rangeEnd d.ranges i := by
      simp [endTime, computeNesting, rangeAtInt_natCast, hst.start, hst.duration, rangeEnd]
    rw [hE] at h1
    exact firstIndex_le_of_end_gt d hsorted hnonneg hbelow hend hcons T1 i hi h1
  · intro h2
    have hS : startTime (computeNesting d) (i : Int)
        = (rangeAt (computeNesting d).ranges i).start := by
      simp [startTime, rangeAtInt_natCast]
    rw [hS] at h2
    have hlen : i < (computeNesting d).ranges.length := by
      show i < (computeNestingRanges d.ranges).length
      rw [hst.length]; exact hi
    exact le_lastIndex_of_start_lt (computeNesting d) (hst.startSorted hsorted) T2 i hlen h2

/-- C6, witness of `visible_window_complete`: in the scenario store the range at index 1
ends at 5 and starts at 2, and it lies between `firstIndex(4)` and `lastIndex(3)`. -/
theorem visible_window_complete_witness :
    (0 ≤ firstIndex (computeNesting scenarioA) 4 ∧
      firstIndex (computeNesting scenarioA) 4 ≤ ((1 : Nat) : Int)) ∧
    ((1 : Nat) : Int) ≤ lastIndex (computeNesting scenarioA) 3 :=
  ⟨(visible_window_complete scenarioA (by decide) (by decide) (by decide) (by decide)
      (by decide) 4 3 1 (by decide)).1 (by decide),
    (visible_window_complete scenarioA (by decide) (by decide) (by decide) (by decide)
      (by decide) 4 3 1 (by decide)).2 (by decide)⟩
theorem tailScan_succ (keys : List Int) (x : Int) (i : Nat) :
    tailScan keys x (i + 1) = if keys.getD i 0 > x then tailScan keys x i else i + 1 := by
  rfl

theorem tailScan_spec (keys : List Int) (x : Int) :
    ∀ k, tailScan keys x k ≤ k ∧
      (∀ j, j < tailScan keys x k → tailScan keys x k = j + 1 → keys.getD j 0 ≤ x) ∧
      (∀ j, tailScan keys x k ≤ j → j < k → x < keys.getD j 0) := by
  intro k
  induction k with
  | zero => simp [tailScan]
  | succ k ih =>
    by_cases h : keys.getD k 0 > x
    · have hs : tailScan keys x (k + 1) = tailScan keys x k := by
        rw [tailScan_succ, if_pos h]
      rw [hs]
      refine ⟨by omega, ih.2.1, ?_⟩
      intro j hj hjk
      rcases Nat.lt_succ_iff_lt_or_eq.1 hjk with h2 | h2
      · exact ih.2.2 j hj h2
      · subst h2; exact h
    · have hs : tailScan keys x (k + 1) = k + 1 := by
        rw [tailScan_succ, if_neg h]
      rw [hs]
      refine ⟨le_refl _, ?_, ?_⟩
      · intro j _ hj
        have : j = k := by omega
        subst this
        exact not_lt.1 h
      · intro j hj hjk; omega

theorem getD_eq_getElem_int (keys : List Int) (j : Nat) (hj : j < keys.length) :
    keys.getD j 0 = keys[j] := List.getD_eq_getElem _ _ hj

/-- Inserting a key at the position found by the scan from the tail keeps a sorted list
of keys sorted. -/
theorem tailScan_sorted (keys : List Int) (x : Int) (h : keys.Pairwise (fun a b => a ≤ b)) :
    (keys.take (tailScan keys x keys.length) ++ x :: keys.drop (tailScan keys x keys.length)).Pairwise
      (fun a b => a ≤ b) := by
  obtain ⟨hle, hbefore, hafter⟩ := tailScan_spec keys x keys.length
  have hpw := List.pairwise_iff_getElem.1 h
  rw [List.pairwise_append]
  refine ⟨h.sublist (List.take_sublist _ _), ?_, ?_⟩
  · rw [List.pairwise_cons]
    refine ⟨?_, h.sublist (List.drop_sublist _ _)⟩
    intro b hb
    obtain ⟨i, hi, rfl⟩ := List.mem_drop_iff_getElem.1 hb
    have := hafter (tailScan keys x keys.length + i) (by omega) (by omega)
    rw [getD_eq_getElem_int _ _ (by omega)] at this
    omega
  · intro a ha b hb
    obtain ⟨i, hi, rfl⟩ := List.mem_take_iff_getElem.1 ha
    have hi2 : i < tailScan keys x keys.length := by
      have := Nat.lt_min.1 hi
      omega
    have hilt : i < keys.length := by omega
    have hax : keys[i] ≤ x := by
      have hlast := hbefore (tailScan keys x keys.length - 1) (by omega) (by omega)
      rw [getD_eq_getElem_int _ _ (by omega)] at hlast
      rcases Nat.lt_or_ge i (tailScan keys x keys.length - 1) with h1 | h1
      · have := hpw i (tailScan keys x keys.length - 1) (by omega) (by omega) h1
        omega
      · have : i = tailScan keys x keys.length - 1 := by omega
        subst this
        exact hlast
    rcases List.mem_cons.1 hb with hb | hb
    · subst hb; exact hax
    · obtain ⟨j, hj, rfl⟩ := List.mem_drop_iff_getElem.1 hb
      have := hafter (tailScan keys x keys.length + j) (by omega) (by omega)
      rw [getD_eq_getElem_int _ _ (by omega)] at this
      omega

theorem tailScan_append (keys : List Int) (x : Int)
    (h : ∀ a ∈ keys, a ≤ x) : tailScan keys x keys.length = keys.length := by
  cases hk : keys.length with
  | zero => rfl
  | succ k =>
    have hlt : k < keys.length := by omega
    have : ¬ (keys.getD k 0 > x) := by
      rw [getD_eq_getElem_int _ _ hlt]
      exact not_lt.2 (h _ (List.getElem_mem hlt))
    rw [tailScan_succ, if_neg this]

theorem insertStartPos_eq (ranges : List Range) (start : Range) :
    ∀ k, k ≤ ranges.length →
      insertStartPos ranges start k = tailScan (ranges.map Range.start) start.start k := by
  intro k
  induction k with
  | zero => intro _; rfl
  | succ k ih =>
    intro hk
    have hget : (ranges.map Range.start).getD k 0 = (rangeAt ranges k).start := by
      have hk2 : k < ranges.length := by omega
      simp [rangeAt, List.getElem?_eq_getElem hk2]
    simp only [insertStartPos, tailScan, hget, ih (by omega)]

theorem insertEndPos_eq (endTimes : List RangeEnd) (e : RangeEnd) :
    ∀ k, k ≤ endTimes.length →
      insertEndPos endTimes e k = tailScan (endTimes.map RangeEnd.endTime) e.endTime k := by
  intro k
  induction k with
  | zero => intro _; rfl
  | succ k ih =>
    intro hk
    have hget : (endTimes.map RangeEnd.endTime).getD k 0 = (endAt endTimes k).endTime := by
      have hk2 : k < endTimes.length := by omega
      simp [endAt, List.getElem?_eq_getElem hk2]
    simp only [insertEndPos, tailScan, hget, ih (by omega)]

theorem map_core_set_endIndex (ranges : List Range) (i : Nat) (v : Int) :
    (ranges.set i { rangeAt ranges i with endIndex := v }).map Range.core
      = ranges.map Range.core := by
  apply List.ext_getElem
  · simp
  · intro n h1 h2
    have hn : n < ranges.length := by simpa using h2
    simp only [List.getElem_map, List.getElem_set]
    by_cases h : i = n
    · subst h
      rw [if_pos rfl, rangeAt_eq_getElem hn]
      rfl
    · rw [if_neg h]

theorem setEndIndex_endTimes (d : TimelineModelPrivate) (index endIndex : Int) :
    (setEndIndex d index endIndex).endTimes = d.endTimes := by
  unfold setEndIndex
  split <;> rfl

theorem setEndIndex_core (d : TimelineModelPrivate) (index endIndex : Int) :
    (setEndIndex d index endIndex).ranges.map Range.core = d.ranges.map Range.core := by
  unfold setEndIndex
  split
  · rfl
  · exact map_core_set_endIndex _ _ _

theorem incrementEndIndices_endTimes (d : TimelineModelPrivate) (endIndex : Int) :
    (incrementEndIndices d endIndex).endTimes = d.endTimes := by
  rfl

theorem incrementEndIndices_core (d : TimelineModelPrivate) (endIndex : Int) :
    (incrementEndIndices d endIndex).ranges.map Range.core = d.ranges.map Range.core := by
  apply List.ext_getElem
  · simp [incrementEndIndices]
  · intro n h1 h2
    have hn : n < d.ranges.length := by simpa using h2
    simp only [incrementEndIndices, List.getElem_map, List.getElem_range]
    rw [rangeAt_eq_getElem hn]
    split <;> rfl

/-- The store and index `insert` returns, step by step. -/
theorem insert_eq (d : TimelineModelPrivate) (s dur g : Int) :
    insert d s dur g =
      (let i := insertStartPos d.ranges (Range.mk3 s dur g) d.ranges.length
       let d1 : TimelineModelPrivate :=
         { d with ranges := d.ranges.take i ++ Range.mk3 s dur g :: d.ranges.drop i }
       let d2 := if (i : Int) < (d1.ranges.length : Int) - 1
         then incrementStartIndices d1 (i : Int) else d1
       let j := insertEndPos d2.endTimes ⟨(i : Int), s + dur⟩ d2.endTimes.length
       let d3 : TimelineModelPrivate :=
         { d2 with endTimes := d2.endTimes.take j ++ ⟨(i : Int), s + dur⟩ :: d2.endTimes.drop j }
       let d4 := setEndIndex d3 (i : Int) (j : Int)
       let d5 := if (j : Int) < (d4.endTimes.length : Int) - 1
         then incrementEndIndices d4 (j : Int) else d4
       (d5, (i : Int))) := by
  rfl

/-- The index `insert` returns is the position found by the scan of the start index. -/
theorem insert_index (d : TimelineModelPrivate) (s dur g : Int) :
    (insert d s dur g).2
      = ((insertStartPos d.ranges (Range.mk3 s dur g) d.ranges.length : Nat) : Int) := by
  rfl

theorem ite_incrementEndIndices_core (c : Prop) [Decidable c] (d : TimelineModelPrivate)
    (j : Int) :
    (if c then incrementEndIndices d j else d).ranges.map Range.core
      = d.ranges.map Range.core := by
  split
  · exact incrementEndIndices_core d j
  · rfl

theorem ite_incrementEndIndices_endTimes (c : Prop) [Decidable c] (d : TimelineModelPrivate)
    (j : Int) : (if c then incrementEndIndices d j else d).endTimes = d.endTimes := by
  split <;> rfl

theorem ite_incrementStartIndices_ranges (c : Prop) [Decidable c] (d : TimelineModelPrivate)
    (i : Int) : (if c then incrementStartIndices d i else d).ranges = d.ranges := by
  split <;> rfl

/-- The start index after `insert`, up to the end-index bookkeeping: the new range sits
at the position found by the scan. -/
theorem insert_core (d : TimelineModelPrivate) (s dur g : Int) :
    (insert d s dur g).1.ranges.map Range.core =
      (d.ranges.take (insertStartPos d.ranges (Range.mk3 s dur g) d.ranges.length)
        ++ Range.mk3 s dur g ::
          d.ranges.drop (insertStartPos d.ranges (Range.mk3 s dur g) d.ranges.length)).map
        Range.core := by
  rw [insert_eq]
  simp only []
  rw [ite_incrementEndIndices_core, setEndIndex_core]
  simp only []
  rw [ite_incrementStartIndices_ranges]

/-- The end index after `insert`: the references at or after the insertion point of the
start index are incremented, and the new entry sits at the position found by the scan of
the end index. -/
theorem insert_endTimes (d : TimelineModelPrivate) (s dur g : Int)
    (hvalid : ∀ e ∈ d.endTimes, e.startIndex < (d.ranges.length : Int)) :
    (insert d s dur g).1.endTimes =
      ((d.endTimes.map
            (bumpRef (insertStartPos d.ranges (Range.mk3 s dur g) d.ranges.length : Nat))).take
          (insertEndPos (d.endTimes.map
            (bumpRef (insertStartPos d.ranges (Range.mk3 s dur g) d.ranges.length : Nat)))
            ⟨(insertStartPos d.ranges (Range.mk3 s dur g) d.ranges.length : Nat), s + dur⟩
            d.endTimes.length)
        ++ ⟨(insertStartPos d.ranges (Range.mk3 s dur g) d.ranges.length : Nat), s + dur⟩ ::
          (d.endTimes.map
            (bumpRef (insertStartPos d.ranges (Range.mk3 s dur g) d.ranges.length : Nat))).drop
          (insertEndPos (d.endTimes.map
            (bumpRef (insertStartPos d.ranges (Range.mk3 s dur g) d.ranges.length : Nat)))
            ⟨(insertStartPos d.ranges (Range.mk3 s dur g) d.ranges.length : Nat), s + dur⟩
            d.endTimes.length)) := by
  have hpos : insertStartPos d.ranges (Range.mk3 s dur g) d.ranges.length ≤ d.ranges.length := by
    rw [insertStartPos_eq _ _ _ (le_refl _)]
    have := (tailScan_spec (d.ranges.map Range.start) (Range.mk3 s dur g).start
      d.ranges.length).1
    exact this
  have hbump : ∀ (c : Prop) [Decidable c] (d1 : TimelineModelPrivate) (i : Nat),
      d1.endTimes = d.endTimes → (¬ c → d.ranges.length ≤ i) →
      (if c then incrementStartIndices d1 (i : Int) else d1).endTimes
        = d.endTimes.map (bumpRef (i : Int)) := by
    intro c _ d1 i h1 h2
    split
    · rw [← h1]; rfl
    · rename_i hc
      rw [h1]
      have hn := h2 hc
      symm
      conv_rhs => rw [← List.map_id d.endTimes]
      apply List.map_congr_left
      intro e he
      have := hvalid e he
      simp only [bumpRef, id]
      rw [if_neg (by omega)]
  rw [insert_eq]
  simp only []
  rw [ite_incrementEndIndices_endTimes, setEndIndex_endTimes]
  simp only []
  have key : (if ((insertStartPos d.ranges (Range.mk3 s dur g) d.ranges.length : Nat) : Int) <
        ((d.ranges.take (insertStartPos d.ranges (Range.mk3 s dur g) d.ranges.length)
          ++ Range.mk3 s dur g ::
            d.ranges.drop (insertStartPos d.ranges (Range.mk3 s dur g) d.ranges.length)).length
          : Int) - 1
      then incrementStartIndices
        { d with ranges := d.ranges.take (insertStartPos d.ranges (Range.mk3 s dur g) d.ranges.length)
          ++ Range.mk3 s dur g ::
            d.ranges.drop (insertStartPos d.ranges (Range.mk3 s dur g) d.ranges.length) }
        ((insertStartPos d.ranges (Range.mk3 s dur g) d.ranges.length : Nat) : Int)
      else { d with ranges := d.ranges.take (insertStartPos d.ranges (Range.mk3 s dur g) d.ranges.length)
          ++ Range.mk3 s dur g ::
            d.ranges.drop (insertStartPos d.ranges (Range.mk3 s dur g) d.ranges.length) }).endTimes
      = d.endTimes.map
          (bumpRef ((insertStartPos d.ranges (Range.mk3 s dur g) d.ranges.length : Nat) : Int)) := by
    refine hbump _ _ _ ?_ ?_
    · rfl
    intro hc
    simp only [List.length_append, List.length_take, List.length_cons, List.length_drop] at hc
    omega
  rw [key]
  simp only [List.length_map]

theorem rangeAt_insert (ranges : List Range) (x : Range) (i k : Nat) (hi : i ≤ ranges.length) :
    rangeAt (ranges.take i ++ x :: ranges.drop i) k =
      if k < i then rangeAt ranges k else if k = i then x else rangeAt ranges (k - 1) := by
  unfold rangeAt
  simp only [List.getD_eq_getElem?_getD]
  have hlen : (ranges.take i).length = i := by simp [hi]
  by_cases h1 : k < i
  · rw [if_pos h1, List.getElem?_append_left (by omega), List.getElem?_take_of_lt h1]
  · rw [if_neg h1, List.getElem?_append_right (by omega), hlen]
    by_cases h2 : k = i
    · subst h2
      simp
    · rw [if_neg h2]
      obtain ⟨m, hm⟩ : ∃ m, k - i = m + 1 := ⟨k - i - 1, by omega⟩
      rw [hm, List.getElem?_cons_succ, List.getElem?_drop]
      have : i + m = k - 1 := by omega
      rw [this]

theorem core_rangeAt_of_map_eq {l1 l2 : List Range}
    (h : l1.map Range.core = l2.map Range.core) (k : Nat) :
    (rangeAt l1 k).core = (rangeAt l2 k).core := by
  have hlen : l1.length = l2.length := by
    have := congrArg List.length h
    simpa using this
  by_cases hk : k < l1.length
  · have hk2 : k < l2.length := by omega
    rw [rangeAt_eq_getElem hk, rangeAt_eq_getElem hk2]
    have hm1 : k < (l1.map Range.core).length := by simpa using hk
    have hm2 : k < (l2.map Range.core).length := by simpa using hk2
    have h1 : (l1.map Range.core)[k] = (l1[k]).core := by simp
    have h2 : (l2.map Range.core)[k] = (l2[k]).core := by simp
    rw [← h1, ← h2]
    simp only [h]
  · rw [rangeAt_default (by omega), rangeAt_default (by omega)]

theorem insertStartPos_le (ranges : List Range) (x : Range) :
    insertStartPos ranges x ranges.length ≤ ranges.length := by
  rw [insertStartPos_eq _ _ _ (le_refl _)]
  exact (tailScan_spec (ranges.map Range.start) x.start ranges.length).1

/-- The range at position `k` of the start index after `insert`, up to the end-index
bookkeeping. -/
theorem insert_rangeAt_core (d : TimelineModelPrivate) (s dur g : Int) (k : Nat) :
    (rangeAt (insert d s dur g).1.ranges k).core =
      if k < insertStartPos d.ranges (Range.mk3 s dur g) d.ranges.length then
        (rangeAt d.ranges k).core
      else if k = insertStartPos d.ranges (Range.mk3 s dur g) d.ranges.length then
        (s, dur, g, -1)
      else (rangeAt d.ranges (k - 1)).core := by
  rw [core_rangeAt_of_map_eq (insert_core d s dur g) k,
    rangeAt_insert _ _ _ _ (insertStartPos_le _ _)]
  split
  · rfl
  · split <;> rfl

theorem insert_ranges_length (d : TimelineModelPrivate) (s dur g : Int) :
    (insert d s dur g).1.ranges.length = d.ranges.length + 1 := by
  have h := congrArg List.length (insert_core d s dur g)
  have hle := insertStartPos_le d.ranges (Range.mk3 s dur g)
  simp only [List.length_map, List.length_append, List.length_take, List.length_cons,
    List.length_drop] at h
  omega

theorem startSorted_iff_keys (ranges : List Range) :
    StartSorted ranges ↔ (ranges.map Range.start).Pairwise (fun a b => a ≤ b) := by
  unfold StartSorted
  rw [List.pairwise_map]

theorem endSorted_iff_keys (endTimes : List RangeEnd) :
    EndSorted endTimes ↔ (endTimes.map RangeEnd.endTime).Pairwise (fun a b => a ≤ b) := by
  unfold EndSorted
  rw [List.pairwise_map]

theorem map_start_of_core (ranges : List Range) :
    ranges.map Range.start = (ranges.map Range.core).map (fun c => c.1) := by
  rw [List.map_map]
  rfl

/-- The call `insert` keeps the start index sorted by start time. -/
theorem insert_startSorted (d : TimelineModelPrivate) (s dur g : Int)
    (h : StartSorted d.ranges) : StartSorted (insert d s dur g).1.ranges := by
  rw [startSorted_iff_keys] at h ⊢
  rw [map_start_of_core, insert_core, ← map_start_of_core, insertStartPos_eq _ _ _ (le_refl _)]
  simp only [List.map_append, List.map_take, List.map_cons, List.map_drop]
  have := tailScan_sorted (d.ranges.map Range.start) s h
  simpa [Range.mk3] using this

theorem bumpRef_endTime (index : Int) (e : RangeEnd) : (bumpRef index e).endTime = e.endTime := by
  unfold bumpRef
  split <;> rfl

theorem bumpRef_startIndex (index : Int) (e : RangeEnd) :
    (bumpRef index e).startIndex = if e.startIndex ≥ index then e.startIndex + 1
      else e.startIndex := by
  unfold bumpRef
  split <;> rfl

theorem insertEndPos_le (endTimes : List RangeEnd) (x : RangeEnd) :
    insertEndPos endTimes x endTimes.length ≤ endTimes.length := by
  rw [insertEndPos_eq _ _ _ (le_refl _)]
  exact (tailScan_spec (endTimes.map RangeEnd.endTime) x.endTime endTimes.length).1

theorem StoreInv.refLt {d : TimelineModelPrivate} (h : StoreInv d) :
    ∀ e ∈ d.endTimes, e.startIndex < (d.ranges.length : Int) :=
  fun e he => (h.valid e he).2.1

/-- The end index after `insert` on a store that satisfies the invariant, as a
permutation: the new entry and the old entries with their references renumbered. -/
theorem insert_endTimes_perm (d : TimelineModelPrivate) (s dur g : Int) (h : StoreInv d) :
    (insert d s dur g).1.endTimes.Perm
      (⟨(insert d s dur g).2, s + dur⟩ :: d.endTimes.map (bumpRef (insert d s dur g).2)) := by
  rw [insert_endTimes d s dur g h.refLt, insert_index]
  refine List.perm_middle.trans ?_
  rw [List.take_append_drop]

theorem insert_endSorted (d : TimelineModelPrivate) (s dur g : Int) (h : StoreInv d) :
    EndSorted (insert d s dur g).1.endTimes := by
  have hs := h.endSorted
  rw [endSorted_iff_keys] at hs ⊢
  rw [insert_endTimes d s dur g h.refLt]
  have hmap : (d.endTimes.map (bumpRef
      ((insertStartPos d.ranges (Range.mk3 s dur g) d.ranges.length : Nat) : Int))).map
        RangeEnd.endTime = d.endTimes.map RangeEnd.endTime := by
    rw [List.map_map]
    apply List.map_congr_left
    intro e _
    exact bumpRef_endTime _ e
  have hlen : d.endTimes.length = (d.endTimes.map (bumpRef
      ((insertStartPos d.ranges (Range.mk3 s dur g) d.ranges.length : Nat) : Int))).length := by
    simp
  rw [hlen, insertEndPos_eq _ _ _ (le_refl _)]
  simp only [List.map_append, List.map_take, List.map_cons, List.map_drop]
  rw [hmap, List.length_map]
  have key := tailScan_sorted (d.endTimes.map RangeEnd.endTime) (s + dur) hs
  rw [List.length_map] at key
  exact key

theorem insert_endTimes_length (d : TimelineModelPrivate) (s dur g : Int) (h : StoreInv d) :
    (insert d s dur g).1.endTimes.length = d.endTimes.length + 1 := by
  have := (insert_endTimes_perm d s dur g h).length_eq
  simpa using this

theorem endTime_eq_core (d : TimelineModelPrivate) (k : Nat) :
    endTime d (k : Int) = (rangeAt d.ranges k).core.1 + (rangeAt d.ranges k).core.2.1 := by
  simp [endTime, rangeAtInt_natCast, Range.core]

/-- The call `insert` keeps the invariant of the store. -/
theorem StoreInv.afterInsert {d : TimelineModelPrivate} (h : StoreInv d) (s dur g : Int) :
    StoreInv (insert d s dur g).1 := by
  have hperm := insert_endTimes_perm d s dur g h
  have hposle := insertStartPos_le d.ranges (Range.mk3 s dur g)
  have hidx := insert_index d s dur g
  refine ⟨insert_startSorted d s dur g h.startSorted, insert_endSorted d s dur g h, ?_, ?_, ?_⟩
  · rw [insert_endTimes_length d s dur g h, insert_ranges_length, h.sameLength]
  · have hp2 := hperm.map RangeEnd.startIndex
    rw [hp2.nodup_iff, List.map_cons, List.nodup_cons]
    refine ⟨?_, ?_⟩
    · intro hmem
      obtain ⟨e2, he2, heq⟩ := List.mem_map.1 hmem
      obtain ⟨e, _, rfl⟩ := List.mem_map.1 he2
      rw [bumpRef_startIndex] at heq
      simp only at heq
      split at heq <;> omega
    · rw [List.map_map]
      have hinj : Function.Injective
          (fun r : Int => if r ≥ (insert d s dur g).2 then r + 1 else r) := by
        intro a b hab
        simp only at hab
        split at hab <;> split at hab <;> omega
      have := h.nodup.map hinj
      rw [List.map_map] at this
      have hfun : (RangeEnd.startIndex ∘ bumpRef (insert d s dur g).2)
          = ((fun r : Int => if r ≥ (insert d s dur g).2 then r + 1 else r)
              ∘ RangeEnd.startIndex) := by
        funext e
        simp only [Function.comp, bumpRef_startIndex]
      rw [hfun]
      exact this
  · intro e2 he2
    rw [insert_ranges_length]
    rcases List.mem_cons.1 (hperm.mem_iff.1 he2) with hnew | hold
    · subst hnew
      simp only
      rw [hidx]
      refine ⟨by omega, by omega, ?_⟩
      rw [endTime_eq_core, insert_rangeAt_core, if_neg (by omega), if_pos rfl]
    · obtain ⟨e, he, rfl⟩ := List.mem_map.1 hold
      obtain ⟨h0, hlt, hE⟩ := h.valid e he
      obtain ⟨r, hr⟩ := Int.eq_ofNat_of_zero_le h0
      rw [bumpRef_endTime, bumpRef_startIndex, hidx, hE, hr, endTime_eq_core]
      rw [hr] at hlt
      by_cases hge : (r : Int) ≥ ((insertStartPos d.ranges (Range.mk3 s dur g) d.ranges.length
          : Nat) : Int)
      · rw [if_pos hge]
        refine ⟨by omega, by omega, ?_⟩
        have hcast : (r : Int) + 1 = ((r + 1 : Nat) : Int) := by push_cast; rfl
        rw [hcast, endTime_eq_core, insert_rangeAt_core, if_neg (by omega), if_neg (by omega)]
        rfl
      · rw [if_neg hge]
        refine ⟨by omega, by omega, ?_⟩
        rw [endTime_eq_core, insert_rangeAt_core, if_pos (by omega)]

theorem StoreInv.atInit : StoreInv TimelineModelPrivate.init := by
  refine ⟨List.Pairwise.nil, List.Pairwise.nil, rfl, List.nodup_nil, ?_⟩
  intro e he
  simp [TimelineModelPrivate.init] at he

theorem insertAll_cons (d : TimelineModelPrivate) (s dur g : Int)
    (calls : List (Int × Int × Int)) :
    insertAll d ((s, dur, g) :: calls) =
      ((insertAll (insert d s dur g).1 calls).1,
        (insert d s dur g).2 :: (insertAll (insert d s dur g).1 calls).2) := by
  rfl

theorem StoreInv.afterInsertAll (calls : List (Int × Int × Int)) :
    ∀ d : TimelineModelPrivate, StoreInv d → StoreInv (insertAll d calls).1 := by
  induction calls with
  | nil => intro d h; exact h
  | cons c calls ih =>
    intro d h
    obtain ⟨s, dur, g⟩ := c
    rw [insertAll_cons]
    exact ih _ (h.afterInsert s dur g)

/-- The invariant gives the consistency of the end index. -/
theorem StoreInv.endConsistent {d : TimelineModelPrivate} (h : StoreInv d) :
    EndConsistent d := by
  refine ⟨?_, fun e he => (h.valid e he).2.2⟩
  apply List.Subperm.perm_of_length_le
  · apply List.subperm_of_subset h.nodup
    intro r hr
    obtain ⟨e, he, rfl⟩ := List.mem_map.1 hr
    obtain ⟨h0, hlt, _⟩ := h.valid e he
    obtain ⟨m, hm⟩ := Int.eq_ofNat_of_zero_le h0
    rw [hm] at hlt ⊢
    exact List.mem_map.2 ⟨m, List.mem_range.2 (by omega), rfl⟩
  · simp [h.sameLength]
theorem insert_start_mem (d : TimelineModelPrivate) (s dur g : Int) (r : Range)
    (hr : r ∈ (insert d s dur g).1.ranges) : r.start = s ∨ ∃ r0 ∈ d.ranges, r.start = r0.start := by
  have h1 : r.core ∈ (insert d s dur g).1.ranges.map Range.core := List.mem_map.2 ⟨r, hr, rfl⟩
  rw [insert_core] at h1
  obtain ⟨r2, hr2, hcore⟩ := List.mem_map.1 h1
  have hstart : r.start = r2.start := by
    have := congrArg Prod.fst hcore
    exact this.symm
  rcases List.mem_append.1 hr2 with h | h
  · exact Or.inr ⟨r2, List.mem_of_mem_take h, hstart⟩
  · rcases List.mem_cons.1 h with h | h
    · left; rw [hstart, h]; rfl
    · exact Or.inr ⟨r2, List.mem_of_mem_drop h, hstart⟩

/-- Inserting in non-decreasing start order, after everything the store holds, appends:
the calls return the positions `count()`, `count() + 1`, ... in turn. -/
theorem insertAll_appends (calls : List (Int × Int × Int)) :
    ∀ d : TimelineModelPrivate, (∀ r ∈ d.ranges, ∀ c ∈ calls, r.start ≤ c.1) →
      calls.Pairwise (fun a b => a.1 ≤ b.1) →
      (insertAll d calls).2
        = (List.range calls.length).map (fun k => ((d.ranges.length + k : Nat) : Int)) := by
  induction calls with
  | nil => intro d _ _; rfl
  | cons c calls ih =>
    intro d hle hpw
    obtain ⟨s, dur, g⟩ := c
    rw [insertAll_cons]
    have hidx : (insert d s dur g).2 = (d.ranges.length : Int) := by
      rw [insert_index, insertStartPos_eq _ _ _ (le_refl _)]
      have := tailScan_append (d.ranges.map Range.start) s (by
        intro a ha
        obtain ⟨r, hr, rfl⟩ := List.mem_map.1 ha
        exact hle r hr (s, dur, g) (List.mem_cons_self _ _))
      rw [List.length_map] at this
      show ((tailScan (d.ranges.map Range.start) s d.ranges.length : Nat) : Int) = _
      rw [this]
    have hrest := ih (insert d s dur g).1 (by
      intro r hr c hc
      rcases insert_start_mem d s dur g r hr with h | ⟨r0, hr0, h⟩
      · rw [h]
        exact (List.pairwise_cons.1 hpw).1 c hc
      · rw [h]
        exact hle r0 hr0 c (List.mem_cons_of_mem _ hc)) (List.pairwise_cons.1 hpw).2
    rw [hrest, hidx, insert_ranges_length]
    simp only [List.length_cons]
    rw [List.range_succ_eq_map, List.map_cons, List.map_map]
    simp only [Nat.add_zero]
    congr 1
    apply List.map_congr_left
    intro k _
    simp only [Function.comp]
    congr 1
    omega

/-- C7: for every sequence of `insert` calls on an initially empty store, after a
further call `insert(s, d, g) = idx` the start index is sorted by non-decreasing start
time and the range at position `idx` is the one just inserted, with parent -1; and
inserting in non-decreasing start order returns 0, 1, 2, ... in turn. -/
theorem insert_sorted_positioned (calls : List (Int × Int × Int)) (s dur g : Int) :
    StartSorted (insert (insertAll TimelineModelPrivate.init calls).1 s dur g).1.ranges ∧
    0 ≤ (insert (insertAll TimelineModelPrivate.init calls).1 s dur g).2 ∧
    (insert (insertAll TimelineModelPrivate.init calls).1 s dur g).2
      < count (insert (insertAll TimelineModelPrivate.init calls).1 s dur g).1 ∧
    startTime (insert (insertAll TimelineModelPrivate.init calls).1 s dur g).1
      (insert (insertAll TimelineModelPrivate.init calls).1 s dur g).2 = s ∧
    duration (insert (insertAll TimelineModelPrivate.init calls).1 s dur g).1
      (insert (insertAll TimelineModelPrivate.init calls).1 s dur g).2 = dur ∧
    selectionId (insert (insertAll TimelineModelPrivate.init calls).1 s dur g).1
      (insert (insertAll TimelineModelPrivate.init calls).1 s dur g).2 = g ∧
    parentIndex (insert (insertAll TimelineModelPrivate.init calls).1 s dur g).1
      (insert (insertAll TimelineModelPrivate.init calls).1 s dur g).2 = -1 ∧
    (calls.Pairwise (fun a b => a.1 ≤ b.1) →
      (insertAll TimelineModelPrivate.init calls).2
        = (List.range calls.length).map Int.ofNat) := by
  have hinv := StoreInv.afterInsertAll calls _ StoreInv.atInit
  have hcore := insert_rangeAt_core (insertAll TimelineModelPrivate.init calls).1 s dur g
    (insertStartPos (insertAll TimelineModelPrivate.init calls).1.ranges (Range.mk3 s dur g)
      (insertAll TimelineModelPrivate.init calls).1.ranges.length)
  rw [if_neg (lt_irrefl _), if_pos rfl] at hcore
  simp only [Range.core, Prod.mk.injEq] at hcore
  obtain ⟨hc1, hc2, hc3, hc4⟩ := hcore
  have hle := insertStartPos_le (insertAll TimelineModelPrivate.init calls).1.ranges
    (Range.mk3 s dur g)
  refine ⟨insert_startSorted _ s dur g hinv.startSorted, ?_, ?_, ?_, ?_, ?_, ?_, ?_⟩
  · rw [insert_index]; omega
  · rw [insert_index, count, insert_ranges_length]; omega
  · rw [insert_index, startTime, rangeAtInt_natCast]
    exact hc1
  · rw [insert_index, duration, rangeAtInt_natCast]
    exact hc2
  · rw [insert_index, selectionId, rangeAtInt_natCast]
    exact hc3
  · rw [insert_index, parentIndex, rangeAtInt_natCast]
    exact hc4
  · intro hpw
    have := insertAll_appends calls TimelineModelPrivate.init (by
      intro r hr
      simp [TimelineModelPrivate.init] at hr) hpw
    rw [this]
    apply List.map_congr_left
    intro k _
    simp [TimelineModelPrivate.init]

/-- C7, witness of `insert_sorted_positioned`: the calls `insert(0,10,1)`, `insert(2,3,2)`,
`insert(5,1,3)` on an empty store, which are in non-decreasing start order, return the
indices 0, 1 and 2. -/
theorem insert_sorted_positioned_witness :
    (insertAll TimelineModelPrivate.init [(0, 10, 1), (2, 3, 2), (5, 1, 3)]).2
      = (List.range 3).map Int.ofNat :=
  (insert_sorted_positioned [(0, 10, 1), (2, 3, 2), (5, 1, 3)] 0 0 0).2.2.2.2.2.2.2 (by decide)

/-- C8: after every sequence of `insert` calls the end index is sorted by end time, its
references are the positions `0 .. count() - 1` of the start index, each exactly once,
every entry holds the end time `startTime(ref) + duration(ref)` of its range, and a
further `insert` keeps the old entries with the references at or after the insertion
point of the start index incremented by one. -/
theorem end_index_consistent (calls : List (Int × Int × Int)) :
    EndSorted (insertAll TimelineModelPrivate.init calls).1.endTimes ∧
    ((insertAll TimelineModelPrivate.init calls).1.endTimes.map RangeEnd.startIndex).Perm
      ((List.range (insertAll TimelineModelPrivate.init calls).1.ranges.length).map Int.ofNat) ∧
    (∀ e ∈ (insertAll TimelineModelPrivate.init calls).1.endTimes,
      e.endTime = startTime (insertAll TimelineModelPrivate.init calls).1 e.startIndex
        + duration (insertAll TimelineModelPrivate.init calls).1 e.startIndex) ∧
    (∀ s dur g : Int, ∃ j : Nat,
      (insert (insertAll TimelineModelPrivate.init calls).1 s dur g).1.endTimes =
        ((insertAll TimelineModelPrivate.init calls).1.endTimes.map
            (bumpRef (insert (insertAll TimelineModelPrivate.init calls).1 s dur g).2)).take j
          ++ ⟨(insert (insertAll TimelineModelPrivate.init calls).1 s dur g).2, s + dur⟩ ::
            ((insertAll TimelineModelPrivate.init calls).1.endTimes.map
              (bumpRef (insert (insertAll TimelineModelPrivate.init calls).1 s dur g).2)).drop
              j) := by
  have hinv := StoreInv.afterInsertAll calls _ StoreInv.atInit
  have hcons := hinv.endConsistent
  refine ⟨hinv.endSorted, hcons.1, hcons.2, ?_⟩
  intro s dur g
  rw [insert_index]
  exact ⟨_, insert_endTimes _ s dur g hinv.refLt⟩

/-- C9: for every sequence of `insert` calls on an initially empty store, the start
index and the end index have the same number of entries, also after a further call. -/
theorem index_parity (calls : List (Int × Int × Int)) (s dur g : Int) :
    (insertAll TimelineModelPrivate.init calls).1.ranges.length
      = (insertAll TimelineModelPrivate.init calls).1.endTimes.length ∧
    (insert (insertAll TimelineModelPrivate.init calls).1 s dur g).1.ranges.length
      = (insert (insertAll TimelineModelPrivate.init calls).1 s dur g).1.endTimes.length := by
  have hinv := StoreInv.afterInsertAll calls _ StoreInv.atInit
  exact ⟨hinv.sameLength.symm, (hinv.afterInsert s dur g).sameLength.symm⟩
theorem emod_up (n start m : Int) (h0 : 0 ≤ start) (hn : start < n) (hm0 : 0 ≤ m) (hm : m ≤ n) :
    (start + m) % n = if start + m < n then start + m else start + m - n := by
  split
  · rename_i hlt
    have h1 : 0 ≤ start + m := by omega
    exact Int.emod_eq_of_lt h1 hlt
  · rename_i hge
    have h : start + m = (start + m - n) + 1 * n := by ring
    have h1 : 0 ≤ start + m - n := by omega
    have h2 : start + m - n < n := by omega
    have h3 := Int.emod_eq_of_lt h1 h2
    rw [← Int.add_mul_emod_self, ← h] at h3
    exact h3

theorem emod_down (n start m : Int) (h0 : 0 ≤ start) (hn : start < n) (hm0 : 0 ≤ m) (hm : m ≤ n) :
    (start - m) % n = if m ≤ start then start - m else start - m + n := by
  split
  · rename_i hle
    have h1 : 0 ≤ start - m := by omega
    have h2 : start - m < n := by omega
    exact Int.emod_eq_of_lt h1 h2
  · rename_i hgt
    have h : start - m = (start - m + n) + (-1) * n := by ring
    have h1 : 0 ≤ start - m + n := by omega
    have h2 : start - m + n < n := by omega
    have h3 := Int.emod_eq_of_lt h1 h2
    rw [← Int.add_mul_emod_self, ← h] at h3
    exact h3

theorem nextItemLoop_succ (matchesId : Int → Bool) (count startIndex : Int) (fuel : Nat)
    (ndx : Int) :
    nextItemLoop matchesId count startIndex (fuel + 1) ndx =
      if matchesId ndx then some ndx
      else if (ndx + 1) % count ≠ startIndex then
        nextItemLoop matchesId count startIndex fuel ((ndx + 1) % count)
      else some (-1) := by
  rfl

theorem prevItemLoop_succ (matchesId : Int → Bool) (count startIndex : Int) (fuel : Nat)
    (ndx : Int) :
    prevItemLoop matchesId count startIndex (fuel + 1) ndx =
      if matchesId ndx then some ndx
      else if (if ndx - 1 < 0 then count - 1 else ndx - 1) ≠ startIndex then
        prevItemLoop matchesId count startIndex fuel (if ndx - 1 < 0 then count - 1 else ndx - 1)
      else some (-1) := by
  rfl

/-- The loop of `nextItemById`, entered for the `j`-th time with `count - j` iterations
left: it leaves within the bound, with the first match in the circular order upward from
`start` or with -1 when no position matches. -/
theorem nextItemLoop_spec (p : Int → Bool) (n : Nat) (start : Int) (h0 : 0 ≤ start)
    (hn : start < (n : Int)) :
    ∀ fuel j : Nat, j + fuel = n → 0 < fuel →
      (∀ k2 : Nat, k2 < j → p ((start + (k2 : Int)) % (n : Int)) = false) →
      (∃ k : Nat, k < n ∧
        nextItemLoop p n start fuel ((start + (j : Int)) % (n : Int))
          = some ((start + (k : Int)) % (n : Int)) ∧
        p ((start + (k : Int)) % (n : Int)) = true ∧
        ∀ k2 : Nat, k2 < k → p ((start + (k2 : Int)) % (n : Int)) = false) ∨
      (nextItemLoop p n start fuel ((start + (j : Int)) % (n : Int)) = some (-1) ∧
        ∀ k : Nat, k < n → p ((start + (k : Int)) % (n : Int)) = false) := by
  intro fuel
  induction fuel with
  | zero => intro j _ h; omega
  | succ f ih =>
    intro j hj _ hfalse
    rw [nextItemLoop_succ]
    by_cases hp : p ((start + (j : Int)) % (n : Int)) = true
    · rw [if_pos hp]
      exact Or.inl ⟨j, by omega, rfl, hp, hfalse⟩
    · rw [if_neg hp]
      have hstep : ((start + (j : Int)) % (n : Int) + 1) % (n : Int)
          = (start + ((j + 1 : Nat) : Int)) % (n : Int) := by
        rw [Int.emod_add_emod]
        congr 1
        push_cast
        ring
      rw [hstep]
      have hfalse2 : ∀ k2 : Nat, k2 < j + 1 → p ((start + (k2 : Int)) % (n : Int)) = false := by
        intro k2 hk2
        rcases Nat.lt_succ_iff_lt_or_eq.1 hk2 with h | h
        · exact hfalse k2 h
        · subst h; simpa using hp
      by_cases hback : (start + ((j + 1 : Nat) : Int)) % (n : Int) ≠ start
      · rw [if_pos hback]
        have hf : 0 < f := by
          by_contra hcon
          have hj1 : ((j + 1 : Nat) : Int) = (n : Int) := by
            have : j + 1 = n := by omega
            rw [this]
          apply hback
          rw [hj1, emod_up n start n h0 hn (by omega) (le_refl _)]
          rw [if_neg (by omega)]
          omega
        exact ih (j + 1) (by omega) hf hfalse2
      · rw [if_neg hback]
        right
        refine ⟨rfl, ?_⟩
        have hjn : j + 1 = n := by
          by_contra hcon
          apply hback
          rw [emod_up n start ((j + 1 : Nat) : Int) h0 hn (by omega) (by omega)]
          split <;> omega
        intro k hk
        exact hfalse2 k (by omega)

/-- The loop of `prevItemById`, entered for the `j`-th time with `count - j` iterations
left: it leaves within the bound, with the first match in the circular order downward
from `start` or with -1 when no position matches. -/
theorem prevItemLoop_spec (p : Int → Bool) (n : Nat) (start : Int) (h0 : 0 ≤ start)
    (hn : start < (n : Int)) :
    ∀ fuel j : Nat, j + fuel = n → 0 < fuel →
      (∀ k2 : Nat, k2 < j → p ((start - (k2 : Int)) % (n : Int)) = false) →
      (∃ k : Nat, k < n ∧
        prevItemLoop p n start fuel ((start - (j : Int)) % (n : Int))
          = some ((start - (k : Int)) % (n : Int)) ∧
        p ((start - (k : Int)) % (n : Int)) = true ∧
        ∀ k2 : Nat, k2 < k → p ((start - (k2 : Int)) % (n : Int)) = false) ∨
      (prevItemLoop p n start fuel ((start - (j : Int)) % (n : Int)) = some (-1) ∧
        ∀ k : Nat, k < n → p ((start - (k : Int)) % (n : Int)) = false) := by
  intro fuel
  induction fuel with
  | zero => intro j _ h; omega
  | succ f ih =>
    intro j hj _ hfalse
    rw [prevItemLoop_succ]
    by_cases hp : p ((start - (j : Int)) % (n : Int)) = true
    · rw [if_pos hp]
      exact Or.inl ⟨j, by omega, rfl, hp, hfalse⟩
    · rw [if_neg hp]
      have hstep : (if (start - (j : Int)) % (n : Int) - 1 < 0 then (n : Int) - 1
            else (start - (j : Int)) % (n : Int) - 1)
          = (start - ((j + 1 : Nat) : Int)) % (n : Int) := by
        rw [emod_down n start (j : Int) h0 hn (by omega) (by omega),
          emod_down n start ((j + 1 : Nat) : Int) h0 hn (by omega) (by omega)]
        push_cast
        split <;> split <;> split <;> omega
      rw [hstep]
      have hfalse2 : ∀ k2 : Nat, k2 < j + 1 → p ((start - (k2 : Int)) % (n : Int)) = false := by
        intro k2 hk2
        rcases Nat.lt_succ_iff_lt_or_eq.1 hk2 with h | h
        · exact hfalse k2 h
        · subst h; simpa using hp
      by_cases hback : (start - ((j + 1 : Nat) : Int)) % (n : Int) ≠ start
      · rw [if_pos hback]
        have hf : 0 < f := by
          by_contra hcon
          have hj1 : ((j + 1 : Nat) : Int) = (n : Int) := by
            have : j + 1 = n := by omega
            rw [this]
          apply hback
          rw [hj1, emod_down n start n h0 hn (by omega) (le_refl _)]
          rw [if_neg (by omega)]
          omega
        exact ih (j + 1) (by omega) hf hfalse2
      · rw [if_neg hback]
        right
        refine ⟨rfl, ?_⟩
        have hjn : j + 1 = n := by
          by_contra hcon
          apply hback
          rw [emod_down n start ((j + 1 : Nat) : Int) h0 hn (by omega) (by omega)]
          split <;> omega
        intro k hk
        exact hfalse2 k (by omega)

theorem circular_up_once (n : Nat) (start : Int) (h0 : 0 ≤ start) (hn : start < (n : Int))
    (i : Int) (hi0 : 0 ≤ i) (hin : i < (n : Int)) :
    ∃ k : Nat, k < n ∧ (start + (k : Int)) % (n : Int) = i ∧
      ∀ k2 : Nat, k2 < n → (start + (k2 : Int)) % (n : Int) = i → k2 = k := by
  have huniq : ∀ k k2 : Nat, k < n → k2 < n → (start + (k : Int)) % (n : Int) = i →
      (start + (k2 : Int)) % (n : Int) = i → k2 = k := by
    intro k k2 hk hk2 h1 h2
    rw [emod_up n start k h0 hn (by omega) (by omega)] at h1
    rw [emod_up n start k2 h0 hn (by omega) (by omega)] at h2
    split at h1 <;> split at h2 <;> omega
  by_cases hge : start ≤ i
  · have hk : (start + (((i - start).toNat : Nat) : Int)) % (n : Int) = i := by
      rw [emod_up n start _ h0 hn (by omega) (by omega)]
      split <;> omega
    exact ⟨(i - start).toNat, by omega, hk, fun k2 hk2 h => huniq _ k2 (by omega) hk2 hk h⟩
  · have hk : (start + (((i - start + n).toNat : Nat) : Int)) % (n : Int) = i := by
      rw [emod_up n start _ h0 hn (by omega) (by omega)]
      split <;> omega
    exact ⟨(i - start + n).toNat, by omega, hk, fun k2 hk2 h => huniq _ k2 (by omega) hk2 hk h⟩

theorem circular_down_once (n : Nat) (start : Int) (h0 : 0 ≤ start) (hn : start < (n : Int))
    (i : Int) (hi0 : 0 ≤ i) (hin : i < (n : Int)) :
    ∃ k : Nat, k < n ∧ (start - (k : Int)) % (n : Int) = i ∧
      ∀ k2 : Nat, k2 < n → (start - (k2 : Int)) % (n : Int) = i → k2 = k := by
  have huniq : ∀ k k2 : Nat, k < n → k2 < n → (start - (k : Int)) % (n : Int) = i →
      (start - (k2 : Int)) % (n : Int) = i → k2 = k := by
    intro k k2 hk hk2 h1 h2
    rw [emod_down n start k h0 hn (by omega) (by omega)] at h1
    rw [emod_down n start k2 h0 hn (by omega) (by omega)] at h2
    split at h1 <;> split at h2 <;> omega
  by_cases hge : i ≤ start
  · have hk : (start - (((start - i).toNat : Nat) : Int)) % (n : Int) = i := by
      rw [emod_down n start _ h0 hn (by omega) (by omega)]
      split <;> omega
    exact ⟨(start - i).toNat, by omega, hk, fun k2 hk2 h => huniq _ k2 (by omega) hk2 hk h⟩
  · have hk : (start - (((start - i + n).toNat : Nat) : Int)) % (n : Int) = i := by
      rw [emod_down n start _ h0 hn (by omega) (by omega)]
      split <;> omega
    exact ⟨(start - i + n).toNat, by omega, hk, fun k2 hk2 h => huniq _ k2 (by omega) hk2 hk h⟩

/-- The scan of `nextItemById` from a valid start position: the first match in the
circular order upward, or -1 when no position matches. -/
theorem nextItemLoop_scan (p : Int → Bool) (n : Nat) (start : Int) (h0 : 0 ≤ start)
    (hn : start < (n : Int)) :
    ((∃ k : Nat, k < n ∧
        nextItemLoop p n start n start = some ((start + (k : Int)) % (n : Int)) ∧
        p ((start + (k : Int)) % (n : Int)) = true ∧
        ∀ k2 : Nat, k2 < k → p ((start + (k2 : Int)) % (n : Int)) = false) ∨
      (nextItemLoop p n start n start = some (-1) ∧
        ∀ i : Int, 0 ≤ i → i < (n : Int) → p i = false)) ∧
    (nextItemLoop p n start n start = some (-1) ↔
      ∀ i : Int, 0 ≤ i → i < (n : Int) → p i = false) := by
  have hstart : (start + ((0 : Nat) : Int)) % (n : Int) = start := by
    rw [emod_up n start _ h0 hn (by omega) (by omega)]
    split <;> omega
  have hspec := nextItemLoop_spec p n start h0 hn n 0 (by omega) (by omega)
    (fun k2 hk2 => absurd hk2 (Nat.not_lt_zero k2))
  rw [hstart] at hspec
  have hpos : ∀ k : Nat, k < n → 0 ≤ (start + (k : Int)) % (n : Int) ∧
      (start + (k : Int)) % (n : Int) < (n : Int) := by
    intro k hk
    rw [emod_up n start _ h0 hn (by omega) (by omega)]
    split <;> omega
  have hdisj : (∃ k : Nat, k < n ∧
        nextItemLoop p n start n start = some ((start + (k : Int)) % (n : Int)) ∧
        p ((start + (k : Int)) % (n : Int)) = true ∧
        ∀ k2 : Nat, k2 < k → p ((start + (k2 : Int)) % (n : Int)) = false) ∨
      (nextItemLoop p n start n start = some (-1) ∧
        ∀ i : Int, 0 ≤ i → i < (n : Int) → p i = false) := by
    rcases hspec with h | ⟨h1, h2⟩
    · exact Or.inl h
    · right
      refine ⟨h1, ?_⟩
      intro i hi0 hin
      obtain ⟨k, hk, hki, _⟩ := circular_up_once n start h0 hn i hi0 hin
      rw [← hki]
      exact h2 k hk
  refine ⟨hdisj, ?_⟩
  constructor
  · intro hres
    rcases hdisj with ⟨k, hk, h1, _, _⟩ | ⟨_, h2⟩
    · rw [hres] at h1
      have := (hpos k hk).1
      have h3 : (-1 : Int) = (start + (k : Int)) % (n : Int) := Option.some.inj h1
      omega
    · exact h2
  · intro hnone
    rcases hdisj with ⟨k, hk, _, h2, _⟩ | ⟨h1, _⟩
    · have := hnone _ (hpos k hk).1 (hpos k hk).2
      rw [this] at h2
      exact absurd h2 (by simp)
    · exact h1

/-- The scan of `prevItemById` from a valid start position: the first match in the
circular order downward, or -1 when no position matches. -/
theorem prevItemLoop_scan (p : Int → Bool) (n : Nat) (start : Int) (h0 : 0 ≤ start)
    (hn : start < (n : Int)) :
    ((∃ k : Nat, k < n ∧
        prevItemLoop p n start n start = some ((start - (k : Int)) % (n : Int)) ∧
        p ((start - (k : Int)) % (n : Int)) = true ∧
        ∀ k2 : Nat, k2 < k → p ((start - (k2 : Int)) % (n : Int)) = false) ∨
      (prevItemLoop p n start n start = some (-1) ∧
        ∀ i : Int, 0 ≤ i → i < (n : Int) → p i = false)) ∧
    (prevItemLoop p n start n start = some (-1) ↔
      ∀ i : Int, 0 ≤ i → i < (n : Int) → p i = false) := by
  have hstart : (start - ((0 : Nat) : Int)) % (n : Int) = start := by
    rw [emod_down n start _ h0 hn (by omega) (by omega)]
    split <;> omega
  have hspec := prevItemLoop_spec p n start h0 hn n 0 (by omega) (by omega)
    (fun k2 hk2 => absurd hk2 (Nat.not_lt_zero k2))
  rw [hstart] at hspec
  have hpos : ∀ k : Nat, k < n → 0 ≤ (start - (k : Int)) % (n : Int) ∧
      (start - (k : Int)) % (n : Int) < (n : Int) := by
    intro k hk
    rw [emod_down n start _ h0 hn (by omega) (by omega)]
    split <;> omega
  have hdisj : (∃ k : Nat, k < n ∧
        prevItemLoop p n start n start = some ((start - (k : Int)) % (n : Int)) ∧
        p ((start - (k : Int)) % (n : Int)) = true ∧
        ∀ k2 : Nat, k2 < k → p ((start - (k2 : Int)) % (n : Int)) = false) ∨
      (prevItemLoop p n start n start = some (-1) ∧
        ∀ i : Int, 0 ≤ i → i < (n : Int) → p i = false) := by
    rcases hspec with h | ⟨h1, h2⟩
    · exact Or.inl h
    · right
      refine ⟨h1, ?_⟩
      intro i hi0 hin
      obtain ⟨k, hk, hki, _⟩ := circular_down_once n start h0 hn i hi0 hin
      rw [← hki]
      exact h2 k hk
  refine ⟨hdisj, ?_⟩
  constructor
  · intro hres
    rcases hdisj with ⟨k, hk, h1, _, _⟩ | ⟨_, h2⟩
    · rw [hres] at h1
      have := (hpos k hk).1
      have h3 : (-1 : Int) = (start - (k : Int)) % (n : Int) := Option.some.inj h1
      omega
    · exact h2
  · intro hnone
    rcases hdisj with ⟨k, hk, _, h2, _⟩ | ⟨h1, _⟩
    · have := hnone _ (hpos k hk).1 (hpos k hk).2
      rw [this] at h2
      exact absurd h2 (by simp)
    · exact h1

theorem nextItemById_eq (d : TimelineModelPrivate) (p : Int → Bool) (time cur : Int)
    (hne : d.ranges ≠ []) :
    nextItemById d p time cur =
      nextItemLoop p d.ranges.length
        (if (if cur = -1 then firstIndexNoParents d time else cur + 1) < 0 ∨
            (if cur = -1 then firstIndexNoParents d time else cur + 1) ≥ (d.ranges.length : Int)
          then 0 else (if cur = -1 then firstIndexNoParents d time else cur + 1))
        d.ranges.length
        (if (if cur = -1 then firstIndexNoParents d time else cur + 1) < 0 ∨
            (if cur = -1 then firstIndexNoParents d time else cur + 1) ≥ (d.ranges.length : Int)
          then 0 else (if cur = -1 then firstIndexNoParents d time else cur + 1)) := by
  have h : d.ranges.isEmpty = false := by simp [List.isEmpty_iff, hne]
  unfold nextItemById
  rw [h]
  rfl

theorem prevItemById_eq (d : TimelineModelPrivate) (p : Int → Bool) (time cur : Int)
    (hne : d.ranges ≠ []) :
    prevItemById d p time cur =
      prevItemLoop p d.ranges.length
        (if (if cur = -1 then firstIndexNoParents d time else cur - 1) < 0
          then (d.ranges.length : Int) - 1
          else (if cur = -1 then firstIndexNoParents d time else cur - 1))
        d.ranges.length
        (if (if cur = -1 then firstIndexNoParents d time else cur - 1) < 0
          then (d.ranges.length : Int) - 1
          else (if cur = -1 then firstIndexNoParents d time else cur - 1)) := by
  have h : d.ranges.isEmpty = false := by simp [List.isEmpty_iff, hne]
  unfold prevItemById
  rw [h]
  rfl

/-- C10: on a non-empty store and for `currentItem` in `[-1, count() - 1]`,
`nextItemById` scans the indices circularly upward from `currentItem + 1` (from
`firstIndexNoParents(time)` when `currentItem` is -1, from 0 when that is -1 or past the
end), visits every index exactly once and returns the first visited index that matches,
and -1 exactly when no index matches; `prevItemById` does the same circularly downward
from `currentItem - 1` (from `firstIndexNoParents(time)` when `currentItem` is -1, from
the last index when that is -1), the references of the end index being positions of the
start index; on an empty store both return -1. -/
theorem item_scan_circular (d : TimelineModelPrivate) (p : Int → Bool) (time cur : Int) :
    (d.ranges = [] →
      nextItemById d p time cur = some (-1) ∧ prevItemById d p time cur = some (-1)) ∧
    (d.ranges ≠ [] → -1 ≤ cur → cur < count d →
      ∃ start : Int, 0 ≤ start ∧ start < count d ∧
        start = (if cur = -1 then
            (if 0 ≤ firstIndexNoParents d time ∧ firstIndexNoParents d time < count d
              then firstIndexNoParents d time else 0)
          else (cur + 1) % count d) ∧
        (∀ i : Int, 0 ≤ i → i < count d →
          ∃ k : Nat, k < d.ranges.length ∧ (start + (k : Int)) % count d = i ∧
            ∀ k2 : Nat, k2 < d.ranges.length → (start + (k2 : Int)) % count d = i → k2 = k) ∧
        ((∃ k : Nat, k < d.ranges.length ∧
            nextItemById d p time cur = some ((start + (k : Int)) % count d) ∧
            p ((start + (k : Int)) % count d) = true ∧
            ∀ k2 : Nat, k2 < k → p ((start + (k2 : Int)) % count d) = false) ∨
          (nextItemById d p time cur = some (-1) ∧
            ∀ i : Int, 0 ≤ i → i < count d → p i = false)) ∧
        (nextItemById d p time cur = some (-1) ↔
          ∀ i : Int, 0 ≤ i → i < count d → p i = false)) ∧
    (d.ranges ≠ [] → -1 ≤ cur → cur < count d →
      (cur = -1 → firstIndexNoParents d time < count d) →
      ∃ start : Int, 0 ≤ start ∧ start < count d ∧
        start = (if cur = -1 then
            (if 0 ≤ firstIndexNoParents d time then firstIndexNoParents d time
              else count d - 1)
          else (cur - 1) % count d) ∧
        (∀ i : Int, 0 ≤ i → i < count d →
          ∃ k : Nat, k < d.ranges.length ∧ (start - (k : Int)) % count d = i ∧
            ∀ k2 : Nat, k2 < d.ranges.length → (start - (k2 : Int)) % count d = i → k2 = k) ∧
        ((∃ k : Nat, k < d.ranges.length ∧
            prevItemById d p time cur = some ((start - (k : Int)) % count d) ∧
            p ((start - (k : Int)) % count d) = true ∧
            ∀ k2 : Nat, k2 < k → p ((start - (k2 : Int)) % count d) = false) ∨
          (prevItemById d p time cur = some (-1) ∧
            ∀ i : Int, 0 ≤ i → i < count d → p i = false)) ∧
        (prevItemById d p time cur = some (-1) ↔
          ∀ i : Int, 0 ≤ i → i < count d → p i = false)) := by
  refine ⟨?_, ?_, ?_⟩
  · intro hempty
    simp [nextItemById, prevItemById, hempty]
  · intro hne hlo hhi
    have hlen : 0 < d.ranges.length := List.length_pos.2 hne
    unfold count at hhi ⊢
    rw [nextItemById_eq d p time cur hne]
    have hstart : (if (if cur = -1 then firstIndexNoParents d time else cur + 1) < 0 ∨
            (if cur = -1 then firstIndexNoParents d time else cur + 1) ≥ (d.ranges.length : Int)
          then 0 else (if cur = -1 then firstIndexNoParents d time else cur + 1))
        = (if cur = -1 then
            (if 0 ≤ firstIndexNoParents d time ∧
                firstIndexNoParents d time < (d.ranges.length : Int)
              then firstIndexNoParents d time else 0)
          else (cur + 1) % (d.ranges.length : Int)) := by
      by_cases hc : cur = -1
      · simp only [if_pos hc]
        split <;> split <;> omega
      · simp only [if_neg hc]
        rw [emod_up d.ranges.length cur 1 (by omega) hhi (by omega) (by omega)]
        split <;> split <;> omega
    rw [hstart]
    have hb : 0 ≤ (if cur = -1 then
            (if 0 ≤ firstIndexNoParents d time ∧
                firstIndexNoParents d time < (d.ranges.length : Int)
              then firstIndexNoParents d time else 0)
          else (cur + 1) % (d.ranges.length : Int)) ∧
        (if cur = -1 then
            (if 0 ≤ firstIndexNoParents d time ∧
                firstIndexNoParents d time < (d.ranges.length : Int)
              then firstIndexNoParents d time else 0)
          else (cur + 1) % (d.ranges.length : Int)) < (d.ranges.length : Int) := by
      by_cases hc : cur = -1
      · simp only [if_pos hc]
        split <;> omega
      · simp only [if_neg hc]
        rw [emod_up d.ranges.length cur 1 (by omega) hhi (by omega) (by omega)]
        split <;> omega
    obtain ⟨h1, h2⟩ := nextItemLoop_scan p d.ranges.length _ hb.1 hb.2
    exact ⟨_, hb.1, hb.2, rfl,
      fun i hi0 hin => circular_up_once d.ranges.length _ hb.1 hb.2 i hi0 hin, h1, h2⟩
  · intro hne hlo hhi hraw
    have hlen : 0 < d.ranges.length := List.length_pos.2 hne
    unfold count at hhi hraw ⊢
    rw [prevItemById_eq d p time cur hne]
    have hstart : (if (if cur = -1 then firstIndexNoParents d time else cur - 1) < 0
          then (d.ranges.length : Int) - 1
          else (if cur = -1 then firstIndexNoParents d time else cur - 1))
        = (if cur = -1 then
            (if 0 ≤ firstIndexNoParents d time then firstIndexNoParents d time
              else (d.ranges.length : Int) - 1)
          else (cur - 1) % (d.ranges.length : Int)) := by
      by_cases hc : cur = -1
      · simp only [if_pos hc]
        split <;> split <;> omega
      · simp only [if_neg hc]
        rw [emod_down d.ranges.length cur 1 (by omega) hhi (by omega) (by omega)]
        split <;> split <;> omega
    rw [hstart]
    have hb : 0 ≤ (if cur = -1 then
            (if 0 ≤ firstIndexNoParents d time then firstIndexNoParents d time
              else (d.ranges.length : Int) - 1)
          else (cur - 1) % (d.ranges.length : Int)) ∧
        (if cur = -1 then
            (if 0 ≤ firstIndexNoParents d time then firstIndexNoParents d time
              else (d.ranges.length : Int) - 1)
          else (cur - 1) % (d.ranges.length : Int)) < (d.ranges.length : Int) := by
      by_cases hc : cur = -1
      · simp only [if_pos hc]
        have hraw2 := hraw hc
        split <;> omega
      · simp only [if_neg hc]
        rw [emod_down d.ranges.length cur 1 (by omega) hhi (by omega) (by omega)]
        split <;> omega
    obtain ⟨h1, h2⟩ := prevItemLoop_scan p d.ranges.length _ hb.1 hb.2
    exact ⟨_, hb.1, hb.2, rfl,
      fun i hi0 hin => circular_down_once d.ranges.length _ hb.1 hb.2 i hi0 hin, h1, h2⟩

/-- C10, witness of `item_scan_circular`: in the scenario store, whose selection ids are
1, 2 and 3, the scan for the selection id 1 upward from the current item 0 wraps around
and returns 0, and the scan for the selection id 3 downward from the current item 0
starts at the last index and returns 2. -/
theorem item_scan_circular_witness :
    nextItemBySelectionId scenarioA 1 0 0 = some 0 ∧
      prevItemBySelectionId scenarioA 3 0 0 = some 2 ∧
      (nextItemById scenarioA (fun index => selectionId scenarioA index = 7) 0 0 = some (-1) ↔
        ∀ i : Int, 0 ≤ i → i < count scenarioA →
          (fun index => decide (selectionId scenarioA index = 7)) i = false) :=
  ⟨by decide, by decide,
    ((item_scan_circular scenarioA (fun index => selectionId scenarioA index = 7) 0 0).2.1
      (by decide) (by decide) (by decide)).choose_spec.2.2.2.2.2⟩

theorem setExpandedRowCount_count (d : TimelineModelPrivate) (rows : Int) :
    (setExpandedRowCount d rows).expandedRowCount = rows := by
  unfold setExpandedRowCount
  split
  · rfl
  · rename_i h
    simpa using h

theorem setExpandedRowCount_others (d : TimelineModelPrivate) (rows : Int) :
    (setExpandedRowCount d rows).collapsedRowCount = d.collapsedRowCount ∧
      (setExpandedRowCount d rows).expanded = d.expanded ∧
      (setExpandedRowCount d rows).hidden = d.hidden := by
  unfold setExpandedRowCount
  split
  · split <;> exact ⟨rfl, rfl, rfl⟩
  · exact ⟨rfl, rfl, rfl⟩

theorem setCollapsedRowCount_count (d : TimelineModelPrivate) (rows : Int) :
    (setCollapsedRowCount d rows).collapsedRowCount = rows ∧
      (setCollapsedRowCount d rows).expandedRowCount = d.expandedRowCount ∧
      (setCollapsedRowCount d rows).expanded = d.expanded ∧
      (setCollapsedRowCount d rows).hidden = d.hidden := by
  unfold setCollapsedRowCount
  split
  · exact ⟨rfl, rfl, rfl, rfl⟩
  · rename_i h
    exact ⟨by simpa using h, rfl, rfl, rfl⟩

theorem setExpanded_fields (d : TimelineModelPrivate) (e : Bool) :
    (setExpanded d e).expanded = e ∧
      (setExpanded d e).expandedRowCount = d.expandedRowCount ∧
      (setExpanded d e).collapsedRowCount = d.collapsedRowCount ∧
      (setExpanded d e).hidden = d.hidden := by
  unfold setExpanded
  split
  · exact ⟨rfl, rfl, rfl, rfl⟩
  · rename_i h
    exact ⟨by simpa using Eq.symm (not_not.1 h), rfl, rfl, rfl⟩

theorem setHidden_fields (d : TimelineModelPrivate) (h : Bool) :
    (setHidden d h).hidden = h ∧
      (setHidden d h).expandedRowCount = d.expandedRowCount ∧
      (setHidden d h).collapsedRowCount = d.collapsedRowCount ∧
      (setHidden d h).expanded = d.expanded := by
  unfold setHidden
  split
  · exact ⟨rfl, rfl, rfl, rfl⟩
  · rename_i hh
    exact ⟨by simpa using Eq.symm (not_not.1 hh), rfl, rfl, rfl⟩

/-- C11: from any store state, after `clear()` the start index and the end index are
empty (`count() = 0`), the row height overrides are dropped (`expandedRowHeight(r)` is
the default for every row `r`), `expandedRowCount = collapsedRowCount = 1`, the model is
neither expanded nor hidden, and `height() = 0`. -/
theorem clear_resets (DefaultRowHeight : Int) (d : TimelineModelPrivate) :
    (clear d).ranges = [] ∧ (clear d).endTimes = [] ∧ count (clear d) = 0 ∧
      (clear d).rowOffsets = [] ∧
      (∀ r : Nat, expandedRowHeight DefaultRowHeight (clear d) (r : Int) = DefaultRowHeight) ∧
      expandedRowCount (clear d) = 1 ∧ collapsedRowCount (clear d) = 1 ∧
      expanded (clear d) = false ∧ hidden (clear d) = false ∧
      height DefaultRowHeight (clear d) = 0 := by
  have hr : (clear d).ranges = [] := rfl
  have he : (clear d).endTimes = [] := rfl
  have ho : (clear d).rowOffsets = [] := rfl
  have h1 := setExpandedRowCount_count d 1
  have h2 := setCollapsedRowCount_count (setExpandedRowCount d 1) 1
  have h3 := setExpanded_fields (setCollapsedRowCount (setExpandedRowCount d 1) 1) false
  have h4 := setHidden_fields
    (setExpanded (setCollapsedRowCount (setExpandedRowCount d 1) 1) false) false
  have hcount : count (clear d) = 0 := by
    unfold count
    rw [hr]
    rfl
  refine ⟨hr, he, hcount, ho, ?_, ?_, ?_, ?_, ?_, ?_⟩
  · intro r
    unfold expandedRowHeight
    rw [ho]
    have : ¬ ((([] : List Int).length : Int) > (r : Int)) := by
      simp
    rw [if_neg this]
  · show (clear d).expandedRowCount = 1
    show (setHidden (setExpanded (setCollapsedRowCount (setExpandedRowCount d 1) 1) false)
      false).expandedRowCount = 1
    rw [h4.2.1, h3.2.1, h2.2.1, h1]
  · show (setHidden (setExpanded (setCollapsedRowCount (setExpandedRowCount d 1) 1) false)
      false).collapsedRowCount = 1
    rw [h4.2.2.1, h3.2.2.1, h2.1]
  · show (setHidden (setExpanded (setCollapsedRowCount (setExpandedRowCount d 1) 1) false)
      false).expanded = false
    rw [h4.2.2.2, h3.1]
  · show (setHidden (setExpanded (setCollapsedRowCount (setExpandedRowCount d 1) 1) false)
      false).hidden = false
    exact h4.1
  · unfold height
    have hemp : isEmpty (clear d) = true := by
      unfold isEmpty
      rw [hcount]
      rfl
    rw [if_pos (Or.inr hemp)]

theorem rowOffsetAt_natCast (L : List Int) (i : Nat) : rowOffsetAt L (i : Int) = L.getD i 0 := by
  simp [rowOffsetAt]

theorem appendRowOffsets_eq (D r : Int) : ∀ (fuel : Nat) (L : List Int) (next : Int),
    fuel = (r + 1 - (L.length : Int)).toNat →
    appendRowOffsets D r fuel L next
      = L ++ (List.range fuel).map (fun (k : Nat) => next + ((k : Int) + 1) * D) := by
  intro fuel
  induction fuel with
  | zero => intro L next _; simp [appendRowOffsets]
  | succ n ih =>
    intro L next h
    have hle : (L.length : Int) ≤ r := by omega
    have hn : n = (r + 1 - ((L ++ [next + D]).length : Int)).toNat := by
      simp only [List.length_append, List.length_singleton]
      push_cast
      omega
    rw [appendRowOffsets, if_pos hle, ih _ _ hn]
    rw [List.range_succ_eq_map, List.map_cons, List.map_map, List.append_assoc]
    congr 1
    simp only [List.singleton_append, Nat.cast_zero, zero_add, one_mul, List.cons.injEq, true_and]
    apply List.map_congr_left
    intro k _
    simp only [Function.comp_apply, Nat.cast_succ]
    ring

theorem getD_append_range (L : List Int) (n : Nat) (f : Nat → Int) (i : Nat) :
    (L ++ (List.range n).map f).getD i 0
      = if i < L.length then L.getD i 0 else if i < L.length + n then f (i - L.length) else 0 := by
  by_cases h1 : i < L.length
  · rw [if_pos h1, List.getD_append _ _ _ _ h1]
  · rw [if_neg h1, List.getD_append_right _ _ _ _ (by omega)]
    by_cases h2 : i < L.length + n
    · rw [if_pos h2]
      have h3 : i - L.length < n := by omega
      simp [List.getD_eq_getElem?_getD, List.getElem?_map, List.getElem?_range h3]
    · rw [if_neg h2]
      apply List.getD_eq_default
      simp only [List.length_map, List.length_range]
      omega

theorem shiftRowOffsets_length (L : List Int) (r diff : Int) :
    (shiftRowOffsets L r diff).length = L.length := by
  simp only [shiftRowOffsets, List.length_append, List.length_take, List.length_map,
    List.length_drop]
  omega

theorem shiftRowOffsets_getD (L : List Int) (r : Nat) (diff : Int) (i : Nat) :
    (shiftRowOffsets L (r : Int) diff).getD i 0
      = if i < r then L.getD i 0 else if i < L.length then L.getD i 0 + diff else 0 := by
  simp only [shiftRowOffsets, Int.toNat_ofNat]
  by_cases h1 : i < r
  · rw [if_pos h1]
    by_cases h0 : i < L.length
    · rw [List.getD_append _ _ _ _ (by simp only [List.length_take]; omega)]
      simp [List.getD_eq_getElem?_getD, List.getElem?_take, h1]
    · rw [List.getD_eq_default _ _ (by
        simp only [List.length_append, List.length_take, List.length_map, List.length_drop]
        omega), List.getD_eq_default _ _ (by omega)]
  · rw [if_neg h1]
    by_cases h0 : i < L.length
    · rw [if_pos h0, List.getD_append_right _ _ _ _ (by simp only [List.length_take]; omega)]
      have hlen : (List.take r L).length = r := by simp only [List.length_take]; omega
      rw [hlen]
      have h4 : r + (i - r) = i := by omega
      simp [List.getD_eq_getElem?_getD, List.getElem?_map, List.getElem?_drop, h4]
      rw [List.getElem?_eq_getElem h0]
      simp
    · rw [if_neg h0]
      apply List.getD_eq_default
      simp only [List.length_append, List.length_take, List.length_map, List.length_drop]
      omega

theorem expandedRowHeight_eq (D : Int) (d : TimelineModelPrivate) (q : Nat) :
    expandedRowHeight D d (q : Int)
      = if q < d.rowOffsets.length then
          d.rowOffsets.getD q 0 - (if 0 < q then d.rowOffsets.getD (q - 1) 0 else 0)
        else D := by
  unfold expandedRowHeight
  cases q with
  | zero => simp [rowOffsetAt]
  | succ k =>
    have hk : ((k + 1 : Nat) : Int) - 1 = (k : Int) := by push_cast; ring
    rw [hk, rowOffsetAt_natCast, rowOffsetAt_natCast]
    have hpos : ((k + 1 : Nat) : Int) > 0 := by push_cast; omega
    rw [if_pos hpos]
    by_cases h : k + 1 < d.rowOffsets.length
    · have h2 : (d.rowOffsets.length : Int) > ((k + 1 : Nat) : Int) := by exact_mod_cast h
      rw [if_pos h2, if_pos h]
      simp
    · have h2 : ¬ (d.rowOffsets.length : Int) > ((k + 1 : Nat) : Int) := by
        intro h3; exact h (by exact_mod_cast h3)
      rw [if_neg h2, if_neg h]

theorem expandedRowOffset_eq (D : Int) (d : TimelineModelPrivate) (q : Nat) :
    expandedRowOffset D d (q : Int)
      = if q = 0 then 0
        else if q ≤ d.rowOffsets.length then d.rowOffsets.getD (q - 1) 0
        else if d.rowOffsets.length ≠ 0 then
          d.rowOffsets.getD (d.rowOffsets.length - 1) 0
            + ((q : Int) - (d.rowOffsets.length : Int)) * D
        else (q : Int) * D := by
  unfold expandedRowOffset
  cases q with
  | zero => simp
  | succ k =>
    have hk : ((k + 1 : Nat) : Int) - 1 = (k : Int) := by push_cast; ring
    have hne : ¬ ((k + 1 : Nat) : Int) = 0 := by push_cast; omega
    rw [if_neg hne, if_neg (Nat.succ_ne_zero k), hk, rowOffsetAt_natCast]
    by_cases h : k + 1 ≤ d.rowOffsets.length
    · have h2 : (d.rowOffsets.length : Int) ≥ ((k + 1 : Nat) : Int) := by exact_mod_cast h
      rw [if_pos h2, if_pos h]
      simp
    · have h2 : ¬ (d.rowOffsets.length : Int) ≥ ((k + 1 : Nat) : Int) := by
        intro h3; exact h (by exact_mod_cast h3)
      rw [if_neg h2, if_neg h]
      by_cases h0 : d.rowOffsets.length = 0
      · have hnil : d.rowOffsets = [] := List.length_eq_zero.mp h0
        simp [hnil]
      · have hnn : d.rowOffsets ≠ [] := fun hn => h0 (by simp [hn])
        have hl : ((d.rowOffsets.length : Int) - 1) = ((d.rowOffsets.length - 1 : Nat) : Int) := by
          omega
        rw [hl, rowOffsetAt_natCast]
        simp [hnn, h0]

/-- The offset of a row is the offset of the row before it plus that row's height, in
every row layout. -/
theorem expandedRowOffset_succ (D : Int) (d : TimelineModelPrivate) (q : Nat) :
    expandedRowOffset D d ((q : Int) + 1)
      = expandedRowOffset D d (q : Int) + expandedRowHeight D d (q : Int) := by
  have hq : ((q : Int) + 1) = ((q + 1 : Nat) : Int) := by push_cast; ring
  rw [hq, expandedRowOffset_eq, expandedRowOffset_eq, expandedRowHeight_eq]
  rw [if_neg (Nat.succ_ne_zero q)]
  simp only [Nat.add_sub_cancel]
  by_cases h1 : q < d.rowOffsets.length
  · rw [if_pos (Nat.succ_le_of_lt h1), if_pos h1]
    by_cases h0 : q = 0
    · subst h0; simp
    · rw [if_neg h0, if_pos (Nat.le_of_lt h1), if_pos (Nat.pos_of_ne_zero h0)]
      ring
  · rw [if_neg (by omega), if_neg h1]
    by_cases h0 : d.rowOffsets.length = 0
    · rw [if_neg (by omega)]
      by_cases hq0 : q = 0
      · subst hq0; simp [h0]
      · rw [if_neg hq0, if_neg (by omega), if_neg (by omega)]
        push_cast; ring
    · rw [if_pos h0]
      have hq0 : q ≠ 0 := by omega
      rw [if_neg hq0]
      by_cases h2 : q ≤ d.rowOffsets.length
      · have h3 : q = d.rowOffsets.length := by omega
        rw [if_pos h2, ← h3]
        push_cast; ring
      · rw [if_neg h2, if_pos h0]
        push_cast; ring

theorem appendRowOffsets_length (D : Int) (r : Nat) (L : List Int) (next : Int) :
    (appendRowOffsets D r ((r : Int) + 1 - (L.length : Int)).toNat L next).length
      = max L.length (r + 1) := by
  rw [appendRowOffsets_eq D r _ L next rfl]
  simp only [List.length_append, List.length_map, List.length_range]
  omega

theorem appendRowOffsets_getD (D : Int) (r : Nat) (L : List Int) (next : Int) (i : Nat) :
    (appendRowOffsets D r ((r : Int) + 1 - (L.length : Int)).toNat L next).getD i 0
      = if i < L.length then L.getD i 0
        else if i ≤ r then next + (((i - L.length : Nat) : Int) + 1) * D else 0 := by
  rw [appendRowOffsets_eq D r _ L next rfl, getD_append_range]
  by_cases h1 : i < L.length
  · rw [if_pos h1, if_pos h1]
  · rw [if_neg h1, if_neg h1]
    by_cases h2 : i ≤ r
    · rw [if_pos h2, if_pos (by omega)]
    · rw [if_neg h2, if_neg (by omega)]

/-- The rows that the loop of `setExpandedRowHeight` appends have the default height, so
that no row changes its height. -/
theorem expandedRowHeight_append (D : Int) (d d1 : TimelineModelPrivate) (r : Nat)
    (h1 : d1.rowOffsets = appendRowOffsets D r
      ((r : Int) + 1 - (d.rowOffsets.length : Int)).toNat d.rowOffsets
      (if d.rowOffsets.isEmpty then 0
        else rowOffsetAt d.rowOffsets ((d.rowOffsets.length : Int) - 1)))
    (q : Nat) :
    expandedRowHeight D d1 (q : Int) = expandedRowHeight D d (q : Int) := by
  rw [expandedRowHeight_eq, expandedRowHeight_eq, h1, appendRowOffsets_length,
    appendRowOffsets_getD, appendRowOffsets_getD]
  by_cases hq : q < d.rowOffsets.length
  · have hq1 : q - 1 < d.rowOffsets.length := by omega
    have hq2 : q < max d.rowOffsets.length (r + 1) := by omega
    simp only [hq, hq1, hq2, if_true]
  · simp only [hq, if_false]
    by_cases hr : q < max d.rowOffsets.length (r + 1)
    · have hqr : q ≤ r := by omega
      simp only [hr, hqr, if_true]
      by_cases hq0 : q = 0
      · subst hq0
        have hnil : d.rowOffsets = [] := List.length_eq_zero.mp (by omega)
        simp [hnil]
      · have hpos : 0 < q := Nat.pos_of_ne_zero hq0
        simp only [hpos, if_true]
        by_cases hq1 : q - 1 < d.rowOffsets.length
        · have hqn : q = d.rowOffsets.length := by omega
          have hne : d.rowOffsets ≠ [] := fun hn => hq0 (by simp [hqn, hn])
          have hl : ((d.rowOffsets.length : Int) - 1) = ((d.rowOffsets.length - 1 : Nat) : Int) := by
            omega
          rw [hl, rowOffsetAt_natCast]
          have hsub : q - d.rowOffsets.length = 0 := by omega
          simp only [hq1, if_true, hsub]
          rw [← hqn]
          simp [hne]
        · have hq3 : q - 1 ≤ r := by omega
          have hsub : q - d.rowOffsets.length = (q - 1 - d.rowOffsets.length) + 1 := by omega
          simp only [hq1, if_false, hq3, if_true]
          rw [hsub]
          push_cast
          ring
    · simp only [hr, if_false]

/-- The loop over the offsets from `rowNumber` on changes the height of that row by
`difference` and of no other row. -/
theorem expandedRowHeight_shift (D : Int) (d1 d2 : TimelineModelPrivate) (r : Nat) (diff : Int)
    (hr : r < d1.rowOffsets.length)
    (h2 : d2.rowOffsets = shiftRowOffsets d1.rowOffsets (r : Int) diff) (q : Nat) :
    expandedRowHeight D d2 (q : Int)
      = if q = r then expandedRowHeight D d1 (q : Int) + diff
        else expandedRowHeight D d1 (q : Int) := by
  rw [expandedRowHeight_eq, expandedRowHeight_eq, h2, shiftRowOffsets_length,
    shiftRowOffsets_getD, shiftRowOffsets_getD]
  by_cases hq : q < d1.rowOffsets.length
  · have hq1 : q - 1 < d1.rowOffsets.length := by omega
    simp only [hq, hq1, if_true]
    by_cases hqr : q < r
    · have h3 : q - 1 < r := by omega
      have h4 : q ≠ r := by omega
      simp only [hqr, h3, h4, if_true, if_false]
    · by_cases heq : q = r
      · by_cases hq0 : q = 0
        · have hr0 : r = 0 := by omega
          subst hq0
          simp [← hr0]
        · have hpos : 0 < q := Nat.pos_of_ne_zero hq0
          have h3 : q - 1 < r := by omega
          simp only [hqr, hpos, h3, heq, if_true, if_false]
          have h5 : ¬ r < r := by omega
          have h6 : 0 < r := by omega
          have h7 : r - 1 < r := by omega
          simp only [h5, h6, h7, if_true, if_false]
          ring
      · have hpos : 0 < q := by omega
        have h3 : ¬ q - 1 < r := by omega
        simp only [hqr, hpos, h3, heq, if_true, if_false]
        ring
  · have h4 : q ≠ r := by omega
    simp only [hq, h4, if_false]

/-- The two ways `setExpandedRowHeight` ends: with `difference` the requested height less
the height the row has after the offsets were appended, either the offsets from the row
on are shifted by `difference`, or `difference` is 0 and nothing else changes. -/
theorem setExpandedRowHeight_cases (D : Int) (d : TimelineModelPrivate) (r : Nat) (h : Int) :
    ∃ d1 : TimelineModelPrivate,
      d1.rowOffsets = appendRowOffsets D r
        ((r : Int) + 1 - (d.rowOffsets.length : Int)).toNat d.rowOffsets
        (if d.rowOffsets.isEmpty then 0
          else rowOffsetAt d.rowOffsets ((d.rowOffsets.length : Int) - 1)) ∧
      (((if h < D then D else h) - expandedRowHeight D d1 (r : Int) ≠ 0 ∧
          (setExpandedRowHeight D d r h).rowOffsets
            = shiftRowOffsets d1.rowOffsets (r : Int)
                ((if h < D then D else h) - expandedRowHeight D d1 (r : Int))) ∨
        ((if h < D then D else h) - expandedRowHeight D d1 (r : Int) = 0 ∧
          (setExpandedRowHeight D d r h).rowOffsets = d1.rowOffsets)) := by
  refine ⟨{ d with rowOffsets := (appendRowOffsets D r
      ((r : Int) + 1 - (d.rowOffsets.length : Int)).toNat d.rowOffsets
      (if d.rowOffsets.isEmpty then 0
        else rowOffsetAt d.rowOffsets ((d.rowOffsets.length : Int) - 1))) }, rfl, ?_⟩
  have hlen : r < (appendRowOffsets D r
      ((r : Int) + 1 - (d.rowOffsets.length : Int)).toNat d.rowOffsets
      (if d.rowOffsets.isEmpty then 0
        else rowOffsetAt d.rowOffsets ((d.rowOffsets.length : Int) - 1))).length := by
    rw [appendRowOffsets_length]; omega
  have hdiff : ∀ (L : List Int) (d0 : TimelineModelPrivate) (x : Int), r < L.length →
      x - rowOffsetAt L (r : Int) + (if (r : Int) > 0 then rowOffsetAt L ((r : Int) - 1) else 0)
        = x - expandedRowHeight D { d0 with rowOffsets := L } (r : Int) := by
    intro L d0 x hL
    unfold expandedRowHeight
    have hL2 : ((L.length : Int) > (r : Int)) := by exact_mod_cast hL
    simp only [hL2, if_true]
    ring
  unfold setExpandedRowHeight
  simp only
  rw [hdiff _ d _ hlen]
  by_cases hz : (if h < D then D else h) - expandedRowHeight D { d with rowOffsets :=
      (appendRowOffsets D r ((r : Int) + 1 - (d.rowOffsets.length : Int)).toNat d.rowOffsets
      (if d.rowOffsets.isEmpty then 0
        else rowOffsetAt d.rowOffsets ((d.rowOffsets.length : Int) - 1))) } (r : Int) = 0
  · right
    refine ⟨hz, ?_⟩
    rw [if_neg (not_not.mpr hz)]
  · left
    refine ⟨hz, ?_⟩
    rw [if_pos hz]

/-- C30: for every row layout state, row `r` and height `h`, after
`setExpandedRowHeight(r, h)` the height of row `r` is the larger of `h` and the default
row height, every other row keeps the height it had, and the offset of each row is the
offset of the row before it plus that row's height. -/
theorem setExpandedRowHeight_rows (DefaultRowHeight : Int) (d : TimelineModelPrivate)
    (r : Nat) (h : Int) :
    expandedRowHeight DefaultRowHeight (setExpandedRowHeight DefaultRowHeight d r h) r
        = max h DefaultRowHeight ∧
      (∀ q : Nat, q ≠ r →
        expandedRowHeight DefaultRowHeight (setExpandedRowHeight DefaultRowHeight d r h) q
          = expandedRowHeight DefaultRowHeight d q) ∧
      (∀ q : Nat,
        expandedRowOffset DefaultRowHeight (setExpandedRowHeight DefaultRowHeight d r h)
            ((q : Int) + 1)
          = expandedRowOffset DefaultRowHeight (setExpandedRowHeight DefaultRowHeight d r h) q
            + expandedRowHeight DefaultRowHeight
              (setExpandedRowHeight DefaultRowHeight d r h) q) := by
  obtain ⟨d1, hd1, hcases⟩ := setExpandedRowHeight_cases DefaultRowHeight d r h
  have hlen : r < d1.rowOffsets.length := by
    rw [hd1, appendRowOffsets_length]; omega
  have hH1 : ∀ q : Nat, expandedRowHeight DefaultRowHeight d1 (q : Int)
      = expandedRowHeight DefaultRowHeight d (q : Int) :=
    expandedRowHeight_append DefaultRowHeight d d1 r hd1
  have hmax : (if h < DefaultRowHeight then DefaultRowHeight else h) = max h DefaultRowHeight := by
    rw [max_def]
    by_cases h1 : h < DefaultRowHeight
    · rw [if_pos h1, if_pos (le_of_lt h1)]
    · rw [if_neg h1]
      by_cases h2 : h ≤ DefaultRowHeight
      · rw [if_pos h2]; omega
      · rw [if_neg h2]
  have hall : ∀ q : Nat,
      expandedRowHeight DefaultRowHeight (setExpandedRowHeight DefaultRowHeight d r h) (q : Int)
        = if q = r then max h DefaultRowHeight
          else expandedRowHeight DefaultRowHeight d (q : Int) := by
    intro q
    rcases hcases with ⟨hne, hoff⟩ | ⟨heq, hoff⟩
    · rw [expandedRowHeight_shift DefaultRowHeight d1 _ r _ hlen hoff q, hH1 q]
      by_cases hq : q = r
      · rw [if_pos hq, if_pos hq, ← hH1 q, hq, ← hmax]
        ring
      · rw [if_neg hq, if_neg hq]
    · have hsame : expandedRowHeight DefaultRowHeight
          (setExpandedRowHeight DefaultRowHeight d r h) (q : Int)
          = expandedRowHeight DefaultRowHeight d1 (q : Int) := by
        rw [expandedRowHeight_eq, expandedRowHeight_eq, hoff]
      rw [hsame]
      by_cases hq : q = r
      · rw [if_pos hq, hq, ← hmax]
        omega
      · rw [if_neg hq, hH1 q]
  refine ⟨?_, ?_, fun q => expandedRowOffset_succ _ _ q⟩
  · rw [hall r, if_pos rfl]
  · intro q hq
    rw [hall q, if_neg hq]

/-- The binary search stays inside a non-empty container. -/
theorem lowerBound_range (container : List Int) (time : Int) (h : 1 ≤ container.length) :
    0 ≤ lowerBound container time ∧ lowerBound container time < (container.length : Int) := by
  by_cases h2 : 2 ≤ container.length
  · have hs := lowerBound_spec container time h2
    exact ⟨hs.1, by omega⟩
  · have h1 : container.length = 1 := by omega
    unfold lowerBound
    rw [h1, lowerBoundLoop_succ, if_neg (by simp)]
    simp

theorem bestIndexStart_range (d : TimelineModelPrivate) (timestamp : Int)
    (hne : d.ranges ≠ []) :
    0 ≤ bestIndexStart d timestamp ∧ bestIndexStart d timestamp < (d.ranges.length : Int) := by
  have hlen : 1 ≤ d.ranges.length := List.length_pos.mpr hne
  unfold bestIndexStart
  split
  · omega
  · have hr := lowerBound_range (d.ranges.map Range.start) timestamp (by simpa using hlen)
    simpa using hr

theorem bestIndexEndTimeIndex_range (d : TimelineModelPrivate) (timestamp : Int)
    (hne : d.endTimes ≠ []) :
    0 ≤ bestIndexEndTimeIndex d timestamp ∧
      bestIndexEndTimeIndex d timestamp < (d.endTimes.length : Int) := by
  have hlen : 1 ≤ d.endTimes.length := List.length_pos.mpr hne
  unfold bestIndexEndTimeIndex
  by_cases h1 : (endAt d.endTimes 0).endTime ≥ timestamp
  · rw [if_pos h1]; omega
  · rw [if_neg h1]
    by_cases h2 : (endAt d.endTimes (d.endTimes.length - 1)).endTime < timestamp
    · rw [if_pos h2]; omega
    · rw [if_neg h2]
      have h3 : 2 ≤ d.endTimes.length := by
        by_contra hc
        have h4 : d.endTimes.length - 1 = 0 := by omega
        rw [h4] at h2
        exact h2 (by omega)
      have hs := lowerBound_spec (d.endTimes.map RangeEnd.endTime) timestamp (by simpa using h3)
      simp only [List.length_map] at hs
      omega

theorem bestIndexEnd_range (d : TimelineModelPrivate) (timestamp : Int)
    (hne : d.endTimes ≠ [])
    (hvalid : ∀ e ∈ d.endTimes, 0 ≤ e.startIndex ∧ e.startIndex < (d.ranges.length : Int)) :
    0 ≤ bestIndexEnd d timestamp ∧ bestIndexEnd d timestamp < (d.ranges.length : Int) := by
  have hr := bestIndexEndTimeIndex_range d timestamp hne
  unfold bestIndexEnd
  obtain ⟨k, hk⟩ := Int.eq_ofNat_of_zero_le hr.1
  rw [hk, endAtInt_natCast]
  exact hvalid _ (endAt_mem (by omega))

/-- C28: `bestIndex(T)` returns -1 on an empty store; on a non-empty store whose end index
has an entry for every range, each referring to a position of the start index, the two
indices `s` (found in the start index) and `e` (the reference found in the end index) are
valid, the result is their integer midpoint, it lies between the two and it is a valid
index.  Where the guards of `lastIndex` and `firstIndexNoParents` let their searches run,
`s` and `e` are the results of these two. -/
theorem bestIndex_midpoint (d : TimelineModelPrivate) (T : Int) :
    (d.ranges = [] → bestIndex d T = -1) ∧
    (d.ranges ≠ [] → d.endTimes.length = d.ranges.length →
      (∀ e ∈ d.endTimes, 0 ≤ e.startIndex ∧ e.startIndex < (d.ranges.length : Int)) →
      (0 ≤ bestIndexStart d T ∧ bestIndexStart d T < count d) ∧
      (0 ≤ bestIndexEnd d T ∧ bestIndexEnd d T < count d) ∧
      (2 * bestIndex d T ≤ bestIndexStart d T + bestIndexEnd d T ∧
        bestIndexStart d T + bestIndexEnd d T < 2 * bestIndex d T + 2) ∧
      (min (bestIndexStart d T) (bestIndexEnd d T) ≤ bestIndex d T ∧
        bestIndex d T ≤ max (bestIndexStart d T) (bestIndexEnd d T)) ∧
      (0 ≤ bestIndex d T ∧ bestIndex d T < count d)) ∧
    ((rangeAt d.ranges 0).start < T → bestIndexStart d T = lastIndex d T) ∧
    ((endAt d.endTimes 0).endTime < T →
      T < (endAt d.endTimes (d.endTimes.length - 1)).endTime →
      bestIndexEnd d T = firstIndexNoParents d T) := by
  refine ⟨?_, ?_, ?_, ?_⟩
  · intro h
    simp [bestIndex, h]
  · intro hne hlen hvalid
    have hne2 : d.endTimes ≠ [] := by
      intro h
      rw [h] at hlen
      exact hne (List.length_eq_zero.mp hlen.symm)
    have hs := bestIndexStart_range d T hne
    have he := bestIndexEnd_range d T hne2 hvalid
    have hbest : bestIndex d T = (bestIndexStart d T + bestIndexEnd d T) / 2 := by
      unfold bestIndex
      have h0 : d.ranges.isEmpty = false := by
        cases hd : d.ranges with
        | nil => exact absurd hd hne
        | cons a l => rfl
      simp only [h0, Bool.false_eq_true, if_false]
      exact Int.tdiv_eq_ediv (by omega) (by decide)
    unfold count
    refine ⟨hs, he, ?_, ?_, ?_⟩
    · rw [hbest]; omega
    · rw [hbest]; omega
    · rw [hbest]; omega
  · intro h
    by_cases hne : d.ranges = []
    · rw [hne] at h
      have h5 : (default : Range).start < T := by simpa [rangeAt] using h
      simp [bestIndexStart, lastIndex, hne, rangeAt, h5]
    unfold bestIndexStart lastIndex
    have h0 : d.ranges.isEmpty = false := by
      cases hd : d.ranges with
      | nil => exact absurd hd hne
      | cons a l => rfl
    have h1 : ¬ (d.ranges.isEmpty = true ∨ (rangeAt d.ranges 0).start ≥ T) := by
      rw [h0]; simp; omega
    rw [if_neg h1]
  · intro h1 h2
    have hne : d.endTimes ≠ [] := by
      intro hn
      rw [hn] at h1 h2
      simp [endAt] at h1 h2
      omega
    have h0 : d.endTimes.isEmpty = false := by
      cases hd : d.endTimes with
      | nil => exact absurd hd hne
      | cons a l => rfl
    unfold bestIndexEnd bestIndexEndTimeIndex firstIndexNoParents
    rw [if_neg (by omega), if_neg (by omega)]
    have h3 : ¬ (d.endTimes.isEmpty = true ∨
        (endAt d.endTimes (d.endTimes.length - 1)).endTime ≤ T) := by
      rw [h0]; simp; omega
    rw [if_neg h3, if_neg (by omega)]

/-- C28, witness of `bestIndex_midpoint`: on the empty store the result is -1; on the
store with the ranges `(0,10)`, `(2,3)` and `(5,1)` and `T = 8` the start search gives 2,
the end search gives 0 and `bestIndex` is 1. -/
theorem bestIndex_midpoint_witness :
    bestIndex TimelineModelPrivate.init 8 = -1 ∧
      bestIndexStart scenarioA 8 = 2 ∧ bestIndexEnd scenarioA 8 = 0 ∧
      bestIndex scenarioA 8 = 1 ∧
      (0 ≤ bestIndex scenarioA 8 ∧ bestIndex scenarioA 8 < count scenarioA) ∧
      bestIndexStart scenarioA 8 = lastIndex scenarioA 8 ∧
      bestIndexEnd scenarioA 8 = firstIndexNoParents scenarioA 8 :=
  ⟨(bestIndex_midpoint TimelineModelPrivate.init 8).1 rfl, by decide, by decide, by decide,
    ((bestIndex_midpoint scenarioA 8).2.1 (by decide) (by decide) (by decide)).2.2.2.2,
    (bestIndex_midpoint scenarioA 8).2.2.1 (by decide),
    (bestIndex_midpoint scenarioA 8).2.2.2 (by decide) (by decide)⟩

/-- A property that holds before a loop over the positions `0 .. n - 1` and is kept by
each iteration holds after the loop. -/
theorem foldl_range_invariant {σ : Type} (step : σ → Nat → σ) (P : Nat → σ → Prop) (init : σ)
    (n : Nat) (h0 : P 0 init)
    (hstep : ∀ k st, k < n → P k st → P (k + 1) (step st k)) :
    P n ((List.range n).foldl step init) := by
  have key : ∀ m, m ≤ n → P m ((List.range m).foldl step init) := by
    intro m
    induction m with
    | zero => intro _; simpa using h0
    | succ k ih =>
      intro hk
      rw [List.range_succ, List.foldl_append]
      exact hstep k _ (by omega) (ih (by omega))
  exact key n (le_refl n)

theorem model_natCast (a : TimelineModelAggregatorPrivate) (i : Nat) :
    model a (i : Int) = a.modelList.getD i TimelineModelPrivate.init := by
  simp [model]

theorem CandidateInv.candidateStep (a : TimelineModelAggregatorPrivate) (itemIndexes : List Int)
    (selectedModel time : Int) (k : Nat) (st : Int × Int)
    (h : CandidateInv a itemIndexes selectedModel time k st) :
    CandidateInv a itemIndexes selectedModel time (k + 1)
      (nextCandidateStep a itemIndexes selectedModel time st k) := by
  unfold nextCandidateStep
  by_cases hidx : itemIndexAt itemIndexes (k : Int) = -1
  · rw [if_pos hidx]
    rcases h with ⟨h1, h2, h3⟩ | ⟨m, hm, h1, h2, h3, h4, h5, h6⟩
    · refine Or.inl ⟨h1, h2, ?_⟩
      intro i hi hne hq
      rcases Nat.lt_succ_iff_lt_or_eq.mp hi with hlt | heq
      · exact h3 i hlt hne hq
      · subst heq; exact absurd hidx hne
    · refine Or.inr ⟨m, by omega, h1, h2, h3, h4, h5, ?_⟩
      intro i hi hne hq
      rcases Nat.lt_succ_iff_lt_or_eq.mp hi with hlt | heq
      · exact h6 i hlt hne hq
      · subst heq; exact absurd hidx hne
  · rw [if_neg hidx]
    simp only
    by_cases hc : startTime (model a k) (itemIndexAt itemIndexes k) < st.2 ∧
        (startTime (model a k) (itemIndexAt itemIndexes k) > time ∨
          (startTime (model a k) (itemIndexAt itemIndexes k) = time ∧
            (k : Int) > selectedModel))
    · rw [if_pos hc]
      refine Or.inr ⟨k, by omega, rfl, rfl, hidx, hc.2, ?_, ?_⟩
      · rcases h with ⟨_, h2, _⟩ | ⟨m, _, _, h2, _, _, h5, _⟩
        · rw [← h2]; exact hc.1
        · rw [h2] at hc; omega
      · intro i hi hne hq
        rcases Nat.lt_succ_iff_lt_or_eq.mp hi with hlt | heq
        · rcases h with ⟨_, h2, h3⟩ | ⟨m, _, _, h2, _, _, h5, h6⟩
          · have := h3 i hlt hne hq
            rw [h2] at hc
            omega
          · have := h6 i hlt hne hq
            rw [h2] at hc
            omega
        · subst heq; exact le_refl _
    · rw [if_neg hc]
      rcases h with ⟨h1, h2, h3⟩ | ⟨m, hm, h1, h2, h3, h4, h5, h6⟩
      · refine Or.inl ⟨h1, h2, ?_⟩
        intro i hi hne hq
        rcases Nat.lt_succ_iff_lt_or_eq.mp hi with hlt | heq
        · exact h3 i hlt hne hq
        · subst heq
          rw [h2] at hc
          by_contra hlt
          exact hc ⟨by omega, hq⟩
      · refine Or.inr ⟨m, by omega, h1, h2, h3, h4, h5, ?_⟩
        intro i hi hne hq
        rcases Nat.lt_succ_iff_lt_or_eq.mp hi with hlt | heq
        · exact h6 i hlt hne hq
        · subst heq
          rw [h2] at hc
          by_contra hlt
          exact hc ⟨by omega, hq⟩

theorem nextCandidate_inv (a : TimelineModelAggregatorPrivate) (itemIndexes : List Int)
    (selectedModel time : Int) :
    CandidateInv a itemIndexes selectedModel time a.modelList.length
      (nextCandidate a itemIndexes selectedModel time) := by
  unfold nextCandidate
  apply foldl_range_invariant (nextCandidateStep a itemIndexes selectedModel time)
    (CandidateInv a itemIndexes selectedModel time)
  · exact Or.inl ⟨rfl, rfl, fun i hi => absurd hi (Nat.not_lt_zero i)⟩
  · intro k st _ h
    exact h.candidateStep

theorem EarliestInv.earliestStep (a : TimelineModelAggregatorPrivate) (c0 : Int) (k : Nat)
    (st : Int × Int × Int) (h : EarliestInv a c0 k st) :
    EarliestInv a c0 (k + 1) (nextEarliestStep a st k) := by
  unfold nextEarliestStep
  simp only
  by_cases hc : count (model a k) > 0 ∧ startTime (model a k) 0 < st.2.2
  · rw [if_pos hc]
    refine Or.inr ⟨k, by omega, rfl, rfl, rfl, hc.1, ?_, ?_⟩
    · rcases h with ⟨_, _, h2, _⟩ | ⟨m, _, _, _, h2, _, h5, _⟩
      · rw [← h2]; exact hc.2
      · rw [h2] at hc; omega
    · intro i hi hne
      rcases Nat.lt_succ_iff_lt_or_eq.mp hi with hlt | heq
      · rcases h with ⟨_, _, h2, h3⟩ | ⟨m, _, _, _, h2, _, h5, h6⟩
        · have := h3 i hlt hne
          rw [h2] at hc
          omega
        · have := h6 i hlt hne
          rw [h2] at hc
          omega
      · subst heq; exact le_refl _
  · rw [if_neg hc]
    rcases h with ⟨h1, h1b, h2, h3⟩ | ⟨m, hm, h1, h1b, h2, h4, h5, h6⟩
    · refine Or.inl ⟨h1, h1b, h2, ?_⟩
      intro i hi hne
      rcases Nat.lt_succ_iff_lt_or_eq.mp hi with hlt | heq
      · exact h3 i hlt hne
      · subst heq
        rw [h2] at hc
        by_contra hlt
        exact hc ⟨hne, by omega⟩
    · refine Or.inr ⟨m, by omega, h1, h1b, h2, h4, h5, ?_⟩
      intro i hi hne
      rcases Nat.lt_succ_iff_lt_or_eq.mp hi with hlt | heq
      · exact h6 i hlt hne
      · subst heq
        rw [h2] at hc
        by_contra hlt
        exact hc ⟨hne, by omega⟩

theorem nextEarliest_inv (a : TimelineModelAggregatorPrivate) (c0 : Int) :
    EarliestInv a c0 a.modelList.length
      ((List.range a.modelList.length).foldl (nextEarliestStep a) (c0, -1, qint64Max)) := by
  apply foldl_range_invariant (nextEarliestStep a) (EarliestInv a c0)
  · exact Or.inl ⟨rfl, rfl, rfl, fun i hi => absurd hi (Nat.not_lt_zero i)⟩
  · intro k st _ h
    exact h.earliestStep

/-- The fallback of `nextItem`: when no candidate qualifies, the second loop ends without
a candidate model and the result is that of the `else` branch: (-1, -1) when every model
is empty, and when some non-empty model starts before the largest `qint64` value, the
first range of a non-empty model whose first start time is the least. -/
theorem nextItem_fallback_earliest (a : TimelineModelAggregatorPrivate)
    (selectedModel selectedItem t time : Int) (itemIndexes : List Int)
    (htime : time = nextItemTime a selectedModel selectedItem t)
    (hidx : itemIndexes = nextItemIndexes a selectedModel selectedItem time)
    (hnone : ∀ i : Nat, i < a.modelList.length → itemIndexAt itemIndexes i ≠ -1 →
      ¬ (startTime (model a i) (itemIndexAt itemIndexes i) > time ∨
        (startTime (model a i) (itemIndexAt itemIndexes i) = time ∧
          (i : Int) > selectedModel))) :
    ((∀ i : Nat, i < a.modelList.length → ¬ count (model a i) > 0) →
      nextItem a selectedModel selectedItem t = (-1, -1)) ∧
    ((∃ i : Nat, i < a.modelList.length ∧ count (model a i) > 0 ∧
        startTime (model a i) 0 < qint64Max) →
      ∃ m : Nat, m < a.modelList.length ∧ nextItem a selectedModel selectedItem t = ((m : Int), 0) ∧
        count (model a m) > 0 ∧
        ∀ i : Nat, i < a.modelList.length → count (model a i) > 0 →
          startTime (model a m) 0 ≤ startTime (model a i) 0) := by
  have hinv := nextCandidate_inv a itemIndexes selectedModel time
  have hc : (nextCandidate a itemIndexes selectedModel time).1 = -1 := by
    rcases hinv with ⟨h1, _, _⟩ | ⟨m, hm, h1, h2, h3, h4, h5, h6⟩
    · exact h1
    · exact absurd h4 (hnone m hm h3)
  have hnext : nextItem a selectedModel selectedItem t = nextEarliest a (-1) := by
    unfold nextItem
    simp only
    rw [← htime, ← hidx, if_neg (not_not.mpr hc), hc]
  have hearly := nextEarliest_inv a (-1)
  rw [hnext]
  unfold nextEarliest
  simp only
  constructor
  · intro hempty
    rcases hearly with ⟨h1, h2, _, _⟩ | ⟨m, hm, _, _, _, h4, _, _⟩
    · exact Prod.ext h1 h2
    · exact absurd h4 (hempty m hm)
  · rintro ⟨i, hi, hcount, hlt⟩
    rcases hearly with ⟨_, _, _, h3⟩ | ⟨m, hm, h1, h2, _, h4, _, h6⟩
    · have := h3 i hi hcount
      omega
    · exact ⟨m, hm, Prod.ext h1 h2, h4, h6⟩

/-- C24, the code at the failing input: an aggregator with one model whose only range
starts at the largest `qint64` value, that range selected.  The only candidate is the
range itself, which does not qualify, the model is not empty, and `nextItem` returns
(-1, -1) instead of the model with its first range. -/
theorem nextItem_fallback_latest :
    count latestStore = 1 ∧ startTime latestStore 0 = qint64Max ∧
      nextItemTime ⟨[latestStore]⟩ 0 0 0 = qint64Max ∧
      nextItemIndexes ⟨[latestStore]⟩ 0 0 qint64Max = [0] ∧
      nextItem ⟨[latestStore]⟩ 0 0 0 = (-1, -1) := by
  decide

/-- C29, the code at the failing input: an aggregator with one model that holds two
ranges, both starting at 5, the first of them selected.  `nextItem` returns the
selection itself; the second range is never reached. -/
theorem nextItem_stuck :
    count twinStore = 2 ∧ StartSorted twinStore.ranges ∧
      nextItem ⟨[twinStore]⟩ 0 0 0 = (0, 0) ∧ nextItem ⟨[twinStore]⟩ 0 1 0 = (0, 0) := by
  decide

/-- C26, counterexample: on the start-sorted store `(0,10)`, `(1,5)`, `(2,1)` with fresh
parent fields, range 1 fully contains range 2 and is shorter than range 0, yet the
parent `computeNesting` assigns to range 2 is range 0. -/
theorem computeNesting_not_innermost :
    StartSorted nestedStore.ranges ∧ (∀ r ∈ nestedStore.ranges, 0 ≤ r.duration) ∧
      (∀ r ∈ nestedStore.ranges, r.parent = -1) ∧
      parentIndex (computeNesting nestedStore) 2 = 0 ∧
      (startTime (computeNesting nestedStore) 1 ≤ startTime (computeNesting nestedStore) 2 ∧
        endTime (computeNesting nestedStore) 1 ≥ endTime (computeNesting nestedStore) 2) ∧
      duration (computeNesting nestedStore) 1 < duration (computeNesting nestedStore) 0 := by
  decide

/-- C26 (as amended): after `computeNesting` on a start-sorted store with non-negative
durations and parent fields initially -1, the parent `q` assigned to a range `i` that has
one is an earlier range without a parent of its own, and no range before `i` that fully
contains `i` has a lower index than `q`; when the start times are pairwise distinct, `q`
fully contains `i`, so that it is the enclosing range with the lowest index and the
earliest start. -/
theorem computeNesting_outermost (d : TimelineModelPrivate)
    (hsorted : StartSorted d.ranges) (hnonneg : ∀ r ∈ d.ranges, 0 ≤ r.duration)
    (hfresh : ∀ r ∈ d.ranges, r.parent = -1) (i : Nat) (hi : i < d.ranges.length)
    (hp : parentIndex (computeNesting d) (i : Int) ≠ -1) :
    ∃ q : Nat, parentIndex (computeNesting d) (i : Int) = (q : Int) ∧ q < i ∧
      parentIndex (computeNesting d) (q : Int) = -1 ∧
      (∀ j : Nat, j < i →
        (startTime (computeNesting d) (j : Int) ≤ startTime (computeNesting d) (i : Int) ∧
          endTime (computeNesting d) (j : Int) ≥ endTime (computeNesting d) (i : Int)) →
        q ≤ j) ∧
      (d.ranges.Pairwise (fun a b => a.start ≠ b.start) →
        startTime (computeNesting d) (q : Int) ≤ startTime (computeNesting d) (i : Int) ∧
          endTime (computeNesting d) (q : Int) ≥ endTime (computeNesting d) (i : Int)) := by
  have hst := computeNestingRanges_state hsorted hnonneg hfresh
  simp only [parentIndex_computeNesting, startTime_computeNesting hst,
    endTime_computeNesting hst] at hp ⊢
  rcases hst.inv.parentOk i hi with h | ⟨q, h1, h2, h3, h4⟩
  · exact (hp h).elim
  · refine ⟨q, h1, h2, h3, ?_, ?_⟩
    · intro j hj hcov
      obtain ⟨q2, hq2, hle⟩ := hst.inv.lowest i hi j hj hcov.2
      have : (q : Int) = (q2 : Int) := by rw [← h1, ← hq2]
      omega
    · intro hdistinct
      refine ⟨hsorted.le q i (by omega) hi, ?_⟩
      rcases h4 with h4 | h4 | ⟨p, hp1, hp2, hp3, _⟩
      · exact h4
      · exact absurd h4 (pairwise_ne_start hdistinct q i h2 hi)
      · rcases hst.inv.parentOk p (by omega) with h5 | ⟨q3, h5, h6, _, _⟩
        · rw [h5] at hp2; omega
        · have hq3 : q3 = q := by
            have : (q3 : Int) = (q : Int) := by rw [← h5, ← hp2]
            omega
          subst hq3
          exact absurd hp3.symm (pairwise_ne_start hdistinct q3 p h6 (by omega))

/-- C26, witness of `computeNesting_outermost`: in the store `(0,10)`, `(1,5)`, `(2,1)`
the parent of range 2 is range 0, which has no parent and contains range 2. -/
theorem computeNesting_outermost_witness :
    ∃ q : Nat, parentIndex (computeNesting nestedStore) ((2 : Nat) : Int) = (q : Int) ∧ q < 2 ∧
      parentIndex (computeNesting nestedStore) (q : Int) = -1 ∧
      (∀ j : Nat, j < 2 →
        (startTime (computeNesting nestedStore) (j : Int)
            ≤ startTime (computeNesting nestedStore) ((2 : Nat) : Int) ∧
          endTime (computeNesting nestedStore) (j : Int)
            ≥ endTime (computeNesting nestedStore) ((2 : Nat) : Int)) →
        q ≤ j) ∧
      (nestedStore.ranges.Pairwise (fun a b => a.start ≠ b.start) →
        startTime (computeNesting nestedStore) (q : Int)
            ≤ startTime (computeNesting nestedStore) ((2 : Nat) : Int) ∧
          endTime (computeNesting nestedStore) (q : Int)
            ≥ endTime (computeNesting nestedStore) ((2 : Nat) : Int)) :=
  computeNesting_outermost nestedStore (by decide) (by decide) (by decide) 2 (by decide)
    (by decide)

/-- C27, the code at the failing input: the store that holds the ranges `(1,1)` and
`(1,3)`, after `computeNesting()` and `insert(0,2,0)`, holds the same start-sorted ranges
`(0,2)`, `(1,1)`, `(1,3)` as the store built by the insertions alone, with the parent 0
left behind in range 2.  `computeNesting` enters range 2 into the list of parent
candidates without assigning its parent, so the stale 0 stays, while on the fresh store
the parent of range 2 is -1. -/
theorem computeNesting_keeps_stale :
    StartSorted staleStore.ranges ∧
      staleStore.ranges.map (fun r => (r.start, r.duration))
        = freshStore.ranges.map (fun r => (r.start, r.duration)) ∧
      staleStore.endTimes = freshStore.endTimes ∧
      (∀ r ∈ freshStore.ranges, r.parent = -1) ∧
      parentIndex staleStore 2 = 0 ∧
      parentIndex (computeNesting staleStore) 2 = 0 ∧
      parentIndex (computeNesting freshStore) 2 = -1 := by
  decide

end Timeline

namespace Sqlite

theorem checkCanOpenDatabase_ok (e : Engine) (b : DatabaseBackend) (path : String) :
    checkCanOpenDatabase e b path = .ok () ↔
      path ≠ "" ∧ e.directoryExists path = true ∧ b.m_databaseHandle = none := by
  unfold checkCanOpenDatabase databaseIsOpen
  by_cases h1 : path = ""
  · simp [h1]
  · by_cases h2 : e.directoryExists path = true
    · cases hb : b.m_databaseHandle <;> simp [h1, h2]
    · simp [h1, h2]

/-- C12: `open` performs its precondition checks before any native call and leaves the
backend as it is when one fails: it raises `DatabaseFilePathIsEmpty` when the path is
empty, otherwise `WrongFilePath` with the path when the containing directory does not
exist, otherwise `DatabaseIsAlreadyOpen` when a handle is held. -/
theorem open_precondition_checks (e : Engine) (b : DatabaseBackend) (path : String)
    (mode : OpenMode) :
    (path = "" →
      openDatabase e b path mode = (.error SqliteException.DatabaseFilePathIsEmpty, b)) ∧
    (path ≠ "" → e.directoryExists path = false →
      openDatabase e b path mode = (.error (SqliteException.WrongFilePath path), b)) ∧
    (path ≠ "" → e.directoryExists path = true → b.m_databaseHandle ≠ none →
      openDatabase e b path mode = (.error SqliteException.DatabaseIsAlreadyOpen, b)) := by
  refine ⟨?_, ?_, ?_⟩
  · intro h
    simp [openDatabase, checkCanOpenDatabase, h]
  · intro h1 h2
    simp [openDatabase, checkCanOpenDatabase, h1, h2]
  · intro h1 h2 h3
    have h4 : databaseIsOpen b = true := by
      unfold databaseIsOpen
      cases hb : b.m_databaseHandle with
      | none => exact (h3 hb).elim
      | some h => rfl
    simp [openDatabase, checkCanOpenDatabase, h1, h2, h4]

/-- C12, witness of `open_precondition_checks`: opening `/nodir/db`, whose directory does
not exist, raises `WrongFilePath` and makes no native call; opening on a backend that
holds a handle raises `DatabaseIsAlreadyOpen`. -/
theorem open_precondition_checks_witness :
    openDatabase sampleEngine DatabaseBackend.init "/nodir/db" OpenMode.ReadWrite
        = (.error (SqliteException.WrongFilePath "/nodir/db"), DatabaseBackend.init) ∧
      openDatabase sampleEngine openBackend "/tmp/db" OpenMode.ReadWrite
        = (.error SqliteException.DatabaseIsAlreadyOpen, openBackend) :=
  ⟨(open_precondition_checks sampleEngine DatabaseBackend.init "/nodir/db"
      OpenMode.ReadWrite).2.1 (by decide) (by decide),
    (open_precondition_checks sampleEngine openBackend "/tmp/db"
      OpenMode.ReadWrite).2.2 (by decide) (by decide) (by decide)⟩

theorem checkDatabaseClosing_ok (resultCode : Int) :
    checkDatabaseClosing resultCode = .ok () ↔ resultCode = SQLITE_OK := by
  unfold checkDatabaseClosing
  by_cases h1 : resultCode = SQLITE_OK
  · simp [h1]
  · by_cases h2 : resultCode = SQLITE_BUSY <;> simp [h1, h2]

theorem close_of_handle (e : Engine) (b : DatabaseBackend) (h : Nat)
    (hb : b.m_databaseHandle = some h) :
    close e b =
      match checkDatabaseClosing e.closeResult with
      | .error x =>
        (.error x, { b with calls := b.calls ++ [NativeCall.sqlite3_close b.m_databaseHandle] })
      | .ok _ =>
        (.ok (), { b with calls := b.calls ++ [NativeCall.sqlite3_close b.m_databaseHandle],
                          m_databaseHandle := none }) := by
  simp [close, checkForOpenDatabaseWhichCanBeClosed, hb]

/-- C13: `close` changes the open/closed state only when it returns normally: without a
handle it raises `DatabaseIsAlreadyClosed`; when the engine reports `SQLITE_BUSY` it
raises `DatabaseIsBusy` and the handle stays; and exactly when the engine returns
`SQLITE_OK` it returns normally, the handle is null and `databaseIsOpen()` is false. -/
theorem close_state (e : Engine) (b : DatabaseBackend) :
    (b.m_databaseHandle = none →
      close e b = (.error SqliteException.DatabaseIsAlreadyClosed, b)) ∧
    (∀ h : Nat, b.m_databaseHandle = some h → e.closeResult = SQLITE_BUSY →
      (close e b).1 = .error SqliteException.DatabaseIsBusy ∧
        (close e b).2.m_databaseHandle = some h) ∧
    (∀ h : Nat, b.m_databaseHandle = some h →
      ((close e b).1 = .ok () ↔ e.closeResult = SQLITE_OK) ∧
      ((close e b).2.m_databaseHandle = none ↔ e.closeResult = SQLITE_OK) ∧
      (databaseIsOpen (close e b).2 = false ↔ e.closeResult = SQLITE_OK)) ∧
    ((close e b).1 ≠ .ok () → (close e b).2.m_databaseHandle = b.m_databaseHandle) := by
  refine ⟨?_, ?_, ?_, ?_⟩
  · intro hb
    simp [close, checkForOpenDatabaseWhichCanBeClosed, hb]
  · intro h hb hbusy
    rw [close_of_handle e b h hb, hbusy]
    exact ⟨rfl, hb⟩
  · intro h hb
    rw [close_of_handle e b h hb]
    by_cases hok : e.closeResult = SQLITE_OK
    · rw [hok]
      simp [checkDatabaseClosing, databaseIsOpen]
    · have hne : checkDatabaseClosing e.closeResult ≠ .ok () :=
        fun hc => hok ((checkDatabaseClosing_ok _).1 hc)
      cases hc : checkDatabaseClosing e.closeResult with
      | ok u => exact (hne (by rw [hc])).elim
      | error x => simp [hok, hb, databaseIsOpen]
  · intro hne
    cases hb : b.m_databaseHandle with
    | none =>
      simp [close, checkForOpenDatabaseWhichCanBeClosed, hb]
    | some h =>
      rw [close_of_handle e b h hb] at hne ⊢
      cases hc : checkDatabaseClosing e.closeResult with
      | ok u =>
        rw [hc] at hne
        exact (hne rfl).elim
      | error x => exact hb

/-- C13, witness of `close_state`: closing the backend that holds the handle 7 while the
engine reports `SQLITE_BUSY` raises `DatabaseIsBusy` and keeps the handle; closing a
backend without a handle raises `DatabaseIsAlreadyClosed`. -/
theorem close_state_witness :
    ((close { sampleEngine with closeResult := SQLITE_BUSY } openBackend).1
        = .error SqliteException.DatabaseIsBusy ∧
      (close { sampleEngine with closeResult := SQLITE_BUSY } openBackend).2.m_databaseHandle
        = some 7) ∧
    close sampleEngine DatabaseBackend.init
      = (.error SqliteException.DatabaseIsAlreadyClosed, DatabaseBackend.init) :=
  ⟨(close_state { sampleEngine with closeResult := SQLITE_BUSY } openBackend).2.1 7
      (by decide) (by decide),
    (close_state sampleEngine DatabaseBackend.init).1 (by decide)⟩

/-- C14: `closeWithoutException` raises nothing (it returns a state, whatever code the
engine returns) and leaves the backend closed; on a backend that is already closed it
makes no native call and changes nothing, so it is idempotent. -/
theorem closeWithoutException_closes (e : Engine) (b : DatabaseBackend) :
    (closeWithoutException e b).m_databaseHandle = none ∧
      databaseIsOpen (closeWithoutException e b) = false ∧
      (b.m_databaseHandle = none → closeWithoutException e b = b) ∧
      (∀ e2 : Engine, closeWithoutException e2 (closeWithoutException e b)
        = closeWithoutException e b) ∧
      (∀ h : Nat, b.m_databaseHandle = some h →
        (closeWithoutException e b).calls = b.calls ++ [NativeCall.sqlite3_close_v2 (some h)]) := by
  cases hb : b.m_databaseHandle with
  | none =>
    have h1 : closeWithoutException e b = b := by simp [closeWithoutException, hb]
    refine ⟨by rw [h1]; exact hb, by rw [h1]; simp [databaseIsOpen, hb], fun _ => h1, ?_, ?_⟩
    · intro e2
      rw [h1]
      simp [closeWithoutException, hb]
    · intro h hh
      exact absurd hh (by simp)
  | some h =>
    refine ⟨by simp [closeWithoutException, hb], by simp [closeWithoutException, hb, databaseIsOpen],
      fun hn => absurd hn (by simp), ?_, ?_⟩
    · intro e2
      simp [closeWithoutException, hb]
    · intro h2 hh
      simp [closeWithoutException, hb] at hh ⊢
      exact hh

/-- C14, witness of `closeWithoutException_closes`: on a backend without a handle
`closeWithoutException` changes nothing, also when the engine would report an error. -/
theorem closeWithoutException_closes_witness :
    closeWithoutException { sampleEngine with closeV2Result := SQLITE_BUSY } DatabaseBackend.init
      = DatabaseBackend.init :=
  (closeWithoutException_closes { sampleEngine with closeV2Result := SQLITE_BUSY }
    DatabaseBackend.init).2.2.1 (by decide)

theorem closeWithoutException_handle (e : Engine) (b : DatabaseBackend) :
    (closeWithoutException e b).m_databaseHandle = none := by
  cases hb : b.m_databaseHandle <;> simp [closeWithoutException, hb]

/-- When the native open call returns a code other than `SQLITE_OK`, the handle is
closed first, and `sqliteDatabaseHandle()`, called for the message of the `UnknowError`
to be thrown, raises `DatabaseIsNotOpen`. -/
theorem checkDatabaseCouldBeOpened_fail (e : Engine) (b : DatabaseBackend) (resultCode : Int)
    (h : resultCode ≠ SQLITE_OK) :
    checkDatabaseCouldBeOpened e b resultCode
      = (.error SqliteException.DatabaseIsNotOpen, closeWithoutException e b) := by
  unfold checkDatabaseCouldBeOpened
  rw [if_neg h]
  simp only [sqliteDatabaseHandle, closeWithoutException_handle]

theorem openDatabase_native_fail (e : Engine) (b : DatabaseBackend) (path : String)
    (mode : OpenMode) (hpre : checkCanOpenDatabase e b path = .ok ())
    (h : e.openResult ≠ SQLITE_OK) :
    openDatabase e b path mode
      = (.error SqliteException.DatabaseIsNotOpen,
          closeWithoutException e
            { b with m_databaseHandle := e.openHandle,
                     calls := b.calls ++ [NativeCall.sqlite3_open_v2 path (openMode mode)] }) := by
  unfold openDatabase
  rw [hpre]
  simp only [checkDatabaseCouldBeOpened_fail e _ _ h]

theorem openDatabase_pre_fail (e : Engine) (b : DatabaseBackend) (path : String)
    (mode : OpenMode) (x : SqliteException) (hpre : checkCanOpenDatabase e b path = .error x) :
    openDatabase e b path mode = (.error x, b) := by
  unfold openDatabase
  rw [hpre]

/-- C15 (as amended): whenever `open` is called on a backend without a handle and a
precondition check fails or the native open call returns a code other than `SQLITE_OK`,
`open` raises and the backend is closed afterwards: `databaseIsOpen()` is false. -/
theorem open_failure_closed (e : Engine) (b : DatabaseBackend) (path : String)
    (mode : OpenMode) (hclosed : b.m_databaseHandle = none)
    (hfail : checkCanOpenDatabase e b path ≠ .ok () ∨ e.openResult ≠ SQLITE_OK) :
    (∃ x : SqliteException, (openDatabase e b path mode).1 = .error x) ∧
      databaseIsOpen (openDatabase e b path mode).2 = false := by
  cases hpre : checkCanOpenDatabase e b path with
  | error x =>
    rw [openDatabase_pre_fail e b path mode x hpre]
    exact ⟨⟨x, rfl⟩, by simp [databaseIsOpen, hclosed]⟩
  | ok u =>
    have hcode : e.openResult ≠ SQLITE_OK := by
      rcases hfail with h | h
      · exact (h hpre).elim
      · exact h
    rw [openDatabase_native_fail e b path mode hpre hcode]
    exact ⟨⟨_, rfl⟩, by simp [databaseIsOpen, closeWithoutException_handle]⟩

/-- C15, witness of `open_failure_closed`: on a fresh backend, `open` of `/tmp/db` with
the native open call returning 14 (`SQLITE_CANTOPEN`) raises and leaves the backend
closed. -/
theorem open_failure_closed_witness :
    (∃ x : SqliteException,
      (openDatabase { sampleEngine with openResult := 14 } DatabaseBackend.init "/tmp/db"
        OpenMode.ReadWrite).1 = .error x) ∧
      databaseIsOpen (openDatabase { sampleEngine with openResult := 14 } DatabaseBackend.init
        "/tmp/db" OpenMode.ReadWrite).2 = false :=
  open_failure_closed { sampleEngine with openResult := 14 } DatabaseBackend.init "/tmp/db"
    OpenMode.ReadWrite (by decide) (Or.inr (by decide))

/-- C15, counterexample: on a backend that already holds a handle, `open` raises
`DatabaseIsAlreadyOpen` and the backend is open afterwards. -/
theorem open_failure_stays_open :
    (openDatabase sampleEngine openBackend "/tmp/db" OpenMode.ReadWrite).1
        = .error SqliteException.DatabaseIsAlreadyOpen ∧
      databaseIsOpen (openDatabase sampleEngine openBackend "/tmp/db" OpenMode.ReadWrite).2
        = true := by
  decide

/-- C16, the code at the failing inputs: when the native open call returns 14
(`SQLITE_CANTOPEN`), `open` closes the handle and the exception that reaches the caller
is `DatabaseIsNotOpen`, not `UnknowError`; when the initialisation of the array extension
returns 1 (`SQLITE_ERROR`), `open` raises `DatabaseIsNotOpen` and the handle stays
open, no close call being made. -/
theorem open_failure_exception :
    openDatabase { sampleEngine with openResult := 14 } DatabaseBackend.init "/tmp/db"
        OpenMode.ReadWrite
      = (.error SqliteException.DatabaseIsNotOpen,
          ⟨none, [NativeCall.sqlite3_open_v2 "/tmp/db" 6, NativeCall.sqlite3_close_v2 (some 7)],
            0⟩) ∧
    openDatabase { sampleEngine with carrayResult := 1 } DatabaseBackend.init "/tmp/db"
        OpenMode.ReadWrite
      = (.error SqliteException.DatabaseIsNotOpen,
          ⟨some 7, [NativeCall.sqlite3_open_v2 "/tmp/db" 6,
              NativeCall.sqlite3_extended_result_codes (some 7),
              NativeCall.sqlite3_carray_init (some 7)], 0⟩) := by
  decide

/-- C17, the code on a closed backend: the six operations that go through
`sqliteDatabaseHandle()` raise `DatabaseIsNotOpen` and make no native call, while
`setBusyTimeout`, `walCheckpointFull`, `setUpdateHook` and `resetUpdateHook` pass the null
handle to the engine and do not raise `DatabaseIsNotOpen`. -/
theorem closed_backend_operations (e : Engine) (calls : List NativeCall) (w : Nat)
    (rowId timeout : Int) :
    changesCount e ⟨none, calls, w⟩
      = (.error SqliteException.DatabaseIsNotOpen, ⟨none, calls, w⟩) ∧
    totalChangesCount e ⟨none, calls, w⟩
      = (.error SqliteException.DatabaseIsNotOpen, ⟨none, calls, w⟩) ∧
    lastInsertedRowId e ⟨none, calls, w⟩
      = (.error SqliteException.DatabaseIsNotOpen, ⟨none, calls, w⟩) ∧
    setLastInsertedRowId ⟨none, calls, w⟩ rowId
      = (.error SqliteException.DatabaseIsNotOpen, ⟨none, calls, w⟩) ∧
    checkpointFullWalLog e ⟨none, calls, w⟩
      = (.error SqliteException.DatabaseIsNotOpen, ⟨none, calls, w⟩) ∧
    registerBusyHandler e ⟨none, calls, w⟩
      = (.error SqliteException.DatabaseIsNotOpen, ⟨none, calls, w⟩) ∧
    setBusyTimeout ⟨none, calls, w⟩ timeout
      = (.ok (), ⟨none, calls ++ [NativeCall.sqlite3_busy_timeout none timeout], w⟩) ∧
    (walCheckpointFull e ⟨none, calls, w⟩).2
      = ⟨none, calls ++ [NativeCall.sqlite3_wal_checkpoint_v2 none SQLITE_CHECKPOINT_TRUNCATE],
          w⟩ ∧
    (walCheckpointFull e ⟨none, calls, w⟩).1 ≠ .error SqliteException.DatabaseIsNotOpen ∧
    setUpdateHook ⟨none, calls, w⟩
      = (.ok (), ⟨none, calls ++ [NativeCall.sqlite3_update_hook none true], w⟩) ∧
    resetUpdateHook ⟨none, calls, w⟩
      = (.ok (), ⟨none, calls ++ [NativeCall.sqlite3_update_hook none false], w⟩) := by
  refine ⟨rfl, rfl, rfl, rfl, rfl, rfl, rfl, rfl, ?_, rfl, rfl⟩
  show walCheckpointResult _ e.checkpointResult ≠ .error SqliteException.DatabaseIsNotOpen
  unfold walCheckpointResult throwException
  intro h
  split at h
  · exact absurd h (by simp)
  · split at h
    · exact absurd h (by simp)
    · split at h
      · simp at h
      · split at h
        · exact absurd h (by simp)
        · exact absurd h (by simp)

theorem pragmaToJournalMode_roundtrip (J : JournalMode) :
    pragmaToJournalMode (journalModeToPragma J) = .ok J := by
  cases J <;> decide

theorem pragmaToLockingMode_roundtrip (L : LockingMode) :
    pragmaToLockingMode (lockingModeToPragma L) = L := by
  cases L <;> decide

theorem pragmaToJournalMode_outside (s : String) (h : s ∉ journalModeStrings) :
    pragmaToJournalMode s = .error SqliteException.Exception := by
  simp only [journalModeStrings, List.mem_cons, List.mem_singleton, not_or, List.mem_nil_iff,
    or_false] at h
  obtain ⟨h1, h2, h3, h4, h5⟩ := h
  simp [pragmaToJournalMode, indexOfPragma, indexOfPragmaFrom, journalModeStrings, h1, h2, h3,
    h4, h5]

theorem setPragmaValue_ok (db : Database) (key value : String) :
    setPragmaValue db key value = some (.ok ()) ↔
      db.execute ("PRAGMA " ++ key ++ "='" ++ value ++ "'") = .ok () ∧
        pragmaValue db key = some (.ok value) := by
  unfold setPragmaValue pragmaValue
  cases hw : db.execute ("PRAGMA " ++ key ++ "='" ++ value ++ "'") with
  | error x => simp
  | ok u =>
    cases hr : toValue (db.fetch ("PRAGMA " ++ key)) with
    | none => simp
    | some r =>
      cases r with
      | error x => simp
      | ok v =>
        by_cases hv : v = value
        · simp [checkPragmaValue, hv]
        · simp [checkPragmaValue, hv]

/-- C18: the mappings between the modes and their pragma strings round-trip:
`pragmaToJournalMode(journalModeToPragma(J)) = J` for each of the five journal modes,
`pragmaToLockingMode(lockingModeToPragma(L)) = L` for each of the three locking modes,
`pragmaToJournalMode` raises on every string outside the table, and a `setJournalMode(J)`
that returns normally is followed by `journalMode() = J` as long as the database reports
the same pragma value on the next read. -/
theorem pragma_round_trip :
    (∀ J : JournalMode, pragmaToJournalMode (journalModeToPragma J) = .ok J) ∧
    (∀ L : LockingMode, pragmaToLockingMode (lockingModeToPragma L) = L) ∧
    (∀ s : String, s ∉ journalModeStrings →
      pragmaToJournalMode s = .error SqliteException.Exception) ∧
    (∀ (db db2 : Database) (J : JournalMode), setJournalMode db J = some (.ok ()) →
      pragmaValue db2 "journal_mode" = pragmaValue db "journal_mode" →
      journalMode db2 = some (.ok J)) := by
  refine ⟨pragmaToJournalMode_roundtrip, pragmaToLockingMode_roundtrip,
    pragmaToJournalMode_outside, ?_⟩
  intro db db2 J hset hsame
  have hread := ((setPragmaValue_ok db "journal_mode" (journalModeToPragma J)).1 hset).2
  unfold journalMode
  rw [hsame, hread]
  simp only [pragmaToJournalMode_roundtrip]

/-- C18, witness of `pragma_round_trip`: on a database that reports `wal`,
`setJournalMode(Wal)` returns normally and `journalMode()` is `Wal`; the string `WAL` is
outside the table and `pragmaToJournalMode` raises on it. -/
theorem pragma_round_trip_witness :
    setJournalMode walDatabase JournalMode.Wal = some (.ok ()) ∧
      journalMode walDatabase = some (.ok JournalMode.Wal) ∧
      pragmaToJournalMode "WAL" = .error SqliteException.Exception :=
  ⟨by decide,
    pragma_round_trip.2.2.2 walDatabase walDatabase JournalMode.Wal (by decide) rfl,
    pragma_round_trip.2.2.1 "WAL" (by decide)⟩

/-- C19: `setPragmaValue(key, value)` writes the pragma and reads it back; when both
statements run, it raises `PragmaValueNotSet` if and only if the value read back differs
from the requested value as a string, and it returns normally if and only if they are
equal; it never returns normally without the write and the read-back of that value. -/
theorem setPragmaValue_checks (db : Database) (key value : String) :
    (∀ v : String, db.execute ("PRAGMA " ++ key ++ "='" ++ value ++ "'") = .ok () →
      pragmaValue db key = some (.ok v) →
      (setPragmaValue db key value = some (.error SqliteException.PragmaValueNotSet) ↔
        v ≠ value) ∧
      (setPragmaValue db key value = some (.ok ()) ↔ v = value)) ∧
    (setPragmaValue db key value = some (.ok ()) ↔
      db.execute ("PRAGMA " ++ key ++ "='" ++ value ++ "'") = .ok () ∧
        pragmaValue db key = some (.ok value)) := by
  refine ⟨?_, setPragmaValue_ok db key value⟩
  intro v hw hr
  unfold pragmaValue at hr
  unfold setPragmaValue
  rw [hw, hr]
  by_cases hv : v = value
  · simp [checkPragmaValue, hv]
  · simp [checkPragmaValue, hv]

/-- C19, witness of `setPragmaValue_checks`: on a database that reports `wal`, setting
`journal_mode` to `wal` returns normally and setting it to `delete` raises
`PragmaValueNotSet`. -/
theorem setPragmaValue_checks_witness :
    setPragmaValue walDatabase "journal_mode" "wal" = some (.ok ()) ∧
      setPragmaValue walDatabase "journal_mode" "delete"
        = some (.error SqliteException.PragmaValueNotSet) :=
  ⟨((setPragmaValue_checks walDatabase "journal_mode" "wal").1 "wal" rfl (by decide)).2.2 rfl,
    ((setPragmaValue_checks walDatabase "journal_mode" "delete").1 "wal" rfl
      (by decide)).1.2 (by decide)⟩

/-- The result of the `switch` of `walCheckpointFull`: it returns normally exactly for
`SQLITE_OK` and for every code that has no `case`. -/
theorem walCheckpointResult_ok (b : DatabaseBackend) (resultCode : Int) :
    walCheckpointResult b resultCode = .ok () ↔
      resultCode = SQLITE_OK ∨
        (resultCode ∉ [SQLITE_BUSY_RECOVERY, SQLITE_BUSY_SNAPSHOT, SQLITE_BUSY_TIMEOUT,
          SQLITE_BUSY, SQLITE_ERROR_MISSING_COLLSEQ, SQLITE_ERROR_RETRY, SQLITE_ERROR_SNAPSHOT,
          SQLITE_ERROR, SQLITE_MISUSE]) := by
  unfold walCheckpointResult
  simp only [List.mem_cons, List.mem_singleton, List.mem_nil_iff, or_false, not_or]
  by_cases h0 : resultCode = SQLITE_OK
  · simp [h0]
  · rw [if_neg h0]
    by_cases h1 : resultCode = SQLITE_BUSY_RECOVERY ∨ resultCode = SQLITE_BUSY_SNAPSHOT ∨
        resultCode = SQLITE_BUSY_TIMEOUT ∨ resultCode = SQLITE_BUSY
    · rw [if_pos h1]
      simp only [h0, false_or]
      constructor
      · intro h; exact absurd h (by simp)
      · intro h
        rcases h1 with h1 | h1 | h1 | h1
        · exact (h.1 h1).elim
        · exact (h.2.1 h1).elim
        · exact (h.2.2.1 h1).elim
        · exact (h.2.2.2.1 h1).elim
    · rw [if_neg h1]
      by_cases h2 : resultCode = SQLITE_ERROR_MISSING_COLLSEQ ∨ resultCode = SQLITE_ERROR_RETRY ∨
          resultCode = SQLITE_ERROR_SNAPSHOT ∨ resultCode = SQLITE_ERROR
      · rw [if_pos h2]
        simp only [h0, false_or]
        constructor
        · intro h; exact absurd h (by simp)
        · intro h
          rcases h2 with h2 | h2 | h2 | h2
          · exact (h.2.2.2.2.1 h2).elim
          · exact (h.2.2.2.2.2.1 h2).elim
          · exact (h.2.2.2.2.2.2.1 h2).elim
          · exact (h.2.2.2.2.2.2.2.1 h2).elim
      · rw [if_neg h2]
        by_cases h3 : resultCode = SQLITE_MISUSE
        · rw [if_pos h3]
          simp only [h0, false_or]
          constructor
          · intro h; exact absurd h (by simp)
          · intro h; exact (h.2.2.2.2.2.2.2.2 h3).elim
        · rw [if_neg h3]
          simp only [not_or] at h1 h2
          simp only [true_iff]
          right
          exact ⟨h1.1, h1.2.1, h1.2.2.1, h1.2.2.2, h2.1, h2.2.1, h2.2.2.1, h2.2.2.2, h3⟩

/-- C20, the code at the failing input: when the engine returns 10 (`SQLITE_IOERR`),
which is neither `SQLITE_OK` nor a code with a `case`, `walCheckpointFull` returns
normally; for comparison, `SQLITE_BUSY_TIMEOUT` raises `DatabaseIsBusy`, `SQLITE_ERROR`
raises an exception with the message of the engine and `SQLITE_MISUSE` an exception. -/
theorem walCheckpointFull_unmapped :
    (10 : Int) ≠ SQLITE_OK ∧
      (walCheckpointFull { sampleEngine with checkpointResult := 10 } openBackend).1 = .ok () ∧
      (walCheckpointFull { sampleEngine with checkpointResult := SQLITE_BUSY_TIMEOUT }
        openBackend).1 = .error SqliteException.DatabaseIsBusy ∧
      (walCheckpointFull { sampleEngine with checkpointResult := SQLITE_ERROR }
        openBackend).1 = .error SqliteException.ExceptionWithMessage ∧
      (walCheckpointFull { sampleEngine with checkpointResult := SQLITE_MISUSE }
        openBackend).1 = .error SqliteException.Exception := by
  decide

/-- C21, the code at the failing input: `openMode(ReadOnly)` is
`SQLITE_OPEN_CREATE | SQLITE_OPEN_READONLY`, the value 5, so the create flag is part of
the result for `ReadOnly` as it is for `ReadWrite`, and `open(path, ReadOnly)` hands
these flags to `sqlite3_open_v2`. -/
theorem openMode_readOnly_create :
    openMode OpenMode.ReadOnly = SQLITE_OPEN_CREATE ||| SQLITE_OPEN_READONLY ∧
      openMode OpenMode.ReadOnly = 5 ∧
      openMode OpenMode.ReadOnly &&& SQLITE_OPEN_CREATE = SQLITE_OPEN_CREATE ∧
      SQLITE_OPEN_CREATE ≠ 0 ∧
      openMode OpenMode.ReadWrite &&& SQLITE_OPEN_CREATE = SQLITE_OPEN_CREATE ∧
      (openDatabase sampleEngine DatabaseBackend.init "/tmp/db" OpenMode.ReadOnly).2.calls.head?
        = some (NativeCall.sqlite3_open_v2 "/tmp/db" 5) := by
  decide

/-- The flags in the result of `openMode`: the access flag of the mode without the other
access flag, and the create flag for both modes. -/
theorem openMode_flags :
    openMode OpenMode.ReadOnly = SQLITE_OPEN_READONLY ||| SQLITE_OPEN_CREATE ∧
    openMode OpenMode.ReadWrite = SQLITE_OPEN_READWRITE ||| SQLITE_OPEN_CREATE ∧
    openMode OpenMode.ReadOnly &&& SQLITE_OPEN_READONLY = SQLITE_OPEN_READONLY ∧
    openMode OpenMode.ReadOnly &&& SQLITE_OPEN_READWRITE = 0 ∧
    openMode OpenMode.ReadWrite &&& SQLITE_OPEN_READWRITE = SQLITE_OPEN_READWRITE ∧
    openMode OpenMode.ReadWrite &&& SQLITE_OPEN_READONLY = 0 ∧
    (∀ mode : OpenMode, openMode mode &&& SQLITE_OPEN_CREATE = SQLITE_OPEN_CREATE) := by
  refine ⟨by decide, by decide, by decide, by decide, by decide, by decide, ?_⟩
  intro mode
  cases mode <;> decide

theorem execute_after_busy (n : Nat) (r : Except SqliteException Unit)
    (rest : List (Except SqliteException Unit))
    (hr : r ≠ .error SqliteException.StatementIsBusy) :
    execute (List.replicate n (.error SqliteException.StatementIsBusy) ++ r :: rest)
      = some (r, n + 1) := by
  induction n with
  | zero =>
    simp only [List.replicate_zero, List.nil_append]
    cases r with
    | ok u => rfl
    | error x =>
      cases x <;> first | rfl | exact absurd rfl hr
  | succ k ih =>
    rw [List.replicate_succ, List.cons_append]
    show (match execute (List.replicate k (.error SqliteException.StatementIsBusy) ++ r :: rest)
      with
      | none => none
      | some (r, attempts) => some (r, attempts + 1)) = _
    rw [ih]

theorem execute_none (attempts : List (Except SqliteException Unit)) :
    execute attempts = none ↔ ∀ a ∈ attempts, a = .error SqliteException.StatementIsBusy := by
  induction attempts with
  | nil => simp [execute]
  | cons a rest ih =>
    cases a with
    | ok u => simp [execute]
    | error x =>
      cases x <;> simp [execute]
      cases h : execute rest with
      | none => simpa [h] using ih
      | some p =>
        simp only [h, false_iff] at ih
        simpa using ih

/-- C22: `execute(sql)` makes a new attempt each time an attempt raises `StatementIsBusy`
and stops at the first attempt that does not: after `n` busy attempts followed by an
attempt with another outcome it has made exactly `n + 1` attempts and its outcome is the
outcome of the last one, a normal return or that attempt's exception, whatever attempts
would follow; this holds for every `n`, and `execute` only fails to give a result while
every attempt is busy. -/
theorem execute_retries :
    (∀ (n : Nat) (r : Except SqliteException Unit) (rest : List (Except SqliteException Unit)),
      r ≠ .error SqliteException.StatementIsBusy →
      execute (List.replicate n (.error SqliteException.StatementIsBusy) ++ r :: rest)
        = some (r, n + 1)) ∧
    (∀ attempts : List (Except SqliteException Unit),
      execute attempts = none ↔
        ∀ a ∈ attempts, a = .error SqliteException.StatementIsBusy) :=
  ⟨execute_after_busy, execute_none⟩

/-- C22, witness of `execute_retries`: after three busy attempts a successful attempt
ends `execute` normally with four attempts made, and an attempt that raises
`DatabaseIsBusy` ends it with that exception, the attempt after it never being made. -/
theorem execute_retries_witness :
    execute (List.replicate 3 (.error SqliteException.StatementIsBusy) ++ [.ok ()])
        = some (.ok (), 4) ∧
      execute (List.replicate 3 (.error SqliteException.StatementIsBusy)
          ++ .error SqliteException.DatabaseIsBusy :: [.ok ()])
        = some (.error SqliteException.DatabaseIsBusy, 4) :=
  ⟨execute_retries.1 3 (.ok ()) [] (by decide),
    execute_retries.1 3 (.error SqliteException.DatabaseIsBusy) [.ok ()] (by decide)⟩

end Sqlite
